import Mathlib

/-!
Genepool simulation engine (`src/TBML/GenepoolSimulation.h`)

A shallow embedding of `tbml::ga::Genepool<TGenome, TAgent>` together with theorems about
its lifecycle (`resetGenepool`, `evaluateGeneration`, `iterateGeneration`, `render`,
`configThreading`) and its two selection strategies.

Modelling conventions.

* The genepool object is the record `Genepool`; every member function takes the record and
  returns the record after the call, together with an `Outcome` saying how the call ended.
* Everything outside the engine that a call may touch (the random number generator behind
  `fn::getRandomFloat` / `fn::getRandomInt`, the genome factory, the randomness inside
  `crossover`, the render window) is one world value of type `W`, passed in and out.
* `float` values that come from outside the engine (fitness, mutation rate, random draws)
  are exact rationals.  The one float computation the engine makes on its own integers, the
  division `(float)populationSize / threadCount` of line 140, is carried out in IEEE single
  precision (`toFloat32`: 24 significant bits, round to nearest, ties to even).
* `int` / `size_t` counters are unbounded integers; no population is large enough to wrap.
* An agent's `evaluate()` is a function of the agent's own state, which is what the
  threaded branch of `evaluateGeneration` needs in order to be free of data races.  The
  tasks of one round work on disjoint slices, so running them one after the other in index
  order gives the state that the round leaves behind once every future has been awaited.
* `std::sort` is any function that returns a permutation of its input ordered by the
  comparator (`StdSort`); the order of agents with equal fitness is left open.
* `while` loops take a fuel argument: the number of times the loop body may run; a loop
  that wants one more pass than its fuel allows ends with `Outcome.outOfFuel`.
* Console output is not modelled.
-/

namespace tbml.ga

variable {G A W : Type}

/-! ## Outcomes -/

/-- The `std::runtime_error`s thrown by the engine, one constructor per message. -/
inductive EngineError where
  | evaluateUninitialized
  | iterateUninitialized
  | renderUninitialized
  | fullAndStepThreading
  | syncWithoutFullThreading
  deriving DecidableEq

/-- How a call ended: it returned, it threw, it ran into undefined behaviour (an index
outside a vector, a conversion of a non-finite float), or the model ran out of fuel. -/
inductive Outcome where
  | ok
  | threw (e : EngineError)
  | fault
  | outOfFuel
  deriving DecidableEq

/-! ## Collaborators and state -/

/-- What the engine is parameterised over: the two factories handed to the constructor,
the virtual members of `Genome` and `Agent`, the random sources of `Utility.h` and the
size of the `ThreadPool` member. -/
structure Collaborators (G A W : Type) where
  createGenomeFn : W → G × W
  createAgentFn : G → A
  crossover : G → G → ℚ → W → G × W
  evaluate : A → A × Bool
  renderAgent : A → W → A × W
  getGenome : A → G
  getFitness : A → ℚ
  getFinished : A → Bool
  getRandomFloat : W → ℚ × W
  getRandomInt : Int → Int → W → Int × W
  poolSize : Nat

/-- The contract of `std::sort` called with the comparator
`a->getFitness() > b->getFitness()`: the result is a rearrangement of the input in which
no later element compares before an earlier one. -/
structure StdSort (A : Type) (key : A → ℚ) where
  sort : List A → List A
  perm : ∀ l, List.Perm (sort l) l
  sorted : ∀ l, List.Pairwise (fun a b => key b ≤ key a) (sort l)

/-- The data members of `Genepool` (the factories and the thread pool live in
`Collaborators`). `bestGenome` is a shared pointer that may be null. -/
structure Genepool (G A : Type) where
  useThreadedStep : Bool
  useThreadedFullStep : Bool
  syncThreadedFullSteps : Bool
  showVisuals : Bool
  populationSize : Int
  mutationRate : ℚ
  isGenepoolInitialized : Bool
  isGenerationEvaluated : Bool
  currentGeneration : Int
  currentStep : Int
  bestGenome : Option G
  bestFitness : ℚ
  agentPopulation : List A

/-- The genepool right after its constructor ran: the default member initialisers. -/
def Genepool.constructed : Genepool G A where
  useThreadedStep := false
  useThreadedFullStep := false
  syncThreadedFullSteps := false
  showVisuals := true
  populationSize := 0
  mutationRate := 0
  isGenepoolInitialized := false
  isGenerationEvaluated := false
  currentGeneration := 0
  currentStep := 0
  bestGenome := none
  bestFitness := 0
  agentPopulation := []

/-- The population vector has as many agents as the `populationSize` member says. -/
def Genepool.WellFormed (s : Genepool G A) : Prop :=
  (s.agentPopulation.length : Int) = s.populationSize

/-! ## Accessors -/

def getGenerationNumber (s : Genepool G A) : Int := s.currentGeneration

def getBestData (s : Genepool G A) : Option G := s.bestGenome

def getBestFitness (s : Genepool G A) : ℚ := s.bestFitness

def getGenepoolInitialized (s : Genepool G A) : Bool := s.isGenepoolInitialized

def getGenerationEvaluated (s : Genepool G A) : Bool := s.isGenerationEvaluated

def getShowVisuals (s : Genepool G A) : Bool := s.showVisuals

def setShowVisuals (showVisuals : Bool) (s : Genepool G A) : Genepool G A :=
  { s with showVisuals := showVisuals }

/-! ## resetGenepool -/

/-- The body of `initializeGeneration` is empty. -/
def initializeGeneration (s : Genepool G A) : Genepool G A := s

/-- The loop of `resetGenepool`: `count` more rounds of genome factory, agent factory,
`push_back`. -/
def createPopulation (C : Collaborators G A W) : Nat → List A → W → List A × W
  | 0, population, w => (population, w)
  | count + 1, population, w =>
    let (genome, w1) := C.createGenomeFn w
    let agent := C.createAgentFn genome
    createPopulation C count (population ++ [agent]) w1

def resetGenepool (C : Collaborators G A W) (populationSize : Int) (mutationRate : ℚ)
    (s : Genepool G A) (w : W) : Genepool G A × W :=
  let (population, w1) := createPopulation C populationSize.toNat [] w
  (initializeGeneration
    { s with
      agentPopulation := population
      isGenepoolInitialized := true
      populationSize := populationSize
      mutationRate := mutationRate
      currentGeneration := 1
      currentStep := 0
      isGenerationEvaluated := false }, w1)

/-! ## configThreading -/

def configThreading (enableMultithreadedStepEvaluation enableMultithreadedFullEvaluation
    syncMultithreadedSteps : Bool) (s : Genepool G A) : Outcome × Genepool G A :=
  if enableMultithreadedFullEvaluation && enableMultithreadedStepEvaluation then
    (Outcome.threw EngineError.fullAndStepThreading, s)
  else if syncMultithreadedSteps && !enableMultithreadedFullEvaluation then
    (Outcome.threw EngineError.syncWithoutFullThreading, s)
  else
    (Outcome.ok,
      { s with
        useThreadedStep := enableMultithreadedStepEvaluation
        useThreadedFullStep := enableMultithreadedFullEvaluation
        syncThreadedFullSteps := syncMultithreadedSteps })

/-- A sequence of `configThreading` calls, a throwing call being caught by the caller. -/
def configThreadingAll : List (Bool × Bool × Bool) → Genepool G A → Genepool G A
  | [], s => s
  | (step, full, sync) :: calls, s => configThreadingAll calls (configThreading step full sync s).2

/-! ## Single-precision floats -/

/-- Rounding of a rational to the nearest integer, a tie going to the even neighbour. -/
def roundTiesEven (x : ℚ) : Int :=
  if x - ⌊x⌋ < 1 / 2 then ⌊x⌋
  else if 1 / 2 < x - ⌊x⌋ then ⌊x⌋ + 1
  else if ⌊x⌋ % 2 = 0 then ⌊x⌋ else ⌊x⌋ + 1

/-- The value a C++ `float` holds after a conversion or an arithmetic operation whose exact
result is `x`: the nearest number with a significand of 24 bits, ties to even (the default
rounding mode). With `2 ^ e <= |x| < 2 ^ (e + 1)` the representable neighbours of `x` are the
multiples of `2 ^ (e - 23)`. The exponent range of the format is not modelled: line 140
converts an `int` and a `size_t` and divides the larger by the smaller, and all three values
lie between 1 and `2 ^ 31`. -/
def toFloat32 (x : ℚ) : ℚ :=
  if x = 0 then 0
  else (roundTiesEven (x / (2 : ℚ) ^ (Int.log 2 |x| - 23)) : ℚ) * (2 : ℚ) ^ (Int.log 2 |x| - 23)

/-! ## evaluateGeneration -/

/-- One pass of `for (auto& inst : agentPopulation) flag &= inst->evaluate();`. -/
def evaluatePass (evaluate : A → A × Bool) : List A → Bool → List A × Bool
  | [], flag => ([], flag)
  | inst :: rest, flag =>
    let (inst1, finished) := evaluate inst
    let (rest1, flag1) := evaluatePass evaluate rest (flag && finished)
    (inst1 :: rest1, flag1)

/-- The single-threaded branch: `while (!isGenerationEvaluated) ...`. -/
def evaluateSingleThreaded (C : Collaborators G A W) (singleStep : Bool) :
    Nat → Genepool G A → Outcome × Genepool G A
  | 0, s => if s.isGenerationEvaluated then (Outcome.ok, s) else (Outcome.outOfFuel, s)
  | fuel + 1, s =>
    if s.isGenerationEvaluated then (Outcome.ok, s)
    else
      let (population, flag) := evaluatePass C.evaluate s.agentPopulation true
      let s1 := { s with
        agentPopulation := population
        isGenerationEvaluated := flag
        currentStep := s.currentStep + 1 }
      if singleStep then (Outcome.ok, s1)
      else evaluateSingleThreaded C singleStep fuel s1

/-- The loop `for (int i = start; i < end; i++) subsetEvaluated &= agentPopulation[i]->evaluate();`
with `count` indices left, the next one being `i`. An index outside the vector gives `none`. -/
def evaluateRange (evaluate : A → A × Bool) : Nat → Nat → List A → Bool → Option (List A × Bool)
  | 0, _, population, flag => some (population, flag)
  | count + 1, i, population, flag =>
    match population[i]? with
    | none => none
    | some inst =>
      let (inst1, finished) := evaluate inst
      evaluateRange evaluate count (i + 1) (population.set i inst1) (flag && finished)

/-- The lambda `evaluateSubset(singleStep, start, end)`; returns the population after the
task and the task's `subsetEvaluated`. -/
def evaluateSubset (evaluate : A → A × Bool) (singleStep : Bool) (start stop : Nat) :
    Nat → List A → Outcome × List A × Bool
  | 0, population => (Outcome.outOfFuel, population, false)
  | fuel + 1, population =>
    match evaluateRange evaluate (stop - start) start population true with
    | none => (Outcome.fault, population, false)
    | some (population1, subsetEvaluated) =>
      if singleStep then (Outcome.ok, population1, subsetEvaluated)
      else if subsetEvaluated then (Outcome.ok, population1, true)
      else evaluateSubset evaluate singleStep start stop fuel population1

/-- One round of the threaded branch: task `i`, ..., task `threadCount - 1` (`tasks` of them
left) each run `evaluateSubset` on their slice, and the results are and-ed into `flag`. -/
def evaluateRound (C : Collaborators G A W) (taskSingleStep : Bool)
    (subsetSize populationSize taskFuel : Nat) :
    Nat → Nat → List A → Bool → Outcome × List A × Bool
  | 0, _, population, flag => (Outcome.ok, population, flag)
  | tasks + 1, i, population, flag =>
    let startIndex := i * subsetSize
    let endIndex := min (startIndex + subsetSize) populationSize
    match evaluateSubset C.evaluate taskSingleStep startIndex endIndex taskFuel population with
    | (Outcome.ok, population1, result) =>
      evaluateRound C taskSingleStep subsetSize populationSize taskFuel tasks (i + 1)
        population1 (flag && result)
    | (outcome, population1, _) => (outcome, population1, false)

/-- The threaded branch: `while (!isGenerationEvaluated)` around the rounds. -/
def evaluateThreaded (C : Collaborators G A W) (singleStep : Bool)
    (threadCount subsetSize populationSize taskFuel : Nat) :
    Nat → Genepool G A → Outcome × Genepool G A
  | 0, s => if s.isGenerationEvaluated then (Outcome.ok, s) else (Outcome.outOfFuel, s)
  | fuel + 1, s =>
    if s.isGenerationEvaluated then (Outcome.ok, s)
    else
      match evaluateRound C (singleStep || s.syncThreadedFullSteps) subsetSize populationSize
          taskFuel threadCount 0 s.agentPopulation true with
      | (Outcome.ok, population, flag) =>
        let s1 := { s with
          agentPopulation := population
          isGenerationEvaluated := flag
          currentStep := s.currentStep + 1 }
        if singleStep then (Outcome.ok, s1)
        else evaluateThreaded C singleStep threadCount subsetSize populationSize taskFuel fuel s1
      | (outcome, population, _) => (outcome, { s with agentPopulation := population })

/-- The member `evaluateGeneration(singleStep)`. With a thread count that is not positive
the quotient `populationSize / threadCount` is not a finite float and its conversion to `int`
is undefined; past that guard every quantity is positive, so the index arithmetic is done on
natural numbers. Line 140 converts both operands to `float`, divides them as floats and
takes the ceiling of the float quotient. -/
def evaluateGeneration (C : Collaborators G A W) (fuel : Nat) (singleStep : Bool)
    (s : Genepool G A) : Outcome × Genepool G A :=
  if !s.isGenepoolInitialized then (Outcome.threw EngineError.evaluateUninitialized, s)
  else if s.isGenerationEvaluated then (Outcome.ok, s)
  else if (s.useThreadedStep && singleStep) || (s.useThreadedFullStep && !singleStep) then
    let threadCount : Int := min (C.poolSize : Int) s.populationSize
    if threadCount ≤ 0 then (Outcome.fault, s)
    else
      let subsetSize : Int :=
        ⌈toFloat32 (toFloat32 (s.populationSize : ℚ) / toFloat32 (threadCount : ℚ))⌉
      evaluateThreaded C singleStep threadCount.toNat subsetSize.toNat s.populationSize.toNat
        fuel fuel s
  else evaluateSingleThreaded C singleStep fuel s

/-! ## Selection -/

/-- The inner loop of `selectRoulette`: walk the population adding up fitness and stop at the
first agent with `r <= cumSum`. -/
def rouletteWalk (r : ℚ) : List A → List ℚ → ℚ → Option A
  | agent :: agents, fitness :: fitnessValues, cumSum =>
    if r ≤ cumSum + fitness then some agent
    else rouletteWalk r agents fitnessValues (cumSum + fitness)
  | _, _, _ => none

/-- The outer loop of `selectRoulette` with `count` draws left. A draw whose walk reaches
the end of the population selects nothing. -/
def rouletteDraws (C : Collaborators G A W) (agentPopulation : List A) (fitnessValues : List ℚ)
    (totalFitness : ℚ) : Nat → List A → W → List A × W
  | 0, selectedAgents, w => (selectedAgents, w)
  | count + 1, selectedAgents, w =>
    let (u, w1) := C.getRandomFloat w
    let r := u * totalFitness
    match rouletteWalk r agentPopulation fitnessValues 0 with
    | some agent =>
      rouletteDraws C agentPopulation fitnessValues totalFitness count (selectedAgents ++ [agent]) w1
    | none => rouletteDraws C agentPopulation fitnessValues totalFitness count selectedAgents w1

/-- The static member `selectRoulette` (the vector `fitnessProportions` is never read and is
left out). -/
def selectRoulette (C : Collaborators G A W) (agentPopulation : List A) (selectAmount : Int)
    (w : W) : List A × W :=
  let fitnessValues := agentPopulation.map C.getFitness
  let totalFitness := fitnessValues.foldl (· + ·) 0
  rouletteDraws C agentPopulation fitnessValues totalFitness selectAmount.toNat [] w

/-- The inner loop of `selectTournament` with `count` samples left; `none` when a random
index falls outside the population. -/
def fillTournament (C : Collaborators G A W) (agentPopulation : List A) :
    Nat → List A → W → Option (List A) × W
  | 0, tournament, w => (some tournament, w)
  | count + 1, tournament, w =>
    let (r, w1) := C.getRandomInt 0 ((agentPopulation.length : Int) - 1) w
    if r < 0 then (none, w1)
    else
      match agentPopulation[r.toNat]? with
      | none => (none, w1)
      | some agent => fillTournament C agentPopulation count (tournament ++ [agent]) w1

/-- The outer loop of `selectTournament` with `count` draws left; `none` when a tournament
could not be filled or is empty. -/
def tournamentDraws (C : Collaborators G A W) (S : StdSort A C.getFitness)
    (agentPopulation : List A) (tournamentSize : Int) : Nat → List A → W → Option (List A) × W
  | 0, selectedAgents, w => (some selectedAgents, w)
  | count + 1, selectedAgents, w =>
    match fillTournament C agentPopulation tournamentSize.toNat [] w with
    | (none, w1) => (none, w1)
    | (some tournament, w1) =>
      match S.sort tournament with
      | [] => (none, w1)
      | best :: _ =>
        tournamentDraws C S agentPopulation tournamentSize count (selectedAgents ++ [best]) w1

/-- The static member `selectTournament`. -/
def selectTournament (C : Collaborators G A W) (S : StdSort A C.getFitness)
    (agentPopulation : List A) (selectAmount tournamentSize : Int) (w : W) :
    Option (List A) × W :=
  tournamentDraws C S agentPopulation tournamentSize selectAmount.toNat [] w

/-! ## iterateGeneration -/

/-- The offspring loop of `iterateGeneration` with `count` children left, the next one being
child `i`; `none` when a parent index is outside `parentData`. -/
def breed (C : Collaborators G A W) (mutationRate : ℚ) (parentData : List A) :
    Nat → Nat → List A → W → Option (List A) × W
  | 0, _, nextGeneration, w => (some nextGeneration, w)
  | count + 1, i, nextGeneration, w =>
    match parentData[i * 2 + 0]?, parentData[i * 2 + 1]? with
    | some parentA, some parentB =>
      let (childGenome, w1) := C.crossover (C.getGenome parentA) (C.getGenome parentB) mutationRate w
      breed C mutationRate parentData count (i + 1) (nextGeneration ++ [C.createAgentFn childGenome]) w1
    | _, _ => (none, w)

/-- The member `iterateGeneration`. The population is sorted in place; the best genome is
stored in `bestGenome` and then moved out of it (`std::move(this->bestGenome)`) into the
by-value argument of the agent factory, which leaves the member null. `reproduceCount` is
`populationSize - 1` converted to `size_t`; the population is not empty at that point, so
with a population vector of `populationSize` agents the conversion changes nothing. -/
def iterateGeneration (C : Collaborators G A W) (S : StdSort A C.getFitness)
    (s : Genepool G A) (w : W) : Outcome × Genepool G A × W :=
  if !s.isGenepoolInitialized then (Outcome.threw EngineError.iterateUninitialized, s, w)
  else if !s.isGenerationEvaluated then (Outcome.ok, s, w)
  else
    match S.sort s.agentPopulation with
    | [] => (Outcome.fault, { s with agentPopulation := [] }, w)
    | bestInstance :: others =>
      let s1 := { s with
        agentPopulation := bestInstance :: others
        bestGenome := some (C.getGenome bestInstance)
        bestFitness := C.getFitness bestInstance }
      let elite := C.createAgentFn (C.getGenome bestInstance)
      let s2 := { s1 with bestGenome := none }
      let reproduceCount : Nat := (s2.populationSize - 1).toNat
      let (parentData, w1) := selectRoulette C s2.agentPopulation ((reproduceCount * 2 : Nat) : Int) w
      match breed C s2.mutationRate parentData reproduceCount 0 [elite] w1 with
      | (none, w2) => (Outcome.fault, s2, w2)
      | (some nextGeneration, w2) =>
        (Outcome.ok,
          initializeGeneration
            { s2 with
              agentPopulation := nextGeneration
              currentGeneration := s2.currentGeneration + 1
              isGenerationEvaluated := false }, w2)

/-! ## render -/

/-- The loop `for (const auto& inst : agentPopulation) inst->render(window);`. -/
def renderAll (C : Collaborators G A W) : List A → W → List A × W
  | [], w => ([], w)
  | inst :: rest, w =>
    let (inst1, w1) := C.renderAgent inst w
    let (rest1, w2) := renderAll C rest w1
    (inst1 :: rest1, w2)

def render (C : Collaborators G A W) (s : Genepool G A) (w : W) : Outcome × Genepool G A × W :=
  if !s.isGenepoolInitialized then (Outcome.threw EngineError.renderUninitialized, s, w)
  else if !s.showVisuals then (Outcome.ok, s, w)
  else
    let (population, w1) := renderAll C s.agentPopulation w
    (Outcome.ok, { s with agentPopulation := population }, w1)

/-! ## Specification vocabulary -/

/-- The world after the genome factory has been called `i` times. -/
def worldAfterGenomes (C : Collaborators G A W) : Nat → W → W
  | 0, w => w
  | i + 1, w => worldAfterGenomes C i (C.createGenomeFn w).2

/-- The genome returned by call number `i` (counting from 0) of the genome factory. -/
def nthGenome (C : Collaborators G A W) (w : W) (i : Nat) : G :=
  (C.createGenomeFn (worldAfterGenomes C i w)).1

/-- The world after `getRandomInt(lo, hi)` has been called `k` times. -/
def worldAfterInts (C : Collaborators G A W) (lo hi : Int) : Nat → W → W
  | 0, w => w
  | k + 1, w => worldAfterInts C lo hi k (C.getRandomInt lo hi w).2

/-- The random index returned by call number `k` (counting from 0) of
`getRandomInt(lo, hi)`. -/
def nthRandomInt (C : Collaborators G A W) (lo hi : Int) (w : W) (k : Nat) : Int :=
  (C.getRandomInt lo hi (worldAfterInts C lo hi k w)).1

/-- The world in which child number `i + k` of the offspring loop is crossed over, when the
loop is at child `i` in world `w`: the world after the `k` crossovers before it. -/
def worldBeforeChild (C : Collaborators G A W) (mutationRate : ℚ) (parentData : List A) :
    Nat → Nat → W → W
  | 0, _, w => w
  | k + 1, i, w =>
    match parentData[i * 2 + 0]?, parentData[i * 2 + 1]? with
    | some parentA, some parentB =>
      worldBeforeChild C mutationRate parentData k (i + 1)
        (C.crossover (C.getGenome parentA) (C.getGenome parentB) mutationRate w).2
    | _, _ => w

/-- The cumulative fitness `f_0 + ... + f_{j-1}` of the first `j` agents. -/
def cumulativeFitness (fitness : A → ℚ) (agentPopulation : List A) (j : Nat) : ℚ :=
  ((agentPopulation.take j).map fitness).sum

/-- The world after `k` random floats have been drawn. -/
def worldAfterFloats (C : Collaborators G A W) : Nat → W → W
  | 0, w => w
  | k + 1, w => worldAfterFloats C k (C.getRandomFloat w).2

/-- The random float returned by call number `k` (counting from 0) of `getRandomFloat`. -/
def nthFloat (C : Collaborators G A W) (w : W) (k : Nat) : ℚ :=
  (C.getRandomFloat (worldAfterFloats C k w)).1

/-- The agent after `k` calls of its `evaluate()`. -/
def stepTimes (evaluate : A → A × Bool) : Nat → A → A
  | 0, a => a
  | k + 1, a => stepTimes evaluate k (evaluate a).1

/-- What call number `k + 1` of `evaluate()` returns on the agent `a`, that is, whether the
agent reports finished in pass `k + 1`. -/
def reportsFinished (evaluate : A → A × Bool) (k : Nat) (a : A) : Bool :=
  (evaluate (stepTimes evaluate k a)).2

/-- The agent `b` is the agent `a` after a run of calls of `evaluate()` whose last call
returned true: `b` is `a` stepped `K + 1` times, and call number `K + 1` returned true. -/
def FinishedRun (evaluate : A → A × Bool) (a b : A) : Prop :=
  ∃ K, reportsFinished evaluate K a = true ∧ b = stepTimes evaluate (K + 1) a

/-- The agents of the population are sticky: once a call of `evaluate()` has returned true,
the next call returns true as well and leaves the finished flag and the fitness as they
were. -/
def stickyAgents (C : Collaborators G A W) (agentPopulation : List A) : Prop :=
  ∀ a ∈ agentPopulation, ∀ k, reportsFinished C.evaluate k a = true →
    reportsFinished C.evaluate (k + 1) a = true ∧
    C.getFinished (stepTimes C.evaluate (k + 2) a)
      = C.getFinished (stepTimes C.evaluate (k + 1) a) ∧
    C.getFitness (stepTimes C.evaluate (k + 2) a)
      = C.getFitness (stepTimes C.evaluate (k + 1) a)

/-- Two agents show the same finished flag and the same fitness. -/
def sameResult (C : Collaborators G A W) (a b : A) : Prop :=
  C.getFinished a = C.getFinished b ∧ C.getFitness a = C.getFitness b

/-- The thread count of line 138: `min(evaluateThreadPool.size(), populationSize)`. -/
def partitionThreadCount (poolSize : Nat) (populationSize : Int) : Int :=
  min (poolSize : Int) populationSize

/-- The subset size of line 140: `ceil((float)populationSize / threadCount)`, the operands
converted to `float` and divided as floats. -/
def partitionSubsetSize (populationSize threadCount : Int) : Int :=
  ⌈toFloat32 (toFloat32 (populationSize : ℚ) / toFloat32 (threadCount : ℚ))⌉

/-- The start index of task `i` (line 146). -/
def partitionStart (subsetSize i : Nat) : Nat := i * subsetSize

/-- The end index of task `i` (line 147). -/
def partitionEnd (subsetSize populationSize i : Nat) : Nat :=
  min (i * subsetSize + subsetSize) populationSize

/-- The stored threading flags are consistent: not both threaded modes, and no step
synchronisation without the threaded full evaluation. -/
def threadingConsistent (s : Genepool G A) : Prop :=
  ¬ (s.useThreadedStep = true ∧ s.useThreadedFullStep = true) ∧
  ¬ (s.syncThreadedFullSteps = true ∧ s.useThreadedFullStep = false)

/-! ## A concrete instance -/

/-- A conforming `std::sort`: insertion sort by descending key. -/
def insertionSortDesc (key : A → ℚ) : StdSort A key where
  sort := List.insertionSort (fun a b => key b ≤ key a)
  perm := fun l => List.perm_insertionSort _ l
  sorted := fun l =>
    haveI : IsTotal A (fun a b => key b ≤ key a) := ⟨fun a b => le_total (key b) (key a)⟩
    haveI : IsTrans A (fun a b => key b ≤ key a) := ⟨fun _ _ _ hab hbc => le_trans hbc hab⟩
    List.sorted_insertionSort (fun a b => key b ≤ key a) l

/-- A sample agent: it needs `remaining` more steps and earns its genome as fitness on
each of them. -/
structure DemoAgent where
  genome : ℚ
  remaining : Nat
  isFinished : Bool
  fitness : ℚ
  deriving DecidableEq

/-- A sample world: the random floats and integers still to be drawn, and a counter for the
genome factory. -/
structure DemoWorld where
  floats : List ℚ
  ints : List Int
  nextGenome : Nat
  deriving DecidableEq

def demoEvaluate (a : DemoAgent) : DemoAgent × Bool :=
  match a.remaining with
  | 0 => ({ a with isFinished := true }, true)
  | k + 1 => ({ a with remaining := k, fitness := a.fitness + a.genome, isFinished := k == 0 }, k == 0)

def demoRandomFloat (w : DemoWorld) : ℚ × DemoWorld :=
  match w.floats with
  | [] => (0, w)
  | u :: rest => (max 0 (min 1 u), { w with floats := rest })

def demoRandomInt (lo hi : Int) (w : DemoWorld) : Int × DemoWorld :=
  match w.ints with
  | [] => (lo, w)
  | r :: rest => (max lo (min hi r), { w with ints := rest })

/-- Sample collaborators over `DemoAgent` and `DemoWorld`. -/
def demo : Collaborators ℚ DemoAgent DemoWorld where
  createGenomeFn := fun w => ((w.nextGenome : ℚ), { w with nextGenome := w.nextGenome + 1 })
  createAgentFn := fun g => { genome := g, remaining := 2, isFinished := false, fitness := 0 }
  crossover := fun a b _ w => ((a + b) / 2, w)
  evaluate := demoEvaluate
  renderAgent := fun a w => (a, w)
  getGenome := fun a => a.genome
  getFitness := fun a => a.fitness
  getFinished := fun a => a.isFinished
  getRandomFloat := demoRandomFloat
  getRandomInt := demoRandomInt
  poolSize := 2

/-- A sample `evaluate()` that is deterministic but not sticky: every call earns one more
point of fitness, also after the agent has reported finished. -/
def greedyEvaluate (a : DemoAgent) : DemoAgent × Bool :=
  ({ a with
      remaining := a.remaining - 1
      fitness := a.fitness + 1
      isFinished := decide (a.remaining ≤ 1) },
    decide (a.remaining ≤ 1))

/-- The sample collaborators with `greedyEvaluate` as the agents' `evaluate()`. -/
def greedy : Collaborators ℚ DemoAgent DemoWorld :=
  { demo with evaluate := greedyEvaluate }

/-- A sample agent that has not been evaluated yet and needs `remaining` steps. -/
def demoUnfinished (genome : ℚ) (remaining : Nat) : DemoAgent :=
  { genome := genome, remaining := remaining, isFinished := false, fitness := 0 }

def demoSort : StdSort DemoAgent demo.getFitness := insertionSortDesc demo.getFitness

def demoWorld : DemoWorld := { floats := [1 / 2, 1 / 4, 3 / 4, 1], ints := [0, 0, 1, 1], nextGenome := 5 }

/-- A sample world whose random floats are small and whose random integers are all 0. -/
def demoWorldLow : DemoWorld := { floats := [0, 1 / 4], ints := [0, 0, 0, 0], nextGenome := 0 }

/-- A finished sample agent with the given genome and fitness. -/
def demoAgent (genome fitness : ℚ) : DemoAgent :=
  { genome := genome, remaining := 0, isFinished := true, fitness := fitness }

/-- A sample genepool holding the given agents, initialised, with the given evaluated flag. -/
def demoPool (agents : List DemoAgent) (evaluated : Bool) : Genepool ℚ DemoAgent :=
  { (Genepool.constructed : Genepool ℚ DemoAgent) with
    populationSize := agents.length
    mutationRate := 1 / 10
    isGenepoolInitialized := true
    isGenerationEvaluated := evaluated
    currentGeneration := 4
    currentStep := 7
    bestFitness := 9
    agentPopulation := agents }

/-- A population one agent larger than `2 ^ 24`: 16777217 fresh agents that each report
finished at their first step. -/
def largePopulation : List DemoAgent := List.replicate 16777217 (demoUnfinished 1 1)

/-- The sample genepool holding `largePopulation`, initialised and not yet evaluated. -/
def largePool : Genepool ℚ DemoAgent := demoPool largePopulation false

/-! ## Theorems: resetGenepool -/

theorem nthGenome_succ (C : Collaborators G A W) (w : W) (i : Nat) :
    nthGenome C w (i + 1) = nthGenome C (C.createGenomeFn w).2 i := rfl

theorem createPopulation_eq (C : Collaborators G A W) (count : Nat) (population : List A) (w : W) :
    createPopulation C count population w =
      (population ++ (List.range count).map (fun i => C.createAgentFn (nthGenome C w i)),
        worldAfterGenomes C count w) := by
  induction count generalizing population w with
  | zero => simp [createPopulation, worldAfterGenomes]
  | succ k ih =>
    simp only [createPopulation, ih, worldAfterGenomes, List.range_succ_eq_map, List.map_cons,
      List.map_map, List.append_assoc, List.singleton_append]
    rfl

/-- C1: from any genepool state, `resetGenepool(populationSize, mutationRate)` with
`populationSize > 0` leaves a population of exactly `populationSize` agents, the agent at
position `i` being the agent factory applied to the genome returned by call `i` of the
genome factory; the initialized flag is true, the generation number is 1, the step counter
is 0 and the evaluated flag is false (the two arguments are stored as well). -/
theorem resetGenepool_builds_fresh_generation (C : Collaborators G A W) (populationSize : Int)
    (mutationRate : ℚ) (s : Genepool G A) (w : W) (hpos : 0 < populationSize) :
    ((resetGenepool C populationSize mutationRate s w).1.agentPopulation.length : Int)
        = populationSize ∧
    (∀ i : Nat, (i : Int) < populationSize →
      (resetGenepool C populationSize mutationRate s w).1.agentPopulation[i]?
        = some (C.createAgentFn (nthGenome C w i))) ∧
    getGenepoolInitialized (resetGenepool C populationSize mutationRate s w).1 = true ∧
    getGenerationNumber (resetGenepool C populationSize mutationRate s w).1 = 1 ∧
    (resetGenepool C populationSize mutationRate s w).1.currentStep = 0 ∧
    getGenerationEvaluated (resetGenepool C populationSize mutationRate s w).1 = false ∧
    (resetGenepool C populationSize mutationRate s w).1.populationSize = populationSize ∧
    (resetGenepool C populationSize mutationRate s w).1.mutationRate = mutationRate := by
  have hpop : (resetGenepool C populationSize mutationRate s w).1.agentPopulation
      = (List.range populationSize.toNat).map (fun i => C.createAgentFn (nthGenome C w i)) := by
    simp [resetGenepool, initializeGeneration, createPopulation_eq]
  refine ⟨?_, ?_, rfl, rfl, rfl, rfl, rfl, rfl⟩
  · rw [hpop]
    simp only [List.length_map, List.length_range]
    exact Int.toNat_of_nonneg hpos.le
  · intro i hi
    rw [hpop]
    have hlt : i < populationSize.toNat := by omega
    simp [List.getElem?_map, List.getElem?_range hlt]

theorem resetGenepool_builds_fresh_generation_witness :
    (0 : Int) < 3 ∧
    ((resetGenepool demo 3 (1 / 10) (demoPool [demoAgent 1 1] true) demoWorld).1.agentPopulation.length : Int) = 3 ∧
    getGenerationNumber (resetGenepool demo 3 (1 / 10) (demoPool [demoAgent 1 1] true) demoWorld).1 = 1 :=
  ⟨by decide,
    (resetGenepool_builds_fresh_generation demo 3 (1 / 10) (demoPool [demoAgent 1 1] true) demoWorld
      (by decide)).1,
    (resetGenepool_builds_fresh_generation demo 3 (1 / 10) (demoPool [demoAgent 1 1] true) demoWorld
      (by decide)).2.2.2.1⟩

/-! ## Theorems: the uninitialized genepool -/

/-- C2: on a genepool whose initialized flag is still false (no `resetGenepool` so far),
`evaluateGeneration` (for both values of `singleStep`), `iterateGeneration` and `render`
(visuals shown or not) each throw their precondition error, and the genepool and the world
are the same after the failed call as before it. -/
theorem uninitialized_calls_throw (C : Collaborators G A W) (S : StdSort A C.getFitness)
    (s : Genepool G A) (w : W) (hinit : getGenepoolInitialized s = false) :
    (∀ (fuel : Nat) (singleStep : Bool),
      evaluateGeneration C fuel singleStep s
        = (Outcome.threw EngineError.evaluateUninitialized, s)) ∧
    iterateGeneration C S s w = (Outcome.threw EngineError.iterateUninitialized, s, w) ∧
    (∀ showVisuals : Bool,
      render C (setShowVisuals showVisuals s) w
        = (Outcome.threw EngineError.renderUninitialized, setShowVisuals showVisuals s, w)) := by
  have h : s.isGenepoolInitialized = false := hinit
  refine ⟨?_, ?_, ?_⟩
  · intro fuel singleStep
    simp [evaluateGeneration, h]
  · simp [iterateGeneration, h]
  · intro showVisuals
    simp [render, setShowVisuals, h]

theorem uninitialized_calls_throw_witness :
    getGenepoolInitialized (Genepool.constructed : Genepool ℚ DemoAgent) = false ∧
    evaluateGeneration demo 5 true (Genepool.constructed : Genepool ℚ DemoAgent)
      = (Outcome.threw EngineError.evaluateUninitialized, Genepool.constructed) ∧
    iterateGeneration demo demoSort (Genepool.constructed : Genepool ℚ DemoAgent) demoWorld
      = (Outcome.threw EngineError.iterateUninitialized, Genepool.constructed, demoWorld) :=
  ⟨rfl,
    (uninitialized_calls_throw demo demoSort Genepool.constructed demoWorld rfl).1 5 true,
    (uninitialized_calls_throw demo demoSort Genepool.constructed demoWorld rfl).2.1⟩

/-! ## Theorems: configThreading -/

theorem configThreading_consistent (step full sync : Bool) (s : Genepool G A)
    (h : threadingConsistent s) : threadingConsistent (configThreading step full sync s).2 := by
  unfold threadingConsistent at *
  cases step <;> cases full <;> cases sync <;> simp_all [configThreading]

theorem configThreadingAll_consistent (calls : List (Bool × Bool × Bool)) (s : Genepool G A)
    (h : threadingConsistent s) : threadingConsistent (configThreadingAll calls s) := by
  induction calls generalizing s with
  | nil => exact h
  | cons call calls ih =>
    obtain ⟨step, full, sync⟩ := call
    exact ih _ (configThreading_consistent step full sync s h)

theorem constructed_consistent : threadingConsistent (Genepool.constructed : Genepool G A) := by
  simp [threadingConsistent, Genepool.constructed]

/-- C3: `configThreading(step, full, sync)` throws one of its two configuration errors
exactly when `step` and `full` are both set or `sync` is set without `full`, and returns
normally otherwise; a throwing call leaves the genepool as it was, a returning call stores
the three arguments and changes nothing else. Hence after any sequence of `configThreading`
calls on a constructed genepool the stored flags never have threaded-step together with
threaded-full-step, nor sync without threaded-full-step. -/
theorem configThreading_contract (step full sync : Bool) (s : Genepool G A) :
    (((configThreading step full sync s).1 = Outcome.threw EngineError.fullAndStepThreading ∨
        (configThreading step full sync s).1 = Outcome.threw EngineError.syncWithoutFullThreading)
      ↔ ((step = true ∧ full = true) ∨ (sync = true ∧ full = false))) ∧
    ((configThreading step full sync s).1 = Outcome.ok
      ↔ ¬ ((step = true ∧ full = true) ∨ (sync = true ∧ full = false))) ∧
    ((configThreading step full sync s).1 ≠ Outcome.ok → (configThreading step full sync s).2 = s) ∧
    ((configThreading step full sync s).1 = Outcome.ok →
      (configThreading step full sync s).2 =
        { s with useThreadedStep := step, useThreadedFullStep := full,
                 syncThreadedFullSteps := sync }) ∧
    (∀ calls : List (Bool × Bool × Bool),
      threadingConsistent (configThreadingAll calls (Genepool.constructed : Genepool G A))) := by
  refine ⟨?_, ?_, ?_, ?_, fun calls => configThreadingAll_consistent calls _ constructed_consistent⟩
  all_goals cases step <;> cases full <;> cases sync <;> simp [configThreading]

/-! ## Theorems: the no-op guards -/

/-- C4: on an initialized genepool whose evaluated flag is true, `evaluateGeneration`
returns without touching anything, for both values of `singleStep`, every threading
configuration and every fuel: the whole record (population, step counter, generation
number, evaluated flag included) is the one before the call. -/
theorem evaluateGeneration_evaluated_noop (C : Collaborators G A W) (fuel : Nat)
    (singleStep : Bool) (s : Genepool G A)
    (hinit : getGenepoolInitialized s = true) (heval : getGenerationEvaluated s = true) :
    evaluateGeneration C fuel singleStep s = (Outcome.ok, s) := by
  have h1 : s.isGenepoolInitialized = true := hinit
  have h2 : s.isGenerationEvaluated = true := heval
  simp [evaluateGeneration, h1, h2]

theorem evaluateGeneration_evaluated_noop_witness :
    getGenepoolInitialized (demoPool [demoAgent 1 3, demoAgent 2 5] true) = true ∧
    getGenerationEvaluated (demoPool [demoAgent 1 3, demoAgent 2 5] true) = true ∧
    evaluateGeneration demo 0 false (demoPool [demoAgent 1 3, demoAgent 2 5] true)
      = (Outcome.ok, demoPool [demoAgent 1 3, demoAgent 2 5] true) :=
  ⟨rfl, rfl,
    evaluateGeneration_evaluated_noop demo 0 false (demoPool [demoAgent 1 3, demoAgent 2 5] true)
      rfl rfl⟩

/-- C5: on an initialized genepool whose evaluated flag is false, `iterateGeneration`
returns normally and changes nothing: the record (population with its order, generation
number, evaluated flag, best genome, best fitness) and the world are the ones before the
call. -/
theorem iterateGeneration_unevaluated_noop (C : Collaborators G A W) (S : StdSort A C.getFitness)
    (s : Genepool G A) (w : W)
    (hinit : getGenepoolInitialized s = true) (heval : getGenerationEvaluated s = false) :
    iterateGeneration C S s w = (Outcome.ok, s, w) := by
  have h1 : s.isGenepoolInitialized = true := hinit
  have h2 : s.isGenerationEvaluated = false := heval
  simp [iterateGeneration, h1, h2]

theorem iterateGeneration_unevaluated_noop_witness :
    getGenepoolInitialized (demoPool [demoAgent 1 3, demoAgent 2 5] false) = true ∧
    getGenerationEvaluated (demoPool [demoAgent 1 3, demoAgent 2 5] false) = false ∧
    iterateGeneration demo demoSort (demoPool [demoAgent 1 3, demoAgent 2 5] false) demoWorld
      = (Outcome.ok, demoPool [demoAgent 1 3, demoAgent 2 5] false, demoWorld) :=
  ⟨rfl, rfl,
    iterateGeneration_unevaluated_noop demo demoSort
      (demoPool [demoAgent 1 3, demoAgent 2 5] false) demoWorld rfl rfl⟩

/-! ## Lemmas: sorting and selection -/

theorem StdSort.head_mem_max {key : A → ℚ} (S : StdSort A key) {l : List A} {best : A}
    {others : List A} (h : S.sort l = best :: others) :
    best ∈ l ∧ ∀ a ∈ l, key a ≤ key best := by
  have hmem : ∀ x, x ∈ best :: others ↔ x ∈ l := fun x => h ▸ (S.perm l).mem_iff
  have hsorted : List.Pairwise (fun a b => key b ≤ key a) (best :: others) := h ▸ S.sorted l
  refine ⟨(hmem best).1 (List.mem_cons_self _ _), fun a ha => ?_⟩
  rcases List.mem_cons.1 ((hmem a).2 ha) with rfl | hin
  · exact le_refl _
  · exact (List.pairwise_cons.1 hsorted).1 a hin

theorem StdSort.sort_ne_nil {key : A → ℚ} (S : StdSort A key) {l : List A} (h : l ≠ []) :
    S.sort l ≠ [] := by
  intro hnil
  have hlen := (S.perm l).length_eq
  rw [hnil] at hlen
  exact h (List.length_eq_zero.1 hlen.symm)

theorem foldl_add_eq_sum (l : List ℚ) (c : ℚ) : l.foldl (· + ·) c = c + l.sum := by
  induction l generalizing c with
  | nil => simp
  | cons x xs ih => simp [List.foldl_cons, ih, add_assoc]

theorem rouletteWalk_isSome_of_le_head (fit : A → ℚ) (r cumSum : ℚ) (a : A) (rest : List A)
    (h : r ≤ cumSum + fit a) :
    (rouletteWalk r (a :: rest) ((a :: rest).map fit) cumSum).isSome = true := by
  simp [rouletteWalk, h]

theorem rouletteWalk_isSome_of_le_sum (fit : A → ℚ) (r : ℚ) (agents : List A) (cumSum : ℚ)
    (hne : agents ≠ []) (h : r ≤ cumSum + (agents.map fit).sum) :
    (rouletteWalk r agents (agents.map fit) cumSum).isSome = true := by
  induction agents generalizing cumSum with
  | nil => exact absurd rfl hne
  | cons a rest ih =>
    simp only [List.map_cons, rouletteWalk]
    split_ifs with hr
    · rfl
    · cases rest with
      | nil => simp at h; exact absurd h hr
      | cons b more =>
        apply ih _ (List.cons_ne_nil _ _)
        simpa [add_assoc] using h

theorem rouletteDraws_length_le (C : Collaborators G A W) (pop : List A) (fits : List ℚ)
    (total : ℚ) (count : Nat) (selected : List A) (w : W) :
    (rouletteDraws C pop fits total count selected w).1.length ≤ selected.length + count := by
  induction count generalizing selected w with
  | zero => simp [rouletteDraws]
  | succ k ih =>
    simp only [rouletteDraws]
    split
    · refine (ih _ _).trans ?_
      simp only [List.length_append, List.length_singleton]
      omega
    · refine (ih _ _).trans ?_
      omega

theorem rouletteDraws_length_eq (C : Collaborators G A W) (pop : List A) (fits : List ℚ)
    (total : ℚ) (count : Nat) (selected : List A) (w : W)
    (hwalk : ∀ w1, (rouletteWalk ((C.getRandomFloat w1).1 * total) pop fits 0).isSome = true) :
    (rouletteDraws C pop fits total count selected w).1.length = selected.length + count := by
  induction count generalizing selected w with
  | zero => simp [rouletteDraws]
  | succ k ih =>
    simp only [rouletteDraws]
    split
    · rw [ih]
      simp only [List.length_append, List.length_singleton]
      omega
    · next hnone =>
      have := hwalk w
      rw [hnone] at this
      simp at this

/-- Every draw of the roulette selects an agent when the first agent of the population has
fitness at least 0 and the random floats lie in `[0, 1]`. -/
theorem selectRoulette_length_eq (C : Collaborators G A W) (best : A) (others : List A)
    (selectAmount : Int) (w : W) (hbest : 0 ≤ C.getFitness best)
    (hdraw : ∀ w1, 0 ≤ (C.getRandomFloat w1).1 ∧ (C.getRandomFloat w1).1 ≤ 1) :
    (selectRoulette C (best :: others) selectAmount w).1.length = selectAmount.toNat := by
  unfold selectRoulette
  simp only []
  rw [rouletteDraws_length_eq]
  · simp
  · intro w1
    rw [foldl_add_eq_sum]
    obtain ⟨h0, h1⟩ := hdraw w1
    rcases le_or_lt 0 ((best :: others).map C.getFitness).sum with hT | hT
    · apply rouletteWalk_isSome_of_le_sum _ _ _ _ (List.cons_ne_nil _ _)
      simp only [zero_add]
      nlinarith
    · apply rouletteWalk_isSome_of_le_head
      simp only [zero_add]
      nlinarith

theorem selectRoulette_length_le (C : Collaborators G A W) (pop : List A) (selectAmount : Int)
    (w : W) : (selectRoulette C pop selectAmount w).1.length ≤ selectAmount.toNat := by
  unfold selectRoulette
  simpa using rouletteDraws_length_le C pop _ _ selectAmount.toNat [] w

/-! ## Lemmas: the offspring loop -/

theorem breed_of_enough (C : Collaborators G A W) (rate : ℚ) (parents : List A) (count i : Nat)
    (next : List A) (w : W) (h : 2 * (i + count) ≤ parents.length) :
    ∃ kids w1, breed C rate parents count i next w = (some (next ++ kids), w1) ∧
      kids.length = count := by
  induction count generalizing i next w with
  | zero => exact ⟨[], w, by simp [breed], rfl⟩
  | succ k ih =>
    have h0 : i * 2 + 0 < parents.length := by omega
    have h1 : i * 2 + 1 < parents.length := by omega
    simp only [breed, List.getElem?_eq_getElem h0, List.getElem?_eq_getElem h1]
    obtain ⟨kids, w1, hk, hlen⟩ := ih (i + 1)
      (next ++ [C.createAgentFn (C.crossover (C.getGenome parents[i * 2 + 0])
        (C.getGenome parents[i * 2 + 1]) rate w).1])
      (C.crossover (C.getGenome parents[i * 2 + 0]) (C.getGenome parents[i * 2 + 1]) rate w).2
      (by omega)
    refine ⟨C.createAgentFn (C.crossover (C.getGenome parents[i * 2 + 0])
      (C.getGenome parents[i * 2 + 1]) rate w).1 :: kids, w1, ?_, by simp [hlen]⟩
    rw [hk]
    simp

theorem breed_some_enough (C : Collaborators G A W) (rate : ℚ) (parents : List A) (count i : Nat)
    (next : List A) (w : W) (result : List A) (w1 : W)
    (h : breed C rate parents count i next w = (some result, w1)) :
    count = 0 ∨ 2 * (i + count) ≤ parents.length := by
  induction count generalizing i next w with
  | zero => exact Or.inl rfl
  | succ k ih =>
    right
    simp only [breed] at h
    split at h
    · next pa pb ha hb =>
      have hlt : i * 2 + 1 < parents.length := by
        by_contra hcon
        rw [List.getElem?_eq_none (by omega)] at hb
        exact Option.noConfusion hb
      rcases ih _ _ _ h with hz | hz
      · omega
      · omega
    · exact absurd (congrArg Prod.fst h) (by simp)

/-! ## Lemmas: the turnover -/

theorem iterateGeneration_of_breed_some (C : Collaborators G A W) (S : StdSort A C.getFitness)
    (s : Genepool G A) (w : W) (best : A) (others next : List A) (w2 : W)
    (hinit : s.isGenepoolInitialized = true) (heval : s.isGenerationEvaluated = true)
    (hsort : S.sort s.agentPopulation = best :: others)
    (hbreed : breed C s.mutationRate
      (selectRoulette C (best :: others) (((s.populationSize - 1).toNat * 2 : Nat) : Int) w).1
      (s.populationSize - 1).toNat 0 [C.createAgentFn (C.getGenome best)]
      (selectRoulette C (best :: others) (((s.populationSize - 1).toNat * 2 : Nat) : Int) w).2
        = (some next, w2)) :
    iterateGeneration C S s w =
      (Outcome.ok,
        { s with
          agentPopulation := next
          bestGenome := none
          bestFitness := C.getFitness best
          currentGeneration := s.currentGeneration + 1
          isGenerationEvaluated := false }, w2) := by
  unfold iterateGeneration
  simp only [hinit, heval, hsort, Bool.not_true, Bool.false_eq_true, if_false]
  rw [hbreed]
  rfl

theorem iterateGeneration_of_breed_none (C : Collaborators G A W) (S : StdSort A C.getFitness)
    (s : Genepool G A) (w : W) (best : A) (others : List A) (w2 : W)
    (hinit : s.isGenepoolInitialized = true) (heval : s.isGenerationEvaluated = true)
    (hsort : S.sort s.agentPopulation = best :: others)
    (hbreed : breed C s.mutationRate
      (selectRoulette C (best :: others) (((s.populationSize - 1).toNat * 2 : Nat) : Int) w).1
      (s.populationSize - 1).toNat 0 [C.createAgentFn (C.getGenome best)]
      (selectRoulette C (best :: others) (((s.populationSize - 1).toNat * 2 : Nat) : Int) w).2
        = (none, w2)) :
    iterateGeneration C S s w =
      (Outcome.fault,
        { s with
          agentPopulation := best :: others
          bestGenome := none
          bestFitness := C.getFitness best }, w2) := by
  unfold iterateGeneration
  simp only [hinit, heval, hsort, Bool.not_true, Bool.false_eq_true, if_false]
  rw [hbreed]

theorem population_ne_nil (s : Genepool G A) (hwf : s.WellFormed) (hsize : 1 ≤ s.populationSize) :
    s.agentPopulation ≠ [] := by
  intro hnil
  unfold Genepool.WellFormed at hwf
  rw [hnil] at hwf
  simp at hwf
  omega

/-- What a turnover does, in one statement: the sorted population starts with a best agent;
the roulette returns some parents; with fewer than `2 * (populationSize - 1)` of them the
offspring loop reads outside the parent vector, otherwise the call returns with the elite
agent followed by `populationSize - 1` children. -/
theorem iterateGeneration_turnover (C : Collaborators G A W) (S : StdSort A C.getFitness)
    (s : Genepool G A) (w : W)
    (hinit : s.isGenepoolInitialized = true) (heval : s.isGenerationEvaluated = true)
    (hwf : s.WellFormed) (hsize : 1 ≤ s.populationSize) :
    ∃ best others parents w1,
      S.sort s.agentPopulation = best :: others ∧
      selectRoulette C (best :: others) (2 * (s.populationSize - 1)) w = (parents, w1) ∧
      ((parents.length < 2 * (s.populationSize - 1).toNat ∧
        ∃ w2, iterateGeneration C S s w =
          (Outcome.fault,
            { s with
              agentPopulation := best :: others
              bestGenome := none
              bestFitness := C.getFitness best }, w2)) ∨
       (parents.length = 2 * (s.populationSize - 1).toNat ∧
        ∃ kids w2,
          breed C s.mutationRate parents (s.populationSize - 1).toNat 0
            [C.createAgentFn (C.getGenome best)] w1
              = (some (C.createAgentFn (C.getGenome best) :: kids), w2) ∧
          kids.length = (s.populationSize - 1).toNat ∧
          iterateGeneration C S s w =
            (Outcome.ok,
              { s with
                agentPopulation := C.createAgentFn (C.getGenome best) :: kids
                bestGenome := none
                bestFitness := C.getFitness best
                currentGeneration := s.currentGeneration + 1
                isGenerationEvaluated := false }, w2))) := by
  have hne := S.sort_ne_nil (population_ne_nil s hwf hsize)
  obtain ⟨best, others, hsort⟩ := List.exists_cons_of_ne_nil hne
  have hamt : (((s.populationSize - 1).toNat * 2 : Nat) : Int) = 2 * (s.populationSize - 1) := by
    push_cast
    rw [Int.toNat_of_nonneg (by omega)]
    ring
  refine ⟨best, others, (selectRoulette C (best :: others) (2 * (s.populationSize - 1)) w).1,
    (selectRoulette C (best :: others) (2 * (s.populationSize - 1)) w).2, hsort, rfl, ?_⟩
  have hle := selectRoulette_length_le C (best :: others) (2 * (s.populationSize - 1)) w
  have htonat : (2 * (s.populationSize - 1)).toNat = 2 * (s.populationSize - 1).toNat := by omega
  rw [htonat] at hle
  rcases Nat.lt_or_ge (selectRoulette C (best :: others) (2 * (s.populationSize - 1)) w).1.length
    (2 * (s.populationSize - 1).toNat) with hlt | hge
  · left
    refine ⟨hlt, ?_⟩
    rcases hb : breed C s.mutationRate
      (selectRoulette C (best :: others) (2 * (s.populationSize - 1)) w).1
      (s.populationSize - 1).toNat 0 [C.createAgentFn (C.getGenome best)]
      (selectRoulette C (best :: others) (2 * (s.populationSize - 1)) w).2 with ⟨_ | next, w2⟩
    · rw [← hamt] at hb
      exact ⟨w2, iterateGeneration_of_breed_none C S s w best others w2 hinit heval hsort hb⟩
    · rcases breed_some_enough _ _ _ _ _ _ _ _ _ hb with hz | hz
      · omega
      · omega
  · right
    refine ⟨le_antisymm hle hge, ?_⟩
    obtain ⟨kids, w2, hb, hlen⟩ := breed_of_enough C s.mutationRate
      (selectRoulette C (best :: others) (2 * (s.populationSize - 1)) w).1
      (s.populationSize - 1).toNat 0 [C.createAgentFn (C.getGenome best)]
      (selectRoulette C (best :: others) (2 * (s.populationSize - 1)) w).2 (by omega)
    refine ⟨kids, w2, by simpa using hb, hlen, ?_⟩
    rw [← hamt] at hb
    simpa using
      iterateGeneration_of_breed_some C S s w best others _ w2 hinit heval hsort hb

theorem demoRandomFloat_range (w : DemoWorld) :
    0 ≤ (demo.getRandomFloat w).1 ∧ (demo.getRandomFloat w).1 ≤ 1 := by
  show 0 ≤ (demoRandomFloat w).1 ∧ (demoRandomFloat w).1 ≤ 1
  unfold demoRandomFloat
  split
  · norm_num
  · exact ⟨le_max_left _ _, max_le zero_le_one (min_le_left _ _)⟩

/-! ## Theorems: the turnover -/

/-- With the first agent of the sorted population at fitness 0 or more (or with a single
agent) and random floats in `[0, 1]`, the roulette delivers every parent and the turnover
returns with the elite agent followed by the children. -/
theorem iterateGeneration_returns (C : Collaborators G A W) (S : StdSort A C.getFitness)
    (s : Genepool G A) (w : W)
    (hinit : s.isGenepoolInitialized = true) (heval : s.isGenerationEvaluated = true)
    (hwf : s.WellFormed) (hsize : 1 ≤ s.populationSize)
    (hfit : s.populationSize = 1 ∨ ∃ a ∈ s.agentPopulation, 0 ≤ C.getFitness a)
    (hdraw : ∀ w1, 0 ≤ (C.getRandomFloat w1).1 ∧ (C.getRandomFloat w1).1 ≤ 1) :
    ∃ best others kids w2,
      S.sort s.agentPopulation = best :: others ∧
      kids.length = (s.populationSize - 1).toNat ∧
      iterateGeneration C S s w =
        (Outcome.ok,
          { s with
            agentPopulation := C.createAgentFn (C.getGenome best) :: kids
            bestGenome := none
            bestFitness := C.getFitness best
            currentGeneration := s.currentGeneration + 1
            isGenerationEvaluated := false }, w2) := by
  obtain ⟨best, others, parents, w1, hsort, hsel, hcase⟩ :=
    iterateGeneration_turnover C S s w hinit heval hwf hsize
  rcases hcase with ⟨hlt, _⟩ | ⟨_, kids, w2, _, hlen, hit⟩
  · exfalso
    rcases hfit with hone | ⟨a, ha, hpos⟩
    · rw [hone] at hlt
      simp at hlt
    · have hbest : 0 ≤ C.getFitness best := hpos.trans ((S.head_mem_max hsort).2 a ha)
      have hfull := selectRoulette_length_eq C best others (2 * (s.populationSize - 1)) w
        hbest hdraw
      rw [hsel] at hfull
      simp only at hfull
      omega
  · exact ⟨best, others, kids, w2, hsort, hlen, hit⟩

/-- C6 (elitism), as the code has it: on an initialized, evaluated genepool with
`populationSize >= 1` agents, if the population has one agent only or some agent has fitness
at least 0, and the random floats lie in `[0, 1]`, then `iterateGeneration` returns and
there is an agent `best` of the evaluated population, with fitness at least that of every
agent of that population, such that the first agent of the new population is the agent
factory applied to the genome of `best` itself (no crossover, no mutation). -/
theorem iterateGeneration_elitism (C : Collaborators G A W) (S : StdSort A C.getFitness)
    (s : Genepool G A) (w : W)
    (hinit : getGenepoolInitialized s = true) (heval : getGenerationEvaluated s = true)
    (hwf : s.WellFormed) (hsize : 1 ≤ s.populationSize)
    (hfit : s.populationSize = 1 ∨ ∃ a ∈ s.agentPopulation, 0 ≤ C.getFitness a)
    (hdraw : ∀ w1, 0 ≤ (C.getRandomFloat w1).1 ∧ (C.getRandomFloat w1).1 ≤ 1) :
    (iterateGeneration C S s w).1 = Outcome.ok ∧
    ∃ best ∈ s.agentPopulation,
      (∀ a ∈ s.agentPopulation, C.getFitness a ≤ C.getFitness best) ∧
      (iterateGeneration C S s w).2.1.agentPopulation.head?
        = some (C.createAgentFn (C.getGenome best)) := by
  obtain ⟨best, others, kids, w2, hsort, _, hit⟩ :=
    iterateGeneration_returns C S s w hinit heval hwf hsize hfit hdraw
  obtain ⟨hmem, hmax⟩ := S.head_mem_max hsort
  rw [hit]
  exact ⟨rfl, best, hmem, hmax, rfl⟩

theorem iterateGeneration_elitism_witness :
    getGenepoolInitialized (demoPool [demoAgent 1 3, demoAgent 2 5] true) = true ∧
    getGenerationEvaluated (demoPool [demoAgent 1 3, demoAgent 2 5] true) = true ∧
    (demoPool [demoAgent 1 3, demoAgent 2 5] true).WellFormed ∧
    1 ≤ (demoPool [demoAgent 1 3, demoAgent 2 5] true).populationSize ∧
    (∃ a ∈ (demoPool [demoAgent 1 3, demoAgent 2 5] true).agentPopulation,
      0 ≤ demo.getFitness a) ∧
    (iterateGeneration demo demoSort (demoPool [demoAgent 1 3, demoAgent 2 5] true) demoWorld).1
      = Outcome.ok ∧
    ∃ best ∈ (demoPool [demoAgent 1 3, demoAgent 2 5] true).agentPopulation,
      (∀ a ∈ (demoPool [demoAgent 1 3, demoAgent 2 5] true).agentPopulation,
        demo.getFitness a ≤ demo.getFitness best) ∧
      (iterateGeneration demo demoSort (demoPool [demoAgent 1 3, demoAgent 2 5] true)
          demoWorld).2.1.agentPopulation.head?
        = some (demo.createAgentFn (demo.getGenome best)) :=
  have hfit : ∃ a ∈ (demoPool [demoAgent 1 3, demoAgent 2 5] true).agentPopulation,
      0 ≤ demo.getFitness a :=
    ⟨demoAgent 1 3, by simp [demoPool], by norm_num [demo, demoAgent]⟩
  ⟨rfl, rfl, rfl, by decide, hfit,
    iterateGeneration_elitism demo demoSort (demoPool [demoAgent 1 3, demoAgent 2 5] true) demoWorld
      rfl rfl rfl (by decide) (Or.inr hfit) demoRandomFloat_range⟩

/-- C6, as stated, fails: the genepool is initialized and evaluated and holds two agents, of
fitness -2 and -3. With the random floats 0 and 1/4 the draws are `r = 0` and `r = -5/4`,
which no cumulative fitness (-2, -5) reaches: the roulette returns no parent, the offspring
loop reads `parentData[0]` of an empty vector, and the call does not return. The population
vector is the sorted old population, its first agent being the old agent of fitness -2 and
not an agent made by the factory. -/
theorem elitism_fails_on_negative_fitness :
    getGenepoolInitialized (demoPool [demoAgent 1 (-2), demoAgent 2 (-3)] true) = true ∧
    getGenerationEvaluated (demoPool [demoAgent 1 (-2), demoAgent 2 (-3)] true) = true ∧
    (demoPool [demoAgent 1 (-2), demoAgent 2 (-3)] true).WellFormed ∧
    1 ≤ (demoPool [demoAgent 1 (-2), demoAgent 2 (-3)] true).populationSize ∧
    (iterateGeneration demo demoSort (demoPool [demoAgent 1 (-2), demoAgent 2 (-3)] true)
      demoWorldLow).1 = Outcome.fault ∧
    (iterateGeneration demo demoSort (demoPool [demoAgent 1 (-2), demoAgent 2 (-3)] true)
      demoWorldLow).2.1.agentPopulation.head? = some (demoAgent 1 (-2)) ∧
    ∀ best ∈ (demoPool [demoAgent 1 (-2), demoAgent 2 (-3)] true).agentPopulation,
      (iterateGeneration demo demoSort (demoPool [demoAgent 1 (-2), demoAgent 2 (-3)] true)
        demoWorldLow).2.1.agentPopulation.head?
        ≠ some (demo.createAgentFn (demo.getGenome best)) := by
  have hhead : (iterateGeneration demo demoSort
      (demoPool [demoAgent 1 (-2), demoAgent 2 (-3)] true)
      demoWorldLow).2.1.agentPopulation.head? = some (demoAgent 1 (-2)) := by
    norm_num [iterateGeneration, demoSort, insertionSortDesc, demoPool, Genepool.constructed,
      demoAgent, demo, List.insertionSort, List.orderedInsert, selectRoulette, rouletteDraws,
      rouletteWalk, demoRandomFloat, demoWorldLow, breed]
  refine ⟨rfl, rfl, rfl, by decide, ?_, hhead, ?_⟩
  · norm_num [iterateGeneration, demoSort, insertionSortDesc, demoPool, Genepool.constructed,
      demoAgent, demo, List.insertionSort, List.orderedInsert, selectRoulette, rouletteDraws,
      rouletteWalk, demoRandomFloat, demoWorldLow, breed]
  · intro best _
    rw [hhead]
    simp [demo, demoAgent]

/-- C7, as the code has it: on an initialized, evaluated genepool with `populationSize >= 1`
agents, if the population has one agent only or some agent has fitness at least 0, and the
random floats lie in `[0, 1]`, then `iterateGeneration` returns, the new population again
has exactly `populationSize` agents, the generation number has grown by exactly 1 and the
evaluated flag is false. -/
theorem iterateGeneration_completes (C : Collaborators G A W) (S : StdSort A C.getFitness)
    (s : Genepool G A) (w : W)
    (hinit : getGenepoolInitialized s = true) (heval : getGenerationEvaluated s = true)
    (hwf : s.WellFormed) (hsize : 1 ≤ s.populationSize)
    (hfit : s.populationSize = 1 ∨ ∃ a ∈ s.agentPopulation, 0 ≤ C.getFitness a)
    (hdraw : ∀ w1, 0 ≤ (C.getRandomFloat w1).1 ∧ (C.getRandomFloat w1).1 ≤ 1) :
    (iterateGeneration C S s w).1 = Outcome.ok ∧
    ((iterateGeneration C S s w).2.1.agentPopulation.length : Int) = s.populationSize ∧
    (iterateGeneration C S s w).2.1.populationSize = s.populationSize ∧
    getGenerationNumber (iterateGeneration C S s w).2.1 = getGenerationNumber s + 1 ∧
    getGenerationEvaluated (iterateGeneration C S s w).2.1 = false := by
  obtain ⟨best, others, parents, w1, hsort, hsel, hcase⟩ :=
    iterateGeneration_turnover C S s w hinit heval hwf hsize
  rcases hcase with ⟨hlt, _⟩ | ⟨_, kids, w2, _, hlen, hit⟩
  · exfalso
    rcases hfit with hone | ⟨a, ha, hpos⟩
    · rw [hone] at hlt
      simp at hlt
    · have hbest : 0 ≤ C.getFitness best := hpos.trans ((S.head_mem_max hsort).2 a ha)
      have hfull := selectRoulette_length_eq C best others (2 * (s.populationSize - 1)) w
        hbest hdraw
      rw [hsel] at hfull
      simp only at hfull
      omega
  · rw [hit]
    refine ⟨rfl, ?_, rfl, rfl, rfl⟩
    simp only [List.length_cons, hlen]
    omega

theorem iterateGeneration_completes_witness :
    getGenepoolInitialized (demoPool [demoAgent 1 (-3), demoAgent 2 0, demoAgent 3 (-1)] true) = true ∧
    (iterateGeneration demo demoSort (demoPool [demoAgent 1 (-3), demoAgent 2 0, demoAgent 3 (-1)] true)
        demoWorld).1 = Outcome.ok ∧
    ((iterateGeneration demo demoSort (demoPool [demoAgent 1 (-3), demoAgent 2 0, demoAgent 3 (-1)] true)
        demoWorld).2.1.agentPopulation.length : Int) = 3 :=
  ⟨rfl,
    (iterateGeneration_completes demo demoSort
      (demoPool [demoAgent 1 (-3), demoAgent 2 0, demoAgent 3 (-1)] true) demoWorld rfl rfl rfl
      (by decide) (Or.inr ⟨demoAgent 2 0, by simp [demoPool], le_refl _⟩) demoRandomFloat_range).1,
    (iterateGeneration_completes demo demoSort
      (demoPool [demoAgent 1 (-3), demoAgent 2 0, demoAgent 3 (-1)] true) demoWorld rfl rfl rfl
      (by decide) (Or.inr ⟨demoAgent 2 0, by simp [demoPool], le_refl _⟩) demoRandomFloat_range).2.1⟩

/-- C7, as stated, fails: two agents of fitness -1 and a random float 0 give the draw
`r = 0`, which no cumulative fitness (-1, -2) reaches; the roulette returns no parent and the
offspring loop reads `parentData[0]` of an empty vector. -/
theorem iterateGeneration_negative_fitness_fault :
    getGenepoolInitialized (demoPool [demoAgent 1 (-1), demoAgent 2 (-1)] true) = true ∧
    getGenerationEvaluated (demoPool [demoAgent 1 (-1), demoAgent 2 (-1)] true) = true ∧
    (demoPool [demoAgent 1 (-1), demoAgent 2 (-1)] true).WellFormed ∧
    1 ≤ (demoPool [demoAgent 1 (-1), demoAgent 2 (-1)] true).populationSize ∧
    (selectRoulette demo [demoAgent 1 (-1), demoAgent 2 (-1)] 2 demoWorldLow).1 = [] ∧
    (iterateGeneration demo demoSort (demoPool [demoAgent 1 (-1), demoAgent 2 (-1)] true)
      demoWorldLow).1 = Outcome.fault := by
  refine ⟨rfl, rfl, rfl, by decide, ?_, ?_⟩
  · norm_num [selectRoulette, rouletteDraws, rouletteWalk, demoAgent, demo, demoRandomFloat,
      demoWorldLow]
  · norm_num [iterateGeneration, demoSort, insertionSortDesc, demoPool, Genepool.constructed,
      demoAgent, demo, List.insertionSort, List.orderedInsert, selectRoulette, rouletteDraws,
      rouletteWalk, demoRandomFloat, demoWorldLow, breed]

/-- C8, at a concrete genepool: the agents have genome 1 with fitness 3 and genome 2 with
fitness 5. `iterateGeneration` returns and the elite agent of the new population holds
genome 2, yet `getBestData()` is null afterwards, because the stored best genome was moved
into the argument of the agent factory. -/
theorem iterateGeneration_bestGenome_moved_out :
    (iterateGeneration demo demoSort (demoPool [demoAgent 1 3, demoAgent 2 5] true) demoWorld).1
      = Outcome.ok ∧
    (iterateGeneration demo demoSort (demoPool [demoAgent 1 3, demoAgent 2 5] true)
      demoWorld).2.1.agentPopulation.head? = some (demo.createAgentFn 2) ∧
    getBestData (iterateGeneration demo demoSort (demoPool [demoAgent 1 3, demoAgent 2 5] true)
      demoWorld).2.1 = none := by
  refine ⟨?_, ?_, ?_⟩ <;>
  norm_num [iterateGeneration, initializeGeneration, getBestData, demoSort, insertionSortDesc,
    demoPool, Genepool.constructed, demoAgent, demo, List.insertionSort, List.orderedInsert,
    selectRoulette, rouletteDraws, rouletteWalk, demoRandomFloat, demoWorld, breed]

/-- The best-genome member is null after every turnover, whatever the population. -/
theorem iterateGeneration_bestGenome_none (C : Collaborators G A W) (S : StdSort A C.getFitness)
    (s : Genepool G A) (w : W)
    (hinit : getGenepoolInitialized s = true) (heval : getGenerationEvaluated s = true)
    (hwf : s.WellFormed) (hsize : 1 ≤ s.populationSize) :
    getBestData (iterateGeneration C S s w).2.1 = none := by
  obtain ⟨best, others, parents, w1, hsort, hsel, hcase⟩ :=
    iterateGeneration_turnover C S s w hinit heval hwf hsize
  rcases hcase with ⟨_, w2, hit⟩ | ⟨_, kids, w2, _, _, hit⟩ <;> rw [hit] <;> rfl

/-- C9: after an `iterateGeneration` call that gets past its two guards (genepool
initialized and evaluated, `populationSize >= 1` agents), `getBestFitness()` is the fitness
of an agent of the evaluated population that no agent of that population exceeds, that is
the maximum fitness of that generation; and this holds whatever best fitness was stored
before the call, so the stored value is overwritten, not kept as a running maximum. -/
theorem iterateGeneration_bestFitness_overwritten (C : Collaborators G A W)
    (S : StdSort A C.getFitness) (s : Genepool G A) (w : W)
    (hinit : getGenepoolInitialized s = true) (heval : getGenerationEvaluated s = true)
    (hwf : s.WellFormed) (hsize : 1 ≤ s.populationSize) :
    ∃ best ∈ s.agentPopulation,
      (∀ a ∈ s.agentPopulation, C.getFitness a ≤ C.getFitness best) ∧
      ∀ previous : ℚ,
        getBestFitness (iterateGeneration C S { s with bestFitness := previous } w).2.1
          = C.getFitness best := by
  obtain ⟨best, others, hsort⟩ :=
    List.exists_cons_of_ne_nil (S.sort_ne_nil (population_ne_nil s hwf hsize))
  obtain ⟨hmem, hmax⟩ := S.head_mem_max hsort
  refine ⟨best, hmem, hmax, fun previous => ?_⟩
  obtain ⟨best1, others1, parents, w1, hsort1, hsel, hcase⟩ :=
    iterateGeneration_turnover C S { s with bestFitness := previous } w hinit heval hwf hsize
  have hsame : best1 :: others1 = best :: others := hsort1.symm.trans hsort
  obtain ⟨rfl, rfl⟩ := List.cons.inj hsame
  rcases hcase with ⟨_, w2, hit⟩ | ⟨_, kids, w2, _, _, hit⟩ <;> rw [hit] <;> rfl

theorem iterateGeneration_bestFitness_overwritten_witness :
    getBestFitness (demoPool [demoAgent 1 3, demoAgent 2 5] true) = 9 ∧
    ∃ best ∈ (demoPool [demoAgent 1 3, demoAgent 2 5] true).agentPopulation,
      (∀ a ∈ (demoPool [demoAgent 1 3, demoAgent 2 5] true).agentPopulation,
        demo.getFitness a ≤ demo.getFitness best) ∧
      ∀ previous : ℚ,
        getBestFitness (iterateGeneration demo demoSort
          { demoPool [demoAgent 1 3, demoAgent 2 5] true with bestFitness := previous }
          demoWorld).2.1 = demo.getFitness best :=
  ⟨rfl,
    iterateGeneration_bestFitness_overwritten demo demoSort
      (demoPool [demoAgent 1 3, demoAgent 2 5] true) demoWorld rfl rfl rfl (by decide)⟩

/-! ## Tournament selection -/

theorem demoRandomInt_range (lo hi : Int) (w : DemoWorld) (h : lo ≤ hi) :
    lo ≤ (demo.getRandomInt lo hi w).1 ∧ (demo.getRandomInt lo hi w).1 ≤ hi := by
  show lo ≤ (demoRandomInt lo hi w).1 ∧ (demoRandomInt lo hi w).1 ≤ hi
  unfold demoRandomInt
  split
  · exact ⟨le_refl _, h⟩
  · exact ⟨le_max_left _ _, max_le h (min_le_left _ _)⟩

theorem worldAfterInts_add (C : Collaborators G A W) (lo hi : Int) (a b : Nat) (w : W) :
    worldAfterInts C lo hi (a + b) w = worldAfterInts C lo hi b (worldAfterInts C lo hi a w) := by
  induction a generalizing w with
  | zero => simp [worldAfterInts]
  | succ n ih =>
    rw [show n + 1 + b = (n + b) + 1 by omega]
    exact ih (C.getRandomInt lo hi w).2

theorem nthRandomInt_add (C : Collaborators G A W) (lo hi : Int) (a b : Nat) (w : W) :
    nthRandomInt C lo hi (worldAfterInts C lo hi a w) b = nthRandomInt C lo hi w (a + b) := by
  unfold nthRandomInt
  rw [worldAfterInts_add]

/-- The inner loop of `selectTournament` on a non-empty population with random indices in
range: sample number `j` is the agent at the index that call number `j` of `getRandomInt`
returned. -/
theorem fillTournament_spec (C : Collaborators G A W) (pop : List A) (hne : pop ≠ [])
    (hrand : ∀ lo hi w, lo ≤ hi →
      lo ≤ (C.getRandomInt lo hi w).1 ∧ (C.getRandomInt lo hi w).1 ≤ hi)
    (count : Nat) (tournament : List A) (w : W) :
    ∃ more,
      fillTournament C pop count tournament w
        = (some (tournament ++ more), worldAfterInts C 0 ((pop.length : Int) - 1) count w) ∧
      more.length = count ∧ (∀ x ∈ more, x ∈ pop) ∧
      ∀ j, j < count →
        more[j]? = pop[(nthRandomInt C 0 ((pop.length : Int) - 1) w j).toNat]? := by
  induction count generalizing tournament w with
  | zero => exact ⟨[], by simp [fillTournament, worldAfterInts], rfl, by simp,
      fun j hj => absurd hj (by omega)⟩
  | succ n ih =>
    have hlen : 0 < pop.length := List.length_pos.2 hne
    obtain ⟨hlo, hhi⟩ := hrand 0 ((pop.length : Int) - 1) w (by omega)
    have hfirst : nthRandomInt C 0 ((pop.length : Int) - 1) w 0
        = (C.getRandomInt 0 ((pop.length : Int) - 1) w).1 := rfl
    have hnext : ∀ j, nthRandomInt C 0 ((pop.length : Int) - 1) w (j + 1)
        = nthRandomInt C 0 ((pop.length : Int) - 1)
            (C.getRandomInt 0 ((pop.length : Int) - 1) w).2 j := fun _ => rfl
    have hworld : worldAfterInts C 0 ((pop.length : Int) - 1) (n + 1) w
        = worldAfterInts C 0 ((pop.length : Int) - 1) n
            (C.getRandomInt 0 ((pop.length : Int) - 1) w).2 := rfl
    rcases hr : C.getRandomInt 0 ((pop.length : Int) - 1) w with ⟨r, w1⟩
    rw [hr] at hlo hhi hfirst hnext hworld
    simp only at hlo hhi hfirst hnext hworld
    have hidx : r.toNat < pop.length := by omega
    obtain ⟨more, hfill, hmore, hin, hsample⟩ := ih (tournament ++ [pop[r.toNat]]) w1
    refine ⟨pop[r.toNat] :: more, ?_, by simp [hmore], ?_, ?_⟩
    · simp only [fillTournament, hr, not_lt.2 hlo, if_false, List.getElem?_eq_getElem hidx]
      rw [hfill, hworld]
      simp
    · intro x hx
      rcases List.mem_cons.1 hx with rfl | hx
      · exact List.getElem_mem _
      · exact hin x hx
    · intro j hj
      cases j with
      | zero =>
        rw [hfirst, List.getElem?_eq_getElem hidx, List.getElem?_cons_zero]
      | succ i =>
        rw [hnext, List.getElem?_cons_succ]
        exact hsample i (by omega)

/-- What `selectTournament` returns for a non-empty population, a tournament size of at
least 1 and random indices inside the population: one agent per draw; the tournament of
draw `k` holds the agents at the random indices number `k * tournamentSize`, ...,
`k * tournamentSize + tournamentSize - 1`, and the agent selected is one of them with
fitness at least that of each of them. -/
theorem tournamentDraws_spec (C : Collaborators G A W) (S : StdSort A C.getFitness)
    (pop : List A) (tournamentSize : Int) (hne : pop ≠ []) (hsize : 1 ≤ tournamentSize)
    (hrand : ∀ lo hi w, lo ≤ hi →
      lo ≤ (C.getRandomInt lo hi w).1 ∧ (C.getRandomInt lo hi w).1 ≤ hi)
    (count : Nat) (selected : List A) (w : W) :
    ∃ picks w1,
      tournamentDraws C S pop tournamentSize count selected w = (some (selected ++ picks), w1) ∧
      picks.length = count ∧
      ∀ k, k < count → ∃ (t : List A) (x : A),
        t.length = tournamentSize.toNat ∧ (∀ y ∈ t, y ∈ pop) ∧
        (∀ j, j < tournamentSize.toNat →
          t[j]? = pop[(nthRandomInt C 0 ((pop.length : Int) - 1) w
            (k * tournamentSize.toNat + j)).toNat]?) ∧
        picks[k]? = some x ∧ x ∈ t ∧ ∀ y ∈ t, C.getFitness y ≤ C.getFitness x := by
  induction count generalizing selected w with
  | zero => exact ⟨[], w, by simp [tournamentDraws], rfl, fun k hk => absurd hk (by omega)⟩
  | succ n ih =>
    obtain ⟨t, hfill, hlen, hin, hsample⟩ :=
      fillTournament_spec C pop hne hrand tournamentSize.toNat [] w
    rw [List.nil_append] at hfill
    have htne : t ≠ [] := by
      intro hnil
      rw [hnil] at hlen
      simp at hlen
      omega
    obtain ⟨best, rest, hsort⟩ := List.exists_cons_of_ne_nil (S.sort_ne_nil htne)
    obtain ⟨hbest, hmax⟩ := S.head_mem_max hsort
    obtain ⟨picks, w2, hdraws, hpicks, hspec⟩ := ih (selected ++ [best])
      (worldAfterInts C 0 ((pop.length : Int) - 1) tournamentSize.toNat w)
    refine ⟨best :: picks, w2, ?_, by simp [hpicks], ?_⟩
    · simp only [tournamentDraws, hfill, hsort]
      rw [hdraws]
      simp
    · intro k hk
      cases k with
      | zero =>
        refine ⟨t, best, hlen, hin, fun j hj => ?_, by simp, hbest, hmax⟩
        rw [Nat.zero_mul, Nat.zero_add]
        exact hsample j hj
      | succ i =>
        obtain ⟨t1, x, h2, h3, hidx, h4, h5, h6⟩ := hspec i (by omega)
        refine ⟨t1, x, h2, h3, fun j hj => ?_, by simpa using h4, h5, h6⟩
        rw [hidx j hj, nthRandomInt_add]
        congr 3
        ring

/-- C10, as the code has it: called on a non-empty population with `tournamentSize` equal to
the population size and random indices inside the population, `selectTournament` returns
`selectAmount` agents. The tournament of draw `k` holds one agent per random index drawn for
it (with replacement): its sample number `j` is the agent at the index returned by call
number `k * populationSize + j` of `getRandomInt(0, populationSize - 1)`. The agent selected
on draw `k` is one of those sampled agents and no sampled agent has a higher fitness; its
fitness is the maximum over the whole population whenever an agent of maximal fitness is
among the agents sampled for that draw. -/
theorem selectTournament_full_size (C : Collaborators G A W) (S : StdSort A C.getFitness)
    (pop : List A) (selectAmount : Int) (w : W) (hne : pop ≠ [])
    (hrand : ∀ lo hi w, lo ≤ hi →
      lo ≤ (C.getRandomInt lo hi w).1 ∧ (C.getRandomInt lo hi w).1 ≤ hi) :
    ∃ selected,
      (selectTournament C S pop selectAmount pop.length w).1 = some selected ∧
      selected.length = selectAmount.toNat ∧
      ∀ k, k < selectAmount.toNat → ∃ (t : List A) (x : A),
        t.length = pop.length ∧ (∀ y ∈ t, y ∈ pop) ∧
        (∀ j, j < pop.length →
          t[j]? = pop[(nthRandomInt C 0 ((pop.length : Int) - 1) w
            (k * pop.length + j)).toNat]?) ∧
        selected[k]? = some x ∧ x ∈ t ∧ (∀ y ∈ t, C.getFitness y ≤ C.getFitness x) ∧
        ((∃ m ∈ t, ∀ a ∈ pop, C.getFitness a ≤ C.getFitness m) →
          ∀ a ∈ pop, C.getFitness a ≤ C.getFitness x) := by
  have hlen : 0 < pop.length := List.length_pos.2 hne
  obtain ⟨picks, w1, hdraws, hpicks, hspec⟩ :=
    tournamentDraws_spec C S pop pop.length hne (by omega) hrand selectAmount.toNat [] w
  refine ⟨picks, ?_, hpicks, fun k hk => ?_⟩
  · unfold selectTournament
    rw [hdraws]
    rfl
  · obtain ⟨t, x, h2, h3, hidx, h4, h5, h6⟩ := hspec k hk
    rw [Int.toNat_ofNat] at h2 hidx
    refine ⟨t, x, h2, h3, hidx, h4, h5, h6, ?_⟩
    rintro ⟨m, hm, hmmax⟩ a ha
    exact (hmmax a ha).trans (h6 m hm)

theorem selectTournament_full_size_witness :
    [demoAgent 1 1, demoAgent 2 2] ≠ [] ∧
    ∃ selected,
      (selectTournament demo demoSort [demoAgent 1 1, demoAgent 2 2] 3
        ([demoAgent 1 1, demoAgent 2 2].length) demoWorld).1 = some selected ∧
      selected.length = (3 : Int).toNat ∧
      ∀ k, k < (3 : Int).toNat → ∃ (t : List DemoAgent) (x : DemoAgent),
        t.length = [demoAgent 1 1, demoAgent 2 2].length ∧
        (∀ y ∈ t, y ∈ [demoAgent 1 1, demoAgent 2 2]) ∧
        (∀ j, j < [demoAgent 1 1, demoAgent 2 2].length →
          t[j]? = [demoAgent 1 1, demoAgent 2 2][(nthRandomInt demo 0
            (([demoAgent 1 1, demoAgent 2 2].length : Int) - 1) demoWorld
            (k * [demoAgent 1 1, demoAgent 2 2].length + j)).toNat]?) ∧
        selected[k]? = some x ∧ x ∈ t ∧ (∀ y ∈ t, demo.getFitness y ≤ demo.getFitness x) ∧
        ((∃ m ∈ t, ∀ a ∈ [demoAgent 1 1, demoAgent 2 2], demo.getFitness a ≤ demo.getFitness m) →
          ∀ a ∈ [demoAgent 1 1, demoAgent 2 2], demo.getFitness a ≤ demo.getFitness x) :=
  ⟨by simp,
    selectTournament_full_size demo demoSort [demoAgent 1 1, demoAgent 2 2] 3 demoWorld
      (by simp) demoRandomInt_range⟩

/-- C10, as stated, fails: the population holds the agents of fitness 2 and 1, in this
order, and the tournament size is 2 (the population size). The calls number 2 and 3 of
`getRandomInt(0, 1)`, the ones of the second draw, both return the index 1 (inside
`[0, 1]`), so both samples of the second draw are the agent of fitness 1, which is
selected although the agent of fitness 2 is the best of the population. -/
theorem tournament_of_population_size_misses_best :
    (2 : Int) = ([demoAgent 2 2, demoAgent 1 1].length : Int) ∧
    nthRandomInt demo 0 1 demoWorld 2 = 1 ∧
    nthRandomInt demo 0 1 demoWorld 3 = 1 ∧
    [demoAgent 2 2, demoAgent 1 1][1]? = some (demoAgent 1 1) ∧
    (selectTournament demo demoSort [demoAgent 2 2, demoAgent 1 1] 2 2 demoWorld).1
      = some [demoAgent 2 2, demoAgent 1 1] ∧
    demoAgent 2 2 ∈ [demoAgent 2 2, demoAgent 1 1] ∧
    demo.getFitness (demoAgent 1 1) < demo.getFitness (demoAgent 2 2) := by
  refine ⟨rfl, ?_, ?_, rfl, ?_, by simp, ?_⟩
  · norm_num [nthRandomInt, worldAfterInts, demo, demoRandomInt, demoWorld]
  · norm_num [nthRandomInt, worldAfterInts, demo, demoRandomInt, demoWorld]
  · norm_num [selectTournament, tournamentDraws, fillTournament, demoSort, insertionSortDesc,
      demoAgent, demo, List.insertionSort, List.orderedInsert, demoRandomInt, demoWorld]
  · norm_num [demo, demoAgent]

/-! ## The population-size invariant

`WellFormed` holds after `resetGenepool` and is kept by every other member, so it holds of
every genepool a caller can reach once `resetGenepool` has run. -/

theorem resetGenepool_wellFormed (C : Collaborators G A W) (populationSize : Int)
    (mutationRate : ℚ) (s : Genepool G A) (w : W) (h : 0 ≤ populationSize) :
    (resetGenepool C populationSize mutationRate s w).1.WellFormed := by
  simp [Genepool.WellFormed, resetGenepool, initializeGeneration, createPopulation_eq, h]

theorem configThreading_wellFormed (step full sync : Bool) (s : Genepool G A)
    (h : s.WellFormed) : (configThreading step full sync s).2.WellFormed := by
  unfold configThreading
  split_ifs <;> exact h

theorem evaluatePass_length (evaluate : A → A × Bool) (l : List A) (flag : Bool) :
    (evaluatePass evaluate l flag).1.length = l.length := by
  induction l generalizing flag with
  | nil => rfl
  | cons a rest ih => simp [evaluatePass, ih]

theorem evaluateRange_length (evaluate : A → A × Bool) (count i : Nat) (pop : List A)
    (flag : Bool) (pop1 : List A) (flag1 : Bool)
    (h : evaluateRange evaluate count i pop flag = some (pop1, flag1)) :
    pop1.length = pop.length := by
  induction count generalizing i pop flag with
  | zero =>
    simp only [evaluateRange, Option.some.injEq, Prod.mk.injEq] at h
    rw [← h.1]
  | succ n ih =>
    simp only [evaluateRange] at h
    split at h
    · exact absurd h (by simp)
    · rw [ih _ _ _ h, List.length_set]

theorem evaluateSubset_length (evaluate : A → A × Bool) (singleStep : Bool) (start stop fuel : Nat)
    (pop : List A) :
    (evaluateSubset evaluate singleStep start stop fuel pop).2.1.length = pop.length := by
  induction fuel generalizing pop with
  | zero => rfl
  | succ n ih =>
    simp only [evaluateSubset]
    split
    · rfl
    · next pop1 flag hrange =>
      have hlen := evaluateRange_length evaluate _ _ _ _ _ _ hrange
      split_ifs
      · exact hlen
      · exact hlen
      · rw [ih, hlen]

theorem evaluateRound_length (C : Collaborators G A W) (taskSingleStep : Bool)
    (subsetSize populationSize taskFuel tasks i : Nat) (pop : List A) (flag : Bool) :
    (evaluateRound C taskSingleStep subsetSize populationSize taskFuel tasks i pop flag).2.1.length
      = pop.length := by
  induction tasks generalizing i pop flag with
  | zero => rfl
  | succ n ih =>
    simp only [evaluateRound]
    have hlen := evaluateSubset_length C.evaluate taskSingleStep (i * subsetSize)
      (min (i * subsetSize + subsetSize) populationSize) taskFuel pop
    split
    · next pop1 result heq =>
      rw [heq] at hlen
      rw [ih]
      exact hlen
    · next outcome pop1 result _ heq =>
      rw [heq] at hlen
      exact hlen

theorem evaluateSingleThreaded_wellFormed (C : Collaborators G A W) (singleStep : Bool)
    (fuel : Nat) (s : Genepool G A) (h : s.WellFormed) :
    (evaluateSingleThreaded C singleStep fuel s).2.WellFormed := by
  induction fuel generalizing s with
  | zero =>
    simp only [evaluateSingleThreaded]
    split_ifs <;> exact h
  | succ n ih =>
    simp only [evaluateSingleThreaded]
    split_ifs
    · exact h
    · simp only [Genepool.WellFormed, evaluatePass_length]
      exact h
    · apply ih
      simp only [Genepool.WellFormed, evaluatePass_length]
      exact h

theorem evaluateThreaded_wellFormed (C : Collaborators G A W) (singleStep : Bool)
    (threadCount subsetSize populationSize taskFuel fuel : Nat) (s : Genepool G A)
    (h : s.WellFormed) :
    (evaluateThreaded C singleStep threadCount subsetSize populationSize taskFuel fuel s).2.WellFormed := by
  induction fuel generalizing s with
  | zero =>
    simp only [evaluateThreaded]
    split_ifs <;> exact h
  | succ n ih =>
    simp only [evaluateThreaded]
    have hlen := evaluateRound_length C (singleStep || s.syncThreadedFullSteps) subsetSize
      populationSize taskFuel threadCount 0 s.agentPopulation true
    by_cases hev : s.isGenerationEvaluated = true
    · rw [if_pos hev]
      exact h
    · rw [if_neg hev]
      split
      · next pop1 flag heq =>
        rw [heq] at hlen
        by_cases hs : singleStep = true
        · rw [if_pos hs]
          simp only [Genepool.WellFormed, hlen]
          exact h
        · rw [if_neg hs]
          apply ih
          simp only [Genepool.WellFormed, hlen]
          exact h
      · next outcome pop1 flag _ heq =>
        rw [heq] at hlen
        simp only [Genepool.WellFormed, hlen]
        exact h

theorem evaluateGeneration_wellFormed (C : Collaborators G A W) (fuel : Nat) (singleStep : Bool)
    (s : Genepool G A) (h : s.WellFormed) :
    (evaluateGeneration C fuel singleStep s).2.WellFormed := by
  unfold evaluateGeneration
  split_ifs
  · exact h
  · exact h
  · simp only
    split_ifs
    · exact h
    · exact evaluateThreaded_wellFormed C singleStep _ _ _ _ _ s h
  · exact evaluateSingleThreaded_wellFormed C singleStep fuel s h

theorem renderAll_length (C : Collaborators G A W) (l : List A) (w : W) :
    (renderAll C l w).1.length = l.length := by
  induction l generalizing w with
  | nil => rfl
  | cons a rest ih => simp [renderAll, ih]

theorem render_wellFormed (C : Collaborators G A W) (s : Genepool G A) (w : W)
    (h : s.WellFormed) : (render C s w).2.1.WellFormed := by
  unfold render
  split_ifs
  · exact h
  · exact h
  · simp only [Genepool.WellFormed, renderAll_length]
    exact h

theorem iterateGeneration_wellFormed (C : Collaborators G A W) (S : StdSort A C.getFitness)
    (s : Genepool G A) (w : W) (h : s.WellFormed) :
    (iterateGeneration C S s w).2.1.WellFormed := by
  by_cases hinit : s.isGenepoolInitialized = true
  · by_cases heval : s.isGenerationEvaluated = true
    · by_cases hsize : 1 ≤ s.populationSize
      · obtain ⟨best, others, parents, w1, hsort, hsel, hcase⟩ :=
          iterateGeneration_turnover C S s w hinit heval h hsize
        have hlen := (S.perm s.agentPopulation).length_eq
        rw [hsort] at hlen
        unfold Genepool.WellFormed at h
        rcases hcase with ⟨_, w2, hit⟩ | ⟨_, kids, w2, _, hkids, hit⟩
        · rw [hit]
          simp only [Genepool.WellFormed, hlen]
          exact h
        · rw [hit]
          simp only [Genepool.WellFormed, List.length_cons, hkids]
          omega
      · have hnil : s.agentPopulation = [] := by
          unfold Genepool.WellFormed at h
          apply List.length_eq_zero.1
          omega
        have hsort : S.sort s.agentPopulation = [] := by
          apply List.length_eq_zero.1
          rw [(S.perm s.agentPopulation).length_eq, hnil]
          rfl
        unfold iterateGeneration
        simp only [hinit, heval, hsort, Bool.not_true, Bool.false_eq_true, if_false]
        unfold Genepool.WellFormed at h ⊢
        rw [hnil] at h
        exact h
    · unfold iterateGeneration
      simp only [hinit, heval, Bool.not_true, Bool.not_false, Bool.false_eq_true, if_false, if_true]
      exact h
  · unfold iterateGeneration
    have hfalse : s.isGenepoolInitialized = false := by simpa using hinit
    simp only [hfalse, Bool.not_false, if_true]
    exact h

/-! ## Theorems: the step counter across a turnover -/

/-- A turnover leaves the step counter at the value it had before the call. -/
theorem iterateGeneration_currentStep (C : Collaborators G A W) (S : StdSort A C.getFitness)
    (s : Genepool G A) (w : W)
    (hinit : getGenepoolInitialized s = true) (heval : getGenerationEvaluated s = true)
    (hwf : s.WellFormed) (hsize : 1 ≤ s.populationSize) :
    (iterateGeneration C S s w).2.1.currentStep = s.currentStep := by
  obtain ⟨best, others, parents, w1, hsort, hsel, hcase⟩ :=
    iterateGeneration_turnover C S s w hinit heval hwf hsize
  rcases hcase with ⟨_, w2, hit⟩ | ⟨_, kids, w2, _, _, hit⟩ <;> rw [hit]

/-- C13, at a concrete genepool: two agents (fitness 3 and 5), evaluated, with the step
counter at 7. `iterateGeneration` returns, the generation number goes from 4 to 5 and the
evaluated flag is cleared, but the step counter is still 7, not 0: `iterateGeneration` has
no `currentStep = 0` and the body of `initializeGeneration` is empty. -/
theorem iterateGeneration_keeps_step_counter :
    (demoPool [demoAgent 1 3, demoAgent 2 5] true).currentStep = 7 ∧
    (iterateGeneration demo demoSort (demoPool [demoAgent 1 3, demoAgent 2 5] true) demoWorld).1
      = Outcome.ok ∧
    getGenerationNumber (iterateGeneration demo demoSort
      (demoPool [demoAgent 1 3, demoAgent 2 5] true) demoWorld).2.1 = 5 ∧
    getGenerationEvaluated (iterateGeneration demo demoSort
      (demoPool [demoAgent 1 3, demoAgent 2 5] true) demoWorld).2.1 = false ∧
    (iterateGeneration demo demoSort (demoPool [demoAgent 1 3, demoAgent 2 5] true)
      demoWorld).2.1.currentStep = 7 := by
  refine ⟨rfl, ?_, ?_, ?_, ?_⟩ <;>
  norm_num [iterateGeneration, initializeGeneration, getGenerationNumber, getGenerationEvaluated,
    demoSort, insertionSortDesc, demoPool, Genepool.constructed, demoAgent, demo,
    List.insertionSort, List.orderedInsert, selectRoulette, rouletteDraws, rouletteWalk,
    demoRandomFloat, demoWorld, breed]

/-! ## Theorems: roulette selection with zero fitness -/

theorem rouletteDraws_zero_head (C : Collaborators G A W) (first : A) (others : List A)
    (fitnessValues : List ℚ) (count : Nat) (selected : List A) (w : W) :
    (rouletteDraws C (first :: others) (0 :: fitnessValues) 0 count selected w).1
      = selected ++ List.replicate count first := by
  induction count generalizing selected w with
  | zero => simp [rouletteDraws]
  | succ n ih =>
    simp only [rouletteDraws, rouletteWalk, mul_zero, zero_add, le_refl, if_true]
    rw [ih]
    simp [List.replicate_succ]

/-- C19: on a non-empty population in which every agent has fitness 0, `selectRoulette`
returns, for every `selectAmount >= 0` and whatever the random floats are, exactly
`selectAmount` agents, every one of them the first agent of the population: each draw is
`r = 0`, which the first cumulative sum (0) already meets, so no draw is skipped and no
other agent is ever selected. -/
theorem selectRoulette_zero_fitness (C : Collaborators G A W) (first : A) (others : List A)
    (selectAmount : Int) (w : W) (hamount : 0 ≤ selectAmount)
    (hzero : ∀ a ∈ first :: others, C.getFitness a = 0) :
    (selectRoulette C (first :: others) selectAmount w).1
      = List.replicate selectAmount.toNat first ∧
    ((selectRoulette C (first :: others) selectAmount w).1.length : Int) = selectAmount ∧
    ∀ x ∈ (selectRoulette C (first :: others) selectAmount w).1, x = first := by
  have htotal : ((first :: others).map C.getFitness).foldl (· + ·) 0 = 0 := by
    rw [foldl_add_eq_sum, zero_add]
    apply List.sum_eq_zero
    intro x hx
    obtain ⟨a, ha, rfl⟩ := List.mem_map.1 hx
    exact hzero a ha
  have hsel : (selectRoulette C (first :: others) selectAmount w).1
      = List.replicate selectAmount.toNat first := by
    unfold selectRoulette
    simp only [htotal]
    rw [List.map_cons, hzero first (List.mem_cons_self _ _), rouletteDraws_zero_head]
    simp
  refine ⟨hsel, ?_, ?_⟩
  · rw [hsel, List.length_replicate]
    exact Int.toNat_of_nonneg hamount
  · intro x hx
    rw [hsel] at hx
    exact List.eq_of_mem_replicate hx

theorem selectRoulette_zero_fitness_witness :
    (0 : Int) ≤ 3 ∧
    (selectRoulette demo [demoAgent 4 0, demoAgent 5 0] 3 demoWorld).1
      = List.replicate (3 : Int).toNat (demoAgent 4 0) :=
  ⟨by decide,
    (selectRoulette_zero_fitness demo (demoAgent 4 0) [demoAgent 5 0] 3 demoWorld (by decide)
      (by
        intro a ha
        simp only [List.mem_cons, List.mem_singleton, List.not_mem_nil, or_false] at ha
        rcases ha with rfl | rfl <;> rfl)).1⟩

/-! ## Theorems: tournament selection in general -/

/-- C17: for a non-empty population, `selectAmount >= 0`, `tournamentSize >= 1` and random
indices inside `[0, population size - 1]`, `selectTournament` returns exactly `selectAmount`
agents in draw order. The tournament of draw `k` holds `tournamentSize` agents of the
population, one per random index drawn for it: its sample number `j` is the agent at the
index returned by call number `k * tournamentSize + j` of
`getRandomInt(0, population size - 1)`. The agent at position `k` of the result is one of
the agents sampled for draw `k`, and no agent sampled for that draw has a higher fitness.
The population is a read-only argument and is not part of the result. -/
theorem selectTournament_draw_winners (C : Collaborators G A W) (S : StdSort A C.getFitness)
    (pop : List A) (selectAmount tournamentSize : Int) (w : W) (hne : pop ≠ [])
    (hamount : 0 ≤ selectAmount) (hsize : 1 ≤ tournamentSize)
    (hrand : ∀ lo hi w, lo ≤ hi →
      lo ≤ (C.getRandomInt lo hi w).1 ∧ (C.getRandomInt lo hi w).1 ≤ hi) :
    ∃ selected,
      (selectTournament C S pop selectAmount tournamentSize w).1 = some selected ∧
      (selected.length : Int) = selectAmount ∧
      ∀ k : Nat, (k : Int) < selectAmount → ∃ (t : List A) (x : A),
        (t.length : Int) = tournamentSize ∧ (∀ y ∈ t, y ∈ pop) ∧
        (∀ j : Nat, (j : Int) < tournamentSize →
          0 ≤ nthRandomInt C 0 ((pop.length : Int) - 1) w (k * tournamentSize.toNat + j) ∧
          nthRandomInt C 0 ((pop.length : Int) - 1) w (k * tournamentSize.toNat + j)
            ≤ (pop.length : Int) - 1 ∧
          t[j]? = pop[(nthRandomInt C 0 ((pop.length : Int) - 1) w
            (k * tournamentSize.toNat + j)).toNat]?) ∧
        selected[k]? = some x ∧ x ∈ t ∧ ∀ y ∈ t, C.getFitness y ≤ C.getFitness x := by
  have hlen : 0 < pop.length := List.length_pos.2 hne
  obtain ⟨picks, w1, hdraws, hpicks, hspec⟩ :=
    tournamentDraws_spec C S pop tournamentSize hne hsize hrand selectAmount.toNat [] w
  refine ⟨picks, ?_, ?_, fun k hk => ?_⟩
  · unfold selectTournament
    rw [hdraws]
    rfl
  · rw [hpicks]
    exact Int.toNat_of_nonneg hamount
  · obtain ⟨t, x, h2, h3, hidx, h4, h5, h6⟩ := hspec k (by omega)
    refine ⟨t, x, ?_, h3, fun j hj => ?_, h4, h5, h6⟩
    · rw [h2]
      exact Int.toNat_of_nonneg (by omega)
    · obtain ⟨hlo, hhi⟩ := hrand 0 ((pop.length : Int) - 1)
        (worldAfterInts C 0 ((pop.length : Int) - 1) (k * tournamentSize.toNat + j) w) (by omega)
      exact ⟨hlo, hhi, hidx j (by omega)⟩

theorem selectTournament_draw_winners_witness :
    [demoAgent 1 1, demoAgent 2 2, demoAgent 3 0] ≠ [] ∧ (0 : Int) ≤ 2 ∧ (1 : Int) ≤ 3 ∧
    ∃ selected,
      (selectTournament demo demoSort [demoAgent 1 1, demoAgent 2 2, demoAgent 3 0] 2 3
        demoWorld).1 = some selected ∧
      (selected.length : Int) = 2 ∧
      ∀ k : Nat, (k : Int) < 2 → ∃ (t : List DemoAgent) (x : DemoAgent),
        (t.length : Int) = 3 ∧
        (∀ y ∈ t, y ∈ [demoAgent 1 1, demoAgent 2 2, demoAgent 3 0]) ∧
        (∀ j : Nat, (j : Int) < 3 →
          0 ≤ nthRandomInt demo 0
            (([demoAgent 1 1, demoAgent 2 2, demoAgent 3 0].length : Int) - 1) demoWorld
            (k * (3 : Int).toNat + j) ∧
          nthRandomInt demo 0
            (([demoAgent 1 1, demoAgent 2 2, demoAgent 3 0].length : Int) - 1) demoWorld
            (k * (3 : Int).toNat + j)
            ≤ ([demoAgent 1 1, demoAgent 2 2, demoAgent 3 0].length : Int) - 1 ∧
          t[j]? = [demoAgent 1 1, demoAgent 2 2, demoAgent 3 0][(nthRandomInt demo 0
            (([demoAgent 1 1, demoAgent 2 2, demoAgent 3 0].length : Int) - 1) demoWorld
            (k * (3 : Int).toNat + j)).toNat]?) ∧
        selected[k]? = some x ∧ x ∈ t ∧ ∀ y ∈ t, demo.getFitness y ≤ demo.getFitness x :=
  ⟨by simp, by decide, by decide,
    selectTournament_draw_winners demo demoSort [demoAgent 1 1, demoAgent 2 2, demoAgent 3 0] 2 3
      demoWorld (by simp) (by decide) (by decide) demoRandomInt_range⟩

/-! ## Theorems: offspring pairing -/

theorem breed_children (C : Collaborators G A W) (rate : ℚ) (parents : List A) (count i : Nat)
    (next : List A) (w : W) (h : 2 * (i + count) ≤ parents.length) :
    ∃ kids w1, breed C rate parents count i next w = (some (next ++ kids), w1) ∧
      kids.length = count ∧
      ∀ k, k < count → ∃ pa pb,
        parents[2 * (i + k)]? = some pa ∧ parents[2 * (i + k) + 1]? = some pb ∧
        kids[k]? = some (C.createAgentFn
          (C.crossover (C.getGenome pa) (C.getGenome pb) rate
            (worldBeforeChild C rate parents k i w)).1) := by
  induction count generalizing i next w with
  | zero => exact ⟨[], w, by simp [breed], rfl, fun k hk => absurd hk (by omega)⟩
  | succ n ih =>
    have h0 : i * 2 + 0 < parents.length := by omega
    have h1 : i * 2 + 1 < parents.length := by omega
    obtain ⟨kids, w1, hk, hlen, hspec⟩ := ih (i + 1)
      (next ++ [C.createAgentFn (C.crossover (C.getGenome parents[i * 2 + 0])
        (C.getGenome parents[i * 2 + 1]) rate w).1])
      (C.crossover (C.getGenome parents[i * 2 + 0]) (C.getGenome parents[i * 2 + 1]) rate w).2
      (by omega)
    refine ⟨C.createAgentFn (C.crossover (C.getGenome parents[i * 2 + 0])
      (C.getGenome parents[i * 2 + 1]) rate w).1 :: kids, w1, ?_, by simp [hlen], ?_⟩
    · simp only [breed, List.getElem?_eq_getElem h0, List.getElem?_eq_getElem h1]
      rw [hk]
      simp
    · intro k hklt
      cases k with
      | zero =>
        refine ⟨parents[i * 2 + 0], parents[i * 2 + 1], ?_, ?_, ?_⟩
        · rw [show 2 * (i + 0) = i * 2 + 0 by omega]
          exact List.getElem?_eq_getElem h0
        · rw [show 2 * (i + 0) + 1 = i * 2 + 1 by omega]
          exact List.getElem?_eq_getElem h1
        · simp [worldBeforeChild]
      | succ j =>
        obtain ⟨pa, pb, ha, hb, hkid⟩ := hspec j (by omega)
        refine ⟨pa, pb, ?_, ?_, ?_⟩
        · rw [show 2 * (i + (j + 1)) = 2 * (i + 1 + j) by omega]
          exact ha
        · rw [show 2 * (i + (j + 1)) + 1 = 2 * (i + 1 + j) + 1 by omega]
          exact hb
        · simp only [worldBeforeChild, List.getElem?_eq_getElem h0, List.getElem?_eq_getElem h1,
            List.getElem?_cons_succ]
          exact hkid

/-- C16: in a turnover of a genepool with `populationSize = n >= 1` agents in which the
selection returned the full parent list `p_0, ..., p_{2(n-1)-1}`, `iterateGeneration`
returns and the new population has exactly `n` agents: position 0 is the elite (the agent
factory applied to the genome of the first agent of the sorted population) and, for every
`k` in `0..n-2`, position `k + 1` is the agent factory applied to the genome returned by
`crossover` called on the genome of `p_{2k}` with the genome of `p_{2k+1}` and the mutation
rate as arguments (in the world left by the crossovers before it). -/
theorem iterateGeneration_offspring_pairing (C : Collaborators G A W) (S : StdSort A C.getFitness)
    (s : Genepool G A) (w : W)
    (hinit : getGenepoolInitialized s = true) (heval : getGenerationEvaluated s = true)
    (hwf : s.WellFormed) (hsize : 1 ≤ s.populationSize)
    (hfull : ((selectRoulette C (S.sort s.agentPopulation) (2 * (s.populationSize - 1)) w).1.length
      : Int) = 2 * (s.populationSize - 1)) :
    (iterateGeneration C S s w).1 = Outcome.ok ∧
    ((iterateGeneration C S s w).2.1.agentPopulation.length : Int) = s.populationSize ∧
    (iterateGeneration C S s w).2.1.agentPopulation[0]?
      = (S.sort s.agentPopulation).head?.map (fun best => C.createAgentFn (C.getGenome best)) ∧
    ∀ k : Nat, (k : Int) + 1 < s.populationSize → ∃ pa pb,
      (selectRoulette C (S.sort s.agentPopulation) (2 * (s.populationSize - 1)) w).1[2 * k]?
        = some pa ∧
      (selectRoulette C (S.sort s.agentPopulation) (2 * (s.populationSize - 1)) w).1[2 * k + 1]?
        = some pb ∧
      (iterateGeneration C S s w).2.1.agentPopulation[k + 1]?
        = some (C.createAgentFn
            (C.crossover (C.getGenome pa) (C.getGenome pb) s.mutationRate
              (worldBeforeChild C s.mutationRate
                (selectRoulette C (S.sort s.agentPopulation) (2 * (s.populationSize - 1)) w).1
                k 0
                (selectRoulette C (S.sort s.agentPopulation) (2 * (s.populationSize - 1)) w).2)).1) := by
  obtain ⟨best, others, parents, w1, hsort, hsel, hcase⟩ :=
    iterateGeneration_turnover C S s w hinit heval hwf hsize
  rw [hsort, hsel] at hfull ⊢
  simp only at hfull ⊢
  rcases hcase with ⟨hlt, _⟩ | ⟨hlen, kids, w2, hbreed, hkids, hit⟩
  · omega
  · obtain ⟨kids1, w3, hbreed1, _, hspec⟩ := breed_children C s.mutationRate parents
      (s.populationSize - 1).toNat 0 [C.createAgentFn (C.getGenome best)] w1 (by omega)
    rw [hbreed] at hbreed1
    have hkk : kids = kids1 := by
      have := congrArg Prod.fst hbreed1
      simpa using this
    subst hkk
    rw [hit]
    refine ⟨rfl, ?_, by simp, fun k hk => ?_⟩
    · simp only [List.length_cons, hkids]
      omega
    · obtain ⟨pa, pb, ha, hb, hkid⟩ := hspec k (by omega)
      refine ⟨pa, pb, by simpa using ha, by simpa using hb, ?_⟩
      simpa using hkid

theorem iterateGeneration_offspring_pairing_witness :
    (iterateGeneration demo demoSort (demoPool [demoAgent 1 3, demoAgent 2 5, demoAgent 7 0] true)
      demoWorld).2.1.agentPopulation
      = [demo.createAgentFn 2, demo.createAgentFn 2, demo.createAgentFn 1] ∧
    (iterateGeneration demo demoSort (demoPool [demoAgent 1 3, demoAgent 2 5, demoAgent 7 0] true)
      demoWorld).1 = Outcome.ok :=
  ⟨by norm_num [iterateGeneration, initializeGeneration, demoSort, insertionSortDesc, demoPool,
      Genepool.constructed, demoAgent, demo, List.insertionSort, List.orderedInsert,
      selectRoulette, rouletteDraws, rouletteWalk, demoRandomFloat, demoWorld, breed],
    (iterateGeneration_offspring_pairing demo demoSort
      (demoPool [demoAgent 1 3, demoAgent 2 5, demoAgent 7 0] true) demoWorld rfl rfl rfl
      (by decide)
      (by norm_num [demoSort, insertionSortDesc, demoPool, Genepool.constructed, demoAgent, demo,
        List.insertionSort, List.orderedInsert, selectRoulette, rouletteDraws, rouletteWalk,
        demoRandomFloat, demoWorld])).1⟩

/-! ## Theorems: fitness-proportionate selection -/

theorem cumulativeFitness_zero (fit : A → ℚ) (pop : List A) : cumulativeFitness fit pop 0 = 0 := by
  simp [cumulativeFitness]

theorem cumulativeFitness_length (fit : A → ℚ) (pop : List A) :
    cumulativeFitness fit pop pop.length = (pop.map fit).sum := by
  simp [cumulativeFitness]

theorem cumulativeFitness_succ (fit : A → ℚ) (pop : List A) (j : Nat) (hj : j < pop.length) :
    cumulativeFitness fit pop (j + 1) = cumulativeFitness fit pop j + fit pop[j] := by
  unfold cumulativeFitness
  rw [List.take_succ, List.getElem?_eq_getElem hj]
  simp only [List.map_append, List.sum_append, Option.toList_some, List.map_cons, List.map_nil,
    List.sum_cons, List.sum_nil, add_zero]

theorem cumulativeFitness_cons (fit : A → ℚ) (a : A) (rest : List A) (j : Nat) :
    cumulativeFitness fit (a :: rest) (j + 1) = fit a + cumulativeFitness fit rest j := by
  simp [cumulativeFitness]

theorem cumulativeFitness_le_succ (fit : A → ℚ) (pop : List A) (hfit : ∀ a ∈ pop, 0 ≤ fit a)
    (j : Nat) : cumulativeFitness fit pop j ≤ cumulativeFitness fit pop (j + 1) := by
  by_cases hj : j < pop.length
  · rw [cumulativeFitness_succ fit pop j hj]
    have := hfit pop[j] (List.getElem_mem _)
    linarith
  · unfold cumulativeFitness
    rw [List.take_of_length_le (by omega), List.take_of_length_le (by omega)]

theorem cumulativeFitness_mono (fit : A → ℚ) (pop : List A) (hfit : ∀ a ∈ pop, 0 ≤ fit a) :
    Monotone (cumulativeFitness fit pop) :=
  monotone_nat_of_le_succ (cumulativeFitness_le_succ fit pop hfit)

/-- The walk stops at the first position whose cumulative fitness reaches the draw. -/
theorem rouletteWalk_first (fit : A → ℚ) (r : ℚ) (l : List A) (cumSum : ℚ) (j : Nat)
    (hj : j < l.length)
    (hbefore : ∀ i, i < j → cumSum + cumulativeFitness fit l (i + 1) < r)
    (hreach : r ≤ cumSum + cumulativeFitness fit l (j + 1)) :
    rouletteWalk r l (l.map fit) cumSum = some l[j] := by
  induction l generalizing cumSum j with
  | nil => exact absurd hj (by simp)
  | cons a rest ih =>
    cases j with
    | zero =>
      have : r ≤ cumSum + fit a := by
        simpa [cumulativeFitness] using hreach
      simp [rouletteWalk, this]
    | succ k =>
      have hnot : ¬ r ≤ cumSum + fit a := by
        have := hbefore 0 (by omega)
        simp only [cumulativeFitness_cons, cumulativeFitness_zero, add_zero, zero_add] at this
        exact not_le.2 this
      simp only [List.map_cons, rouletteWalk, hnot, if_false, List.getElem_cons_succ]
      apply ih (cumSum + fit a) k (by simpa using hj)
      · intro i hi
        have := hbefore (i + 1) (by omega)
        rw [cumulativeFitness_cons] at this
        linarith
      · rw [cumulativeFitness_cons] at hreach
        linarith

/-- With fitness values that are not negative, "no earlier cumulative fitness reaches `r`"
says the same as "`r` lies above the cumulative fitness just before agent `j`". -/
theorem first_reach_iff_interval (fit : A → ℚ) (pop : List A) (hfit : ∀ a ∈ pop, 0 ≤ fit a)
    (r : ℚ) (j : Nat) :
    (∀ i, i < j → cumulativeFitness fit pop (i + 1) < r) ↔
      (j = 0 ∨ cumulativeFitness fit pop j < r) := by
  constructor
  · intro h
    cases j with
    | zero => exact Or.inl rfl
    | succ k => exact Or.inr (h k (by omega))
  · rintro (rfl | h) i hi
    · omega
    · exact lt_of_le_of_lt (cumulativeFitness_mono fit pop hfit (by omega)) h

theorem rouletteDraws_picks (C : Collaborators G A W) (pop : List A) (fits : List ℚ)
    (total : ℚ) (count : Nat) (selected : List A) (w : W)
    (hwalk : ∀ w1, (rouletteWalk ((C.getRandomFloat w1).1 * total) pop fits 0).isSome = true) :
    ∃ picks, (rouletteDraws C pop fits total count selected w).1 = selected ++ picks ∧
      picks.length = count ∧
      ∀ k, k < count → picks[k]? = rouletteWalk (nthFloat C w k * total) pop fits 0 := by
  induction count generalizing selected w with
  | zero => exact ⟨[], by simp [rouletteDraws], rfl, fun k hk => absurd hk (by omega)⟩
  | succ n ih =>
    obtain ⟨a, ha⟩ := Option.isSome_iff_exists.1 (hwalk w)
    obtain ⟨picks, hpicks, hlen, hspec⟩ := ih (selected ++ [a]) (C.getRandomFloat w).2
    refine ⟨a :: picks, ?_, by simp [hlen], ?_⟩
    · simp only [rouletteDraws, ha]
      rw [hpicks]
      simp
    · intro k hk
      cases k with
      | zero => simpa [nthFloat, worldAfterFloats] using ha.symm
      | succ j =>
        have := hspec j (by omega)
        simpa [nthFloat, worldAfterFloats] using this

theorem roulette_interval_unique (fit : A → ℚ) (pop : List A) (hne : pop ≠ [])
    (hfit : ∀ a ∈ pop, 0 ≤ fit a) (r : ℚ) (hr : r ≤ (pop.map fit).sum) :
    ∃! j, j < pop.length ∧ (j = 0 ∨ cumulativeFitness fit pop j < r) ∧
      r ≤ cumulativeFitness fit pop (j + 1) := by
  have hlen : 0 < pop.length := List.length_pos.2 hne
  have hex : ∃ j, r ≤ cumulativeFitness fit pop (j + 1) := by
    refine ⟨pop.length - 1, ?_⟩
    rw [show pop.length - 1 + 1 = pop.length by omega, cumulativeFitness_length]
    exact hr
  have hmono := cumulativeFitness_mono fit pop hfit
  refine ⟨Nat.find hex, ⟨?_, ?_, Nat.find_spec hex⟩, ?_⟩
  · have : Nat.find hex ≤ pop.length - 1 := Nat.find_min' hex (by
      rw [show pop.length - 1 + 1 = pop.length by omega, cumulativeFitness_length]
      exact hr)
    omega
  · rcases Nat.eq_zero_or_pos (Nat.find hex) with h0 | hpos
    · exact Or.inl h0
    · right
      have hmin := Nat.find_min hex (show Nat.find hex - 1 < Nat.find hex by omega)
      rw [show Nat.find hex - 1 + 1 = Nat.find hex by omega] at hmin
      exact not_le.1 hmin
  · rintro j ⟨_, hlow, hhigh⟩
    have hle : Nat.find hex ≤ j := Nat.find_min' hex hhigh
    rcases Nat.eq_or_lt_of_le hle with heq | hlt
    · exact heq.symm
    · exfalso
      rcases hlow with h0 | hlow
      · omega
      · have h1 : cumulativeFitness fit pop (Nat.find hex + 1) ≤ cumulativeFitness fit pop j :=
          hmono (by omega)
        have h2 := Nat.find_spec hex
        linarith

/-- C12: for a non-empty population with fitness values `f_0, ..., f_{n-1}` that are not
negative and random floats in `[0, 1]` (so that every draw `r` lies in `[0, T]`, `T` the
total fitness), `selectRoulette` selects for draw number `k` the agent at the position `j`
with `f_0 + ... + f_{j-1} < r <= f_0 + ... + f_j` (position 0 also for the draws from 0 on),
which is the first position whose cumulative fitness reaches `r`; every `r` in `[0, T]` lies
in the interval of exactly one position, and the interval of position `j` has length `f_j`,
the fraction `f_j / T` of the draw range. -/
theorem selectRoulette_proportionate (C : Collaborators G A W) (pop : List A) (selectAmount : Int)
    (w : W) (hne : pop ≠ []) (hfit : ∀ a ∈ pop, 0 ≤ C.getFitness a)
    (hdraw : ∀ w1, 0 ≤ (C.getRandomFloat w1).1 ∧ (C.getRandomFloat w1).1 ≤ 1) :
    (∀ (r : ℚ) (j : Nat) (hj : j < pop.length),
      (j = 0 ∨ cumulativeFitness C.getFitness pop j < r) →
      r ≤ cumulativeFitness C.getFitness pop (j + 1) →
      rouletteWalk r pop (pop.map C.getFitness) 0 = some pop[j]) ∧
    (∀ k : Nat, k < selectAmount.toNat →
      (selectRoulette C pop selectAmount w).1[k]?
        = rouletteWalk (nthFloat C w k * (pop.map C.getFitness).sum) pop
            (pop.map C.getFitness) 0 ∧
      0 ≤ nthFloat C w k * (pop.map C.getFitness).sum ∧
      nthFloat C w k * (pop.map C.getFitness).sum ≤ (pop.map C.getFitness).sum) ∧
    (selectRoulette C pop selectAmount w).1.length = selectAmount.toNat ∧
    (∀ r : ℚ, 0 ≤ r → r ≤ (pop.map C.getFitness).sum →
      ∃! j, j < pop.length ∧ (j = 0 ∨ cumulativeFitness C.getFitness pop j < r) ∧
        r ≤ cumulativeFitness C.getFitness pop (j + 1)) ∧
    (∀ (r : ℚ) (j : Nat),
      (∀ i, i < j → cumulativeFitness C.getFitness pop (i + 1) < r) ↔
        (j = 0 ∨ cumulativeFitness C.getFitness pop j < r)) ∧
    (∀ (j : Nat) (hj : j < pop.length),
      cumulativeFitness C.getFitness pop (j + 1) - cumulativeFitness C.getFitness pop j
        = C.getFitness pop[j] ∧
      (cumulativeFitness C.getFitness pop (j + 1) - cumulativeFitness C.getFitness pop j)
          / (pop.map C.getFitness).sum
        = C.getFitness pop[j] / (pop.map C.getFitness).sum) ∧
    cumulativeFitness C.getFitness pop 0 = 0 ∧
    cumulativeFitness C.getFitness pop pop.length = (pop.map C.getFitness).sum := by
  have hsum : 0 ≤ (pop.map C.getFitness).sum := by
    apply List.sum_nonneg
    intro x hx
    obtain ⟨a, ha, rfl⟩ := List.mem_map.1 hx
    exact hfit a ha
  have hwalk : ∀ w1, (rouletteWalk ((C.getRandomFloat w1).1 * (pop.map C.getFitness).sum) pop
      (pop.map C.getFitness) 0).isSome = true := by
    intro w1
    obtain ⟨h0, h1⟩ := hdraw w1
    apply rouletteWalk_isSome_of_le_sum _ _ _ _ hne
    rw [zero_add]
    nlinarith
  have hrange : ∀ k, 0 ≤ nthFloat C w k * (pop.map C.getFitness).sum ∧
      nthFloat C w k * (pop.map C.getFitness).sum ≤ (pop.map C.getFitness).sum := by
    intro k
    obtain ⟨h0, h1⟩ := hdraw (worldAfterFloats C k w)
    unfold nthFloat
    exact ⟨mul_nonneg h0 hsum, by nlinarith⟩
  obtain ⟨picks, hpicks, hlen, hspec⟩ := rouletteDraws_picks C pop (pop.map C.getFitness)
    (pop.map C.getFitness).sum selectAmount.toNat [] w hwalk
  have hsel : (selectRoulette C pop selectAmount w).1 = picks := by
    unfold selectRoulette
    simp only [foldl_add_eq_sum, zero_add]
    rw [hpicks]
    rfl
  refine ⟨?_, ?_, ?_, ?_, ?_, ?_, cumulativeFitness_zero _ _, cumulativeFitness_length _ _⟩
  · intro r j hj hlow hhigh
    apply rouletteWalk_first C.getFitness r pop 0 j hj
    · intro i hi
      rw [zero_add]
      exact (first_reach_iff_interval C.getFitness pop hfit r j).2 hlow i hi
    · rw [zero_add]
      exact hhigh
  · intro k hk
    rw [hsel]
    exact ⟨hspec k hk, hrange k⟩
  · rw [hsel, hlen]
  · intro r _ hr
    exact roulette_interval_unique C.getFitness pop hne hfit r hr
  · intro r j
    exact first_reach_iff_interval C.getFitness pop hfit r j
  · intro j hj
    rw [cumulativeFitness_succ C.getFitness pop j hj]
    constructor <;> ring_nf

theorem selectRoulette_proportionate_witness :
    [demoAgent 1 1, demoAgent 2 2, demoAgent 3 3] ≠ [] ∧
    cumulativeFitness demo.getFitness [demoAgent 1 1, demoAgent 2 2, demoAgent 3 3] 1 = 1 ∧
    cumulativeFitness demo.getFitness [demoAgent 1 1, demoAgent 2 2, demoAgent 3 3] 2 = 3 ∧
    cumulativeFitness demo.getFitness [demoAgent 1 1, demoAgent 2 2, demoAgent 3 3] 3 = 6 ∧
    (selectRoulette demo [demoAgent 1 1, demoAgent 2 2, demoAgent 3 3] 4 demoWorld).1
      = [demoAgent 2 2, demoAgent 2 2, demoAgent 3 3, demoAgent 3 3] ∧
    (∀ r : ℚ, 0 ≤ r →
      r ≤ ([demoAgent 1 1, demoAgent 2 2, demoAgent 3 3].map demo.getFitness).sum →
      ∃! j, j < [demoAgent 1 1, demoAgent 2 2, demoAgent 3 3].length ∧
        (j = 0 ∨ cumulativeFitness demo.getFitness
          [demoAgent 1 1, demoAgent 2 2, demoAgent 3 3] j < r) ∧
        r ≤ cumulativeFitness demo.getFitness
          [demoAgent 1 1, demoAgent 2 2, demoAgent 3 3] (j + 1)) :=
  ⟨by simp,
    by norm_num [cumulativeFitness, demo, demoAgent],
    by norm_num [cumulativeFitness, demo, demoAgent],
    by norm_num [cumulativeFitness, demo, demoAgent],
    by norm_num [selectRoulette, rouletteDraws, rouletteWalk, demo, demoAgent, demoRandomFloat,
      demoWorld],
    (selectRoulette_proportionate demo [demoAgent 1 1, demoAgent 2 2, demoAgent 3 3] 4 demoWorld
      (by simp)
      (by
        intro a ha
        simp only [List.mem_cons, List.mem_singleton, List.not_mem_nil, or_false] at ha
        rcases ha with rfl | rfl | rfl <;> norm_num [demo, demoAgent])
      demoRandomFloat_range).2.2.2.1⟩

/-! ## Lemmas: passes over the population -/

theorem stepTimes_succ (evaluate : A → A × Bool) (k : Nat) (a : A) :
    stepTimes evaluate (k + 1) a = (evaluate (stepTimes evaluate k a)).1 := by
  induction k generalizing a with
  | zero => rfl
  | succ n ih =>
    show stepTimes evaluate (n + 1) (evaluate a).1 = _
    rw [ih]
    rfl

theorem stepTimes_add (evaluate : A → A × Bool) (k m : Nat) (a : A) :
    stepTimes evaluate (k + m) a = stepTimes evaluate m (stepTimes evaluate k a) := by
  induction k generalizing a with
  | zero => simp [stepTimes]
  | succ n ih =>
    rw [show n + 1 + m = (n + m) + 1 by omega]
    exact ih (evaluate a).1

theorem reportsFinished_step (evaluate : A → A × Bool) (k : Nat) (a : A) :
    reportsFinished evaluate k (evaluate a).1 = reportsFinished evaluate (k + 1) a := rfl

theorem evaluatePass_eq (evaluate : A → A × Bool) (l : List A) (flag : Bool) :
    evaluatePass evaluate l flag
      = (l.map (fun a => (evaluate a).1), flag && l.all (fun a => (evaluate a).2)) := by
  induction l generalizing flag with
  | nil => simp [evaluatePass]
  | cons a rest ih => simp [evaluatePass, ih, Bool.and_assoc]

theorem map_stepTimes_step (evaluate : A → A × Bool) (k : Nat) (l : List A) :
    (l.map (fun a => (evaluate a).1)).map (stepTimes evaluate k)
      = l.map (stepTimes evaluate (k + 1)) := by
  simp [List.map_map, Function.comp_def, stepTimes]

theorem all_done_true_iff (evaluate : A → A × Bool) (l : List A) :
    l.all (fun a => (evaluate a).2) = true ↔ ∀ a ∈ l, reportsFinished evaluate 0 a = true := by
  simp [reportsFinished, stepTimes]

theorem evaluateSingleThreaded_evaluated (C : Collaborators G A W) (singleStep : Bool)
    (fuel : Nat) (s : Genepool G A) (h : s.isGenerationEvaluated = true) :
    evaluateSingleThreaded C singleStep fuel s = (Outcome.ok, s) := by
  cases fuel <;> simp [evaluateSingleThreaded, h]

theorem evaluateSingleThreaded_singleStep (C : Collaborators G A W) (fuel : Nat)
    (s : Genepool G A) (h : s.isGenerationEvaluated = false) :
    evaluateSingleThreaded C true (fuel + 1) s =
      (Outcome.ok,
        { s with
          agentPopulation := s.agentPopulation.map (fun a => (C.evaluate a).1)
          isGenerationEvaluated := s.agentPopulation.all (fun a => (C.evaluate a).2)
          currentStep := s.currentStep + 1 }) := by
  simp [evaluateSingleThreaded, h, evaluatePass_eq]

/-- The single-threaded loop stops after the first pass in which every agent reports
finished. -/
theorem evaluateSingleThreaded_full (C : Collaborators G A W) (K fuel : Nat) (s : Genepool G A)
    (h : s.isGenerationEvaluated = false)
    (hall : ∀ a ∈ s.agentPopulation, reportsFinished C.evaluate K a = true)
    (hfirst : ∀ k, k < K → ∃ a ∈ s.agentPopulation, reportsFinished C.evaluate k a = false)
    (hfuel : K + 1 ≤ fuel) :
    evaluateSingleThreaded C false fuel s =
      (Outcome.ok,
        { s with
          agentPopulation := s.agentPopulation.map (stepTimes C.evaluate (K + 1))
          isGenerationEvaluated := true
          currentStep := s.currentStep + ((K + 1 : Nat) : Int) }) := by
  induction K generalizing fuel s with
  | zero =>
    obtain ⟨f, rfl⟩ : ∃ f, fuel = f + 1 := ⟨fuel - 1, by omega⟩
    have hflag : s.agentPopulation.all (fun a => (C.evaluate a).2) = true :=
      (all_done_true_iff C.evaluate _).2 hall
    simp only [evaluateSingleThreaded, h, evaluatePass_eq, hflag, Bool.true_and,
      Bool.false_eq_true, if_false]
    rw [evaluateSingleThreaded_evaluated _ _ _ _ rfl]
    simp [stepTimes]
  | succ n ih =>
    obtain ⟨f, rfl⟩ : ∃ f, fuel = f + 1 := ⟨fuel - 1, by omega⟩
    have hflag : s.agentPopulation.all (fun a => (C.evaluate a).2) = false := by
      obtain ⟨a, ha, hfalse⟩ := hfirst 0 (by omega)
      rw [Bool.eq_false_iff]
      intro hcon
      have := (all_done_true_iff C.evaluate _).1 hcon a ha
      rw [hfalse] at this
      exact Bool.false_ne_true this
    simp only [evaluateSingleThreaded, h, evaluatePass_eq, hflag, Bool.true_and,
      Bool.false_eq_true, if_false]
    rw [ih]
    · simp only [map_stepTimes_step]
      congr 2
      push_cast
      ring
    · rfl
    · intro a ha
      obtain ⟨b, hb, rfl⟩ := List.mem_map.1 ha
      exact hall b hb
    · intro k hk
      obtain ⟨b, hb, hfalse⟩ := hfirst (k + 1) (by omega)
      exact ⟨(C.evaluate b).1, List.mem_map.2 ⟨b, hb, rfl⟩, hfalse⟩
    · omega

/-! ## Theorems: single-threaded evaluation -/

theorem evaluateGeneration_single_branch (C : Collaborators G A W) (fuel : Nat)
    (singleStep : Bool) (s : Genepool G A)
    (hinit : s.isGenepoolInitialized = true) (heval : s.isGenerationEvaluated = false)
    (hbranch : ((s.useThreadedStep && singleStep) || (s.useThreadedFullStep && !singleStep))
      = false) :
    evaluateGeneration C fuel singleStep s = evaluateSingleThreaded C singleStep fuel s := by
  unfold evaluateGeneration
  rw [if_neg (by simp [hinit]), if_neg (by simp [heval]), if_neg (by simp [hbranch])]

theorem evaluateGeneration_threaded_branch (C : Collaborators G A W) (fuel : Nat)
    (singleStep : Bool) (s : Genepool G A)
    (hinit : s.isGenepoolInitialized = true) (heval : s.isGenerationEvaluated = false)
    (hbranch : ((s.useThreadedStep && singleStep) || (s.useThreadedFullStep && !singleStep))
      = true)
    (hpos : 0 < partitionThreadCount C.poolSize s.populationSize) :
    evaluateGeneration C fuel singleStep s =
      evaluateThreaded C singleStep (partitionThreadCount C.poolSize s.populationSize).toNat
        (partitionSubsetSize s.populationSize
          (partitionThreadCount C.poolSize s.populationSize)).toNat
        s.populationSize.toNat fuel fuel s := by
  unfold evaluateGeneration
  rw [if_neg (by simp [hinit]), if_neg (by simp [heval]), if_pos hbranch]
  simp only
  have hpos1 : ¬ min (C.poolSize : Int) s.populationSize ≤ 0 := not_le.2 hpos
  rw [if_neg hpos1]
  rfl

/-- C18: on an initialized genepool that is not yet evaluated and is configured
single-threaded, `evaluateGeneration(true)` makes exactly one pass: every agent is replaced
by the agent after one call of its `evaluate()`, in population order, the step counter grows
by exactly 1 and the evaluated flag becomes the conjunction of the results of those calls.
`evaluateGeneration(false)` repeats such passes: if pass number `K + 1` is the first pass in
which every agent reports finished, the call returns (with any fuel of at least `K + 1`
passes) after exactly that pass, with every agent stepped `K + 1` times, the evaluated flag
true and the step counter increased by exactly `K + 1`. -/
theorem evaluateGeneration_single_threaded (C : Collaborators G A W) (s : Genepool G A)
    (hinit : getGenepoolInitialized s = true) (heval : getGenerationEvaluated s = false)
    (hstep : s.useThreadedStep = false) (hfull : s.useThreadedFullStep = false) :
    (∀ fuel : Nat,
      evaluateGeneration C (fuel + 1) true s =
        (Outcome.ok,
          { s with
            agentPopulation := s.agentPopulation.map (fun a => (C.evaluate a).1)
            isGenerationEvaluated := s.agentPopulation.all (fun a => (C.evaluate a).2)
            currentStep := s.currentStep + 1 })) ∧
    (∀ K fuel : Nat,
      (∀ a ∈ s.agentPopulation, reportsFinished C.evaluate K a = true) →
      (∀ k, k < K → ∃ a ∈ s.agentPopulation, reportsFinished C.evaluate k a = false) →
      K + 1 ≤ fuel →
      evaluateGeneration C fuel false s =
        (Outcome.ok,
          { s with
            agentPopulation := s.agentPopulation.map (stepTimes C.evaluate (K + 1))
            isGenerationEvaluated := true
            currentStep := s.currentStep + ((K + 1 : Nat) : Int) })) := by
  have h1 : s.isGenepoolInitialized = true := hinit
  have h2 : s.isGenerationEvaluated = false := heval
  constructor
  · intro fuel
    rw [evaluateGeneration_single_branch C _ _ s h1 h2 (by simp [hstep, hfull])]
    exact evaluateSingleThreaded_singleStep C fuel s h2
  · intro K fuel hall hfirst hfuel
    rw [evaluateGeneration_single_branch C _ _ s h1 h2 (by simp [hstep, hfull])]
    exact evaluateSingleThreaded_full C K fuel s h2 hall hfirst hfuel

theorem evaluateGeneration_single_threaded_witness :
    getGenepoolInitialized (demoPool [demo.createAgentFn 1, demo.createAgentFn 2] false) = true ∧
    getGenerationEvaluated (demoPool [demo.createAgentFn 1, demo.createAgentFn 2] false) = false ∧
    evaluateGeneration demo 5 false (demoPool [demo.createAgentFn 1, demo.createAgentFn 2] false) =
      (Outcome.ok,
        { demoPool [demo.createAgentFn 1, demo.createAgentFn 2] false with
          agentPopulation :=
            [demo.createAgentFn 1, demo.createAgentFn 2].map (stepTimes demo.evaluate (1 + 1))
          isGenerationEvaluated := true
          currentStep := 7 + ((1 + 1 : Nat) : Int) }) :=
  ⟨rfl, rfl,
    (evaluateGeneration_single_threaded demo
      (demoPool [demo.createAgentFn 1, demo.createAgentFn 2] false) rfl rfl rfl rfl).2 1 5
      (by
        intro a ha
        simp only [demoPool, List.mem_cons, List.mem_singleton, List.not_mem_nil, or_false] at ha
        rcases ha with rfl | rfl <;> rfl)
      (by
        intro k hk
        obtain rfl : k = 0 := by omega
        exact ⟨demo.createAgentFn 1, by simp [demoPool], rfl⟩)
      (by decide)⟩

/-! ## Lemmas: one task on its slice -/

theorem evaluateRange_append (evaluate : A → A × Bool) (chunk pre suf : List A) (flag : Bool) :
    evaluateRange evaluate chunk.length pre.length (pre ++ chunk ++ suf) flag
      = some (pre ++ chunk.map (fun a => (evaluate a).1) ++ suf,
          flag && chunk.all (fun a => (evaluate a).2)) := by
  induction chunk generalizing pre flag with
  | nil => simp [evaluateRange]
  | cons a rest ih =>
    have hget : (pre ++ a :: rest ++ suf)[pre.length]? = some a := by
      rw [List.append_assoc, List.getElem?_append_right (le_refl _)]
      simp
    have hset : (pre ++ a :: rest ++ suf).set pre.length (evaluate a).1
        = (pre ++ [(evaluate a).1]) ++ rest ++ suf := by
      simp [List.set_append]
    simp only [List.length_cons, evaluateRange, hget, hset]
    have := ih (pre ++ [(evaluate a).1]) (flag && (evaluate a).2)
    simp only [List.length_append, List.length_singleton] at this
    rw [this]
    simp [Bool.and_assoc]

theorem evaluateSubset_empty (evaluate : A → A × Bool) (singleStep : Bool) (start stop fuel : Nat)
    (pop : List A) (h : stop ≤ start) :
    evaluateSubset evaluate singleStep start stop (fuel + 1) pop = (Outcome.ok, pop, true) := by
  have hzero : stop - start = 0 := by omega
  cases singleStep <;> simp [evaluateSubset, hzero, evaluateRange]

theorem evaluateSubset_sync (evaluate : A → A × Bool) (chunk pre suf : List A) (fuel : Nat) :
    evaluateSubset evaluate true pre.length (pre.length + chunk.length) (fuel + 1)
        (pre ++ chunk ++ suf)
      = (Outcome.ok, pre ++ chunk.map (fun a => (evaluate a).1) ++ suf,
          chunk.all (fun a => (evaluate a).2)) := by
  simp only [evaluateSubset, Nat.add_sub_cancel_left]
  rw [evaluateRange_append]
  simp

/-- One round in which every task makes a single pass: starting at task `i` with the agents
before its slice (`pre`) already stepped, the remaining agents (`rest`) are each stepped
once, provided the tasks left cover them. -/
theorem evaluateRound_sync (C : Collaborators G A W) (subsetSize n taskFuel : Nat)
    (tasks i : Nat) (pre rest : List A) (flag : Bool)
    (hn : n = pre.length + rest.length)
    (hpre : pre.length ≤ i * subsetSize) (hrest : pre.length < i * subsetSize → rest = [])
    (hcover : rest.length ≤ tasks * subsetSize) :
    evaluateRound C true subsetSize n (taskFuel + 1) tasks i (pre ++ rest) flag
      = (Outcome.ok, pre ++ rest.map (fun a => (C.evaluate a).1),
          flag && rest.all (fun a => (C.evaluate a).2)) := by
  induction tasks generalizing i pre rest flag with
  | zero =>
    have : rest = [] := List.length_eq_zero.1 (by omega)
    subst this
    simp [evaluateRound]
  | succ t ih =>
    rcases Nat.lt_or_ge pre.length (i * subsetSize) with hlt | hge
    · have hnil := hrest hlt
      subst hnil
      simp only [evaluateRound]
      rw [evaluateSubset_empty _ _ _ _ _ _ (by simp at hn ⊢; omega)]
      simp only [Bool.and_true]
      exact ih (i + 1) pre [] flag hn (by nlinarith) (fun _ => rfl) (by simp)
    · have heq : pre.length = i * subsetSize := le_antisymm hpre hge
      have hsplit : pre ++ rest = pre ++ rest.take subsetSize ++ rest.drop subsetSize := by
        rw [List.append_assoc, List.take_append_drop]
      have hend : min (i * subsetSize + subsetSize) n
          = pre.length + (rest.take subsetSize).length := by
        rw [List.length_take, hn, heq]
        omega
      simp only [evaluateRound]
      rw [hend, ← heq, hsplit, evaluateSubset_sync]
      simp only
      have hn1 : n = (pre ++ (rest.take subsetSize).map (fun a => (C.evaluate a).1)).length
          + (rest.drop subsetSize).length := by
        simp only [List.length_append, List.length_map, List.length_take, List.length_drop]
        omega
      have := ih (i + 1) (pre ++ (rest.take subsetSize).map (fun a => (C.evaluate a).1))
        (rest.drop subsetSize) (flag && (rest.take subsetSize).all (fun a => (C.evaluate a).2))
        hn1
        (by
          simp only [List.length_append, List.length_map, List.length_take]
          have : min subsetSize rest.length ≤ subsetSize := min_le_left _ _
          nlinarith)
        (by
          intro hshort
          simp only [List.length_append, List.length_map, List.length_take] at hshort
          apply List.drop_eq_nil_of_le
          have : min subsetSize rest.length < subsetSize := by nlinarith
          omega)
        (by
          simp only [List.length_drop]
          have : (t + 1) * subsetSize = t * subsetSize + subsetSize := by ring
          omega)
      rw [this]
      have hmap : rest.map (fun a => (C.evaluate a).1)
          = (rest.take subsetSize).map (fun a => (C.evaluate a).1)
            ++ (rest.drop subsetSize).map (fun a => (C.evaluate a).1) := by
        rw [← List.map_append, List.take_append_drop]
      have hall : rest.all (fun a => (C.evaluate a).2)
          = ((rest.take subsetSize).all (fun a => (C.evaluate a).2)
            && (rest.drop subsetSize).all (fun a => (C.evaluate a).2)) := by
        rw [← List.all_append, List.take_append_drop]
      rw [hmap, hall]
      simp [Bool.and_assoc]

theorem evaluateSubset_onepass (evaluate : A → A × Bool) (taskSingleStep : Bool)
    (chunk pre suf : List A) (fuel : Nat)
    (hdone : ∀ a ∈ chunk, (evaluate a).2 = true) :
    evaluateSubset evaluate taskSingleStep pre.length (pre.length + chunk.length) (fuel + 1)
        (pre ++ chunk ++ suf)
      = (Outcome.ok, pre ++ chunk.map (fun a => (evaluate a).1) ++ suf, true) := by
  have hall : chunk.all (fun a => (evaluate a).2) = true := List.all_eq_true.2 hdone
  simp only [evaluateSubset, Nat.add_sub_cancel_left]
  rw [evaluateRange_append]
  cases taskSingleStep <;> simp [hall]

/-- One round whose tasks all end before the end of the population, on agents that report
finished at their first step: the agents inside the ranges of the tasks are stepped once
and the agents behind the last range are not touched. -/
theorem evaluateRound_onepass (C : Collaborators G A W) (taskSingleStep : Bool)
    (subsetSize n taskFuel : Nat) (tasks i : Nat) (pre rest : List A) (flag : Bool)
    (hn : n = pre.length + rest.length) (hpre : pre.length = i * subsetSize)
    (hfit : tasks * subsetSize ≤ rest.length)
    (hdone : ∀ a ∈ rest.take (tasks * subsetSize), (C.evaluate a).2 = true) :
    evaluateRound C taskSingleStep subsetSize n (taskFuel + 1) tasks i (pre ++ rest) flag
      = (Outcome.ok,
          pre ++ (rest.take (tasks * subsetSize)).map (fun a => (C.evaluate a).1)
            ++ rest.drop (tasks * subsetSize),
          flag) := by
  induction tasks generalizing i pre rest flag with
  | zero => simp [evaluateRound]
  | succ t ih =>
    have hmul : (t + 1) * subsetSize = subsetSize + t * subsetSize := by ring
    rw [hmul] at hfit hdone ⊢
    have hsplit : pre ++ rest = pre ++ rest.take subsetSize ++ rest.drop subsetSize := by
      rw [List.append_assoc, List.take_append_drop]
    have hlen : (rest.take subsetSize).length = subsetSize := by
      rw [List.length_take]
      omega
    have hend : min (i * subsetSize + subsetSize) n
        = pre.length + (rest.take subsetSize).length := by
      rw [hlen, hn, hpre]
      omega
    have hchunk : ∀ a ∈ rest.take subsetSize, (C.evaluate a).2 = true := by
      intro a ha
      apply hdone a
      rw [List.take_add]
      exact List.mem_append_left _ ha
    simp only [evaluateRound]
    rw [hend, ← hpre, hsplit, evaluateSubset_onepass C.evaluate taskSingleStep _ _ _ _ hchunk]
    simp only [Bool.and_true]
    have := ih (i + 1) (pre ++ (rest.take subsetSize).map (fun a => (C.evaluate a).1))
      (rest.drop subsetSize) flag
      (by
        simp only [List.length_append, List.length_map, List.length_drop, hlen]
        omega)
      (by
        simp only [List.length_append, List.length_map, hlen, hpre]
        ring)
      (by
        simp only [List.length_drop]
        omega)
      (by
        intro a ha
        apply hdone a
        rw [List.take_add]
        exact List.mem_append_right _ ha)
    rw [this, List.take_add, List.drop_drop]
    simp [List.append_assoc, Nat.add_comm]

/-- The threaded loop on agents that report finished at their first step, with tasks that
all end before the end of the population: one round, after which the loop stops. -/
theorem evaluateThreaded_onepass (C : Collaborators G A W) (singleStep : Bool)
    (threadCount subsetSize n taskFuel fuel : Nat) (s : Genepool G A)
    (heval : s.isGenerationEvaluated = false) (hn : n = s.agentPopulation.length)
    (hfit : threadCount * subsetSize ≤ n)
    (hdone : ∀ a ∈ s.agentPopulation.take (threadCount * subsetSize), (C.evaluate a).2 = true) :
    evaluateThreaded C singleStep threadCount subsetSize n (taskFuel + 1) (fuel + 1) s =
      (Outcome.ok,
        { s with
          agentPopulation :=
            (s.agentPopulation.take (threadCount * subsetSize)).map (fun a => (C.evaluate a).1)
              ++ s.agentPopulation.drop (threadCount * subsetSize)
          isGenerationEvaluated := true
          currentStep := s.currentStep + 1 }) := by
  have hround := evaluateRound_onepass C (singleStep || s.syncThreadedFullSteps) subsetSize n
    taskFuel threadCount 0 [] s.agentPopulation true (by simp [hn]) (by simp)
    (by rw [← hn]; exact hfit) hdone
  simp only [List.nil_append] at hround
  simp only [evaluateThreaded, heval, Bool.false_eq_true, if_false, hround]
  cases singleStep with
  | true => simp
  | false =>
    simp only [Bool.false_eq_true, if_false]
    cases fuel <;> simp [evaluateThreaded]

/-! ## Lemmas: the float division of line 140 -/

theorem roundTiesEven_intCast (k : Int) : roundTiesEven (k : ℚ) = k := by
  simp [roundTiesEven]

theorem roundTiesEven_le_ceil (x : ℚ) : roundTiesEven x ≤ ⌈x⌉ := by
  unfold roundTiesEven
  have hfl : ⌊x⌋ ≤ ⌈x⌉ := Int.floor_le_ceil x
  have hstep : ∀ (_ : (⌊x⌋ : ℚ) < x), ⌊x⌋ + 1 ≤ ⌈x⌉ := by
    intro h
    have : ⌊x⌋ < ⌈x⌉ := Int.lt_ceil.2 h
    omega
  split_ifs with h1 h2 h3
  · exact hfl
  · apply hstep
    linarith
  · exact hfl
  · apply hstep
    have : x - ⌊x⌋ = 1 / 2 := le_antisymm (not_lt.1 h2) (not_lt.1 h1)
    linarith

theorem sub_half_le_roundTiesEven (x : ℚ) : x - 1 / 2 ≤ (roundTiesEven x : ℚ) := by
  unfold roundTiesEven
  have hlt : x < ⌊x⌋ + 1 := Int.lt_floor_add_one x
  split_ifs with h1 h2 h3
  · linarith
  · push_cast
    linarith
  · have : x - ⌊x⌋ = 1 / 2 := le_antisymm (not_lt.1 h2) (not_lt.1 h1)
    linarith
  · push_cast
    linarith

theorem int_log_two_eq (x : ℚ) (e : Int) (h1 : (2 : ℚ) ^ e ≤ x) (h2 : x < (2 : ℚ) ^ (e + 1)) :
    Int.log 2 x = e := by
  have hpos : 0 < x := lt_of_lt_of_le (by positivity) h1
  have ha : e ≤ Int.log 2 x :=
    (Int.zpow_le_iff_le_log (by norm_num : 1 < 2) hpos).1 (by exact_mod_cast h1)
  have hb : Int.log 2 x < e + 1 :=
    (Int.lt_zpow_iff_log_lt (by norm_num : 1 < 2) hpos).1 (by exact_mod_cast h2)
  omega

theorem toFloat32_of_intCast_quotient (x : ℚ) (k : Int) (hx : x ≠ 0)
    (h : x / (2 : ℚ) ^ (Int.log 2 |x| - 23) = (k : ℚ)) : toFloat32 x = x := by
  unfold toFloat32
  rw [if_neg hx, h, roundTiesEven_intCast, ← h]
  have hpos : (2 : ℚ) ^ (Int.log 2 |x| - 23) ≠ 0 := by positivity
  field_simp

theorem toFloat32_natCast (m : Nat) (h1 : 1 ≤ m) (h2 : m ≤ 2 ^ 24) :
    toFloat32 (m : ℚ) = (m : ℚ) := by
  have hpos : (0 : ℚ) < (m : ℚ) := by exact_mod_cast h1
  have habs : |(m : ℚ)| = (m : ℚ) := abs_of_pos hpos
  have hlog : Int.log 2 (m : ℚ) = (Nat.log 2 m : Int) := Int.log_natCast 2 m
  have hlog_le : Nat.log 2 m ≤ 24 := by
    have : Nat.log 2 m < 25 := Nat.log_lt_of_lt_pow (by omega) (by omega)
    omega
  rcases Nat.lt_or_ge (Nat.log 2 m) 24 with hlt | hge
  · -- the unit in the last place is 2 ^ (-(d)) with d = 23 - log
    obtain ⟨d, hd⟩ : ∃ d : Nat, Nat.log 2 m + d = 23 := ⟨23 - Nat.log 2 m, by omega⟩
    apply toFloat32_of_intCast_quotient _ ((m * 2 ^ d : Nat) : Int) hpos.ne'
    rw [habs, hlog]
    have hexp : ((Nat.log 2 m : Int) - 23) = -(d : Int) := by omega
    rw [hexp, zpow_neg, zpow_natCast]
    push_cast
    field_simp
  · have hlogeq : Nat.log 2 m = 24 := by omega
    have hm : m = 2 ^ 24 := by
      have : 2 ^ 24 ≤ m := by
        have := Nat.pow_log_le_self 2 (by omega : m ≠ 0)
        rwa [hlogeq] at this
      omega
    apply toFloat32_of_intCast_quotient _ ((2 ^ 23 : Nat) : Int) hpos.ne'
    rw [habs, hlog, hlogeq, hm]
    norm_num

theorem ceil_toFloat32_div (n t : Nat) (ht : 1 ≤ t) (htn : t ≤ n) (hn : n ≤ 2 ^ 24) :
    ⌈toFloat32 ((n : ℚ) / (t : ℚ))⌉ = ⌈(n : ℚ) / (t : ℚ)⌉ := by
  have htpos : (0 : ℚ) < (t : ℚ) := by exact_mod_cast ht
  by_cases hdvd : t ∣ n
  · obtain ⟨c, rfl⟩ := hdvd
    have hc1 : 1 ≤ c := by
      rcases Nat.eq_zero_or_pos c with h | h
      · subst h; omega
      · exact h
    have hc2 : c ≤ 2 ^ 24 := by
      calc c = 1 * c := (one_mul c).symm
        _ ≤ t * c := Nat.mul_le_mul_right c ht
        _ ≤ 2 ^ 24 := hn
    have hq : (((t * c : Nat) : ℚ)) / (t : ℚ) = (c : ℚ) := by
      push_cast
      field_simp
    rw [hq, toFloat32_natCast c hc1 hc2]
  · -- the quotient is not an integer
    have ht2 : 2 ≤ t := by
      rcases Nat.lt_or_ge t 2 with h | h
      · exact absurd (by rw [show t = 1 by omega]; exact one_dvd n) hdvd
      · exact h
    set q : ℚ := (n : ℚ) / (t : ℚ) with hqdef
    set m : Nat := n / t with hmdef
    have hmod : 1 ≤ n % t := by
      rcases Nat.eq_zero_or_pos (n % t) with h | h
      · exact absurd (Nat.dvd_of_mod_eq_zero h) hdvd
      · exact h
    have hdecomp : t * m + n % t = n := Nat.div_add_mod n t
    have hqm : q = (m : ℚ) + ((n % t : Nat) : ℚ) / (t : ℚ) := by
      rw [hqdef]
      have : (n : ℚ) = (t : ℚ) * (m : ℚ) + ((n % t : Nat) : ℚ) := by exact_mod_cast hdecomp.symm
      rw [this]
      field_simp
      ring
    have hfrac_lo : 1 / (t : ℚ) ≤ q - (m : ℚ) := by
      rw [hqm]
      have : (1 : ℚ) ≤ ((n % t : Nat) : ℚ) := by exact_mod_cast hmod
      have h2 : 1 / (t : ℚ) ≤ ((n % t : Nat) : ℚ) / (t : ℚ) :=
        div_le_div_of_nonneg_right this htpos.le
      linarith
    have hfrac_hi : q < (m : ℚ) + 1 := by
      rw [hqm]
      have hlt : ((n % t : Nat) : ℚ) < (t : ℚ) := by exact_mod_cast Nat.mod_lt n (by omega)
      have : ((n % t : Nat) : ℚ) / (t : ℚ) < 1 := (div_lt_one htpos).2 hlt
      linarith
    have hm1 : 1 ≤ m := Nat.div_pos htn (by omega)
    have hq1 : (1 : ℚ) ≤ q := by
      have : (1 : ℚ) ≤ (m : ℚ) := by exact_mod_cast hm1
      have h3 : 0 < 1 / (t : ℚ) := by positivity
      linarith
    have hqpos : (0 : ℚ) < q := by linarith
    have hceil : ⌈q⌉ = (m : Int) + 1 := by
      rw [Int.ceil_eq_iff]
      push_cast
      have h3 : 0 < 1 / (t : ℚ) := by positivity
      constructor
      · linarith
      · linarith
    -- the quotient is below 2 ^ 23
    have hm23 : m < 2 ^ 23 := by
      rw [hmdef]
      apply Nat.div_lt_of_lt_mul
      have : 2 * 2 ^ 23 ≤ t * 2 ^ 23 := Nat.mul_le_mul_right _ ht2
      have hne : n ≠ t * 2 ^ 23 := by
        intro h
        exact hdvd ⟨2 ^ 23, h⟩
      omega
    have hq23 : q < (2 : ℚ) ^ (23 : Int) := by
      have : (m : ℚ) + 1 ≤ (2 : ℚ) ^ (23 : Nat) := by exact_mod_cast hm23
      have h2 : (2 : ℚ) ^ (23 : Int) = (2 : ℚ) ^ (23 : Nat) := by norm_num
      rw [h2]
      linarith
    have habs : |q| = q := abs_of_pos hqpos
    have he_lo : (0 : Int) ≤ Int.log 2 q := by
      have := (Int.zpow_le_iff_le_log (b := 2) (by norm_num) (x := 0) hqpos).1 (by simpa using hq1)
      exact this
    have he_hi : Int.log 2 q < 23 :=
      (Int.lt_zpow_iff_log_lt (b := 2) (by norm_num) hqpos).1 hq23
    obtain ⟨e, he⟩ : ∃ e : Nat, Int.log 2 q = (e : Int) := ⟨(Int.log 2 q).toNat, by omega⟩
    obtain ⟨d, hd⟩ : ∃ d : Nat, e + (d + 1) = 23 := ⟨22 - e, by omega⟩
    have hpow_le : (2 : ℚ) ^ e ≤ q := by
      have := Int.zpow_log_le_self (b := 2) (by norm_num) hqpos
      rw [he] at this
      simpa using this
    have hpow_ne : (2 : ℚ) ^ e ≠ q := by
      intro h
      -- a power of two is an integer, the quotient is not
      have h1 : ((2 ^ e : Nat) : ℚ) < (m : ℚ) + 1 := by push_cast; rw [h]; exact hfrac_hi
      have h2 : (m : ℚ) < ((2 ^ e : Nat) : ℚ) := by
        push_cast; rw [h]
        have h3 : 0 < 1 / (t : ℚ) := by positivity
        linarith
      have h1n : 2 ^ e < m + 1 := by exact_mod_cast h1
      have h2n : m < 2 ^ e := by exact_mod_cast h2
      omega
    have hpow_lt : (2 : ℚ) ^ e < q := lt_of_le_of_ne hpow_le hpow_ne
    have hexp : Int.log 2 |q| - 23 = -((d + 1 : Nat) : Int) := by
      rw [habs, he]; omega
    have hD : (0 : ℚ) < (2 : ℚ) ^ (d + 1) := by positivity
    have hfl : toFloat32 q = (roundTiesEven (q * (2 : ℚ) ^ (d + 1)) : ℚ) / (2 : ℚ) ^ (d + 1) := by
      unfold toFloat32
      rw [if_neg hqpos.ne', hexp, zpow_neg, zpow_natCast]
      rw [div_inv_eq_mul, div_eq_mul_inv]
    have hupper : toFloat32 q ≤ (m : ℚ) + 1 := by
      rw [hfl, div_le_iff₀ hD]
      have h1 : roundTiesEven (q * (2 : ℚ) ^ (d + 1)) ≤ ⌈q * (2 : ℚ) ^ (d + 1)⌉ :=
        roundTiesEven_le_ceil _
      have h2 : ⌈q * (2 : ℚ) ^ (d + 1)⌉ ≤ (((m + 1) * 2 ^ (d + 1) : Nat) : Int) := by
        rw [Int.ceil_le]
        push_cast
        exact mul_le_mul_of_nonneg_right hfrac_hi.le hD.le
      have h3 : (roundTiesEven (q * (2 : ℚ) ^ (d + 1)) : ℚ) ≤ ((((m + 1) * 2 ^ (d + 1) : Nat) : Int) : ℚ) := by
        exact_mod_cast le_trans h1 h2
      push_cast at h3
      exact h3
    have hlower : (m : ℚ) < toFloat32 q := by
      rw [hfl, lt_div_iff₀ hD]
      have h1 : q * (2 : ℚ) ^ (d + 1) - 1 / 2 ≤ (roundTiesEven (q * (2 : ℚ) ^ (d + 1)) : ℚ) :=
        sub_half_le_roundTiesEven _
      -- q - m ≥ 1 / t ≥ q / 2 ^ 24 > 2 ^ e / 2 ^ 24 = 1 / 2 ^ (d + 1) / 2
      have hn24 : (n : ℚ) ≤ (2 : ℚ) ^ 24 := by exact_mod_cast hn
      have h2 : q / (2 : ℚ) ^ 24 ≤ 1 / (t : ℚ) := by
        rw [hqdef, div_div, div_le_div_iff₀ (by positivity) htpos]
        nlinarith
      have h3 : (2 : ℚ) ^ e * (2 : ℚ) ^ (d + 1) = (2 : ℚ) ^ 23 := by
        rw [← pow_add, hd]
      have h4 : (2 : ℚ) ^ e / (2 : ℚ) ^ 24 < q / (2 : ℚ) ^ 24 :=
        div_lt_div_of_pos_right hpow_lt (by positivity)
      have h5 : (2 : ℚ) ^ e / (2 : ℚ) ^ 24 * (2 : ℚ) ^ (d + 1) = 1 / 2 := by
        rw [div_mul_eq_mul_div, h3]; norm_num
      have h6 : (2 : ℚ) ^ e / (2 : ℚ) ^ 24 < q - (m : ℚ) := by linarith
      have h7 : (2 : ℚ) ^ e / (2 : ℚ) ^ 24 * (2 : ℚ) ^ (d + 1) < (q - (m : ℚ)) * (2 : ℚ) ^ (d + 1) :=
        mul_lt_mul_of_pos_right h6 hD
      rw [h5] at h7
      nlinarith
    rw [hceil, Int.ceil_eq_iff]
    push_cast
    constructor
    · linarith
    · exact hupper

theorem ceil_float_division_exact (n t : Nat) (ht : 1 ≤ t) (htn : t ≤ n) (hn : n ≤ 2 ^ 24) :
    ⌈toFloat32 (toFloat32 (n : ℚ) / toFloat32 (t : ℚ))⌉ = ⌈(n : ℚ) / (t : ℚ)⌉ := by
  rw [toFloat32_natCast n (by omega) hn, toFloat32_natCast t ht (by omega)]
  exact ceil_toFloat32_div n t ht htn hn

theorem float_division_16777217 :
    ⌈toFloat32 (toFloat32 (16777217 : ℚ) / toFloat32 (2 : ℚ))⌉ = 8388608 := by
  have h1 : toFloat32 (16777217 : ℚ) = 16777216 := by
    unfold toFloat32
    have hlog : Int.log 2 |(16777217 : ℚ)| = 24 := by
      rw [abs_of_pos (by norm_num)]
      exact int_log_two_eq _ 24 (by norm_num) (by norm_num)
    rw [hlog]
    norm_num [roundTiesEven]
  have h2 : toFloat32 (2 : ℚ) = 2 := by
    have := toFloat32_natCast 2 (by norm_num) (by norm_num)
    simpa using this
  have h3 : toFloat32 ((16777216 : ℚ) / 2) = 8388608 := by
    have := toFloat32_natCast 8388608 (by norm_num) (by norm_num)
    norm_num at this ⊢
    exact this
  rw [h1, h2, h3]
  norm_num

/-! ## Theorems: the partition of the population -/

theorem partitionSubsetSize_exact (n t : Nat) (ht : 1 ≤ t) (htn : t ≤ n) (hn : n ≤ 2 ^ 24) :
    partitionSubsetSize (n : Int) (t : Int) = ⌈(n : ℚ) / (t : ℚ)⌉ := by
  unfold partitionSubsetSize
  simp only [Int.cast_natCast]
  exact ceil_float_division_exact n t ht htn hn

/-- Up to `2 ^ 24` agents the float division of line 140 is exact, and the tasks cover the
population. -/
theorem partition_bounds (w n : Nat) (hn : 1 ≤ n) (hw : 1 ≤ w) (hbound : n ≤ 16777216) :
    1 ≤ partitionThreadCount w n ∧
    1 ≤ partitionSubsetSize n (partitionThreadCount w n) ∧
    n ≤ (partitionThreadCount w n).toNat
      * (partitionSubsetSize n (partitionThreadCount w n)).toNat := by
  have htc : partitionThreadCount w n = ((min w n : Nat) : Int) := by
    unfold partitionThreadCount
    push_cast
    rfl
  have ht1 : 1 ≤ min w n := le_min hw hn
  have htn : min w n ≤ n := min_le_right _ _
  rw [htc, partitionSubsetSize_exact n (min w n) ht1 htn (by norm_num; exact hbound),
    Int.toNat_ofNat]
  generalize min w n = t at ht1 htn
  have htq : (0 : ℚ) < (t : ℚ) := by exact_mod_cast ht1
  have hnq : (0 : ℚ) < (n : ℚ) := by exact_mod_cast hn
  have hss : 1 ≤ ⌈(n : ℚ) / (t : ℚ)⌉ := by
    have : 0 < ⌈(n : ℚ) / (t : ℚ)⌉ := Int.ceil_pos.2 (div_pos hnq htq)
    omega
  refine ⟨by exact_mod_cast ht1, hss, ?_⟩
  have hle : (n : ℚ) / (t : ℚ) ≤ ((⌈(n : ℚ) / (t : ℚ)⌉ : Int) : ℚ) := Int.le_ceil _
  have hmul : (n : ℚ) ≤ ((⌈(n : ℚ) / (t : ℚ)⌉ : Int) : ℚ) * (t : ℚ) := (div_le_iff₀ htq).1 hle
  have hint : (n : Int) ≤ ⌈(n : ℚ) / (t : ℚ)⌉ * (t : Int) := by exact_mod_cast hmul
  have h2 : ((⌈(n : ℚ) / (t : ℚ)⌉.toNat : Nat) : Int) = ⌈(n : ℚ) / (t : ℚ)⌉ :=
    Int.toNat_of_nonneg (by omega)
  have : (n : Int) ≤ ((t * ⌈(n : ℚ) / (t : ℚ)⌉.toNat : Nat) : Int) := by
    push_cast
    rw [h2]
    linarith
  exact_mod_cast this

theorem evaluateThreaded_singleStep (C : Collaborators G A W) (threadCount subsetSize n : Nat)
    (taskFuel fuel : Nat) (s : Genepool G A) (h : s.isGenerationEvaluated = false)
    (hn : n = s.agentPopulation.length) (hcover : n ≤ threadCount * subsetSize) :
    evaluateThreaded C true threadCount subsetSize n (taskFuel + 1) (fuel + 1) s =
      (Outcome.ok,
        { s with
          agentPopulation := s.agentPopulation.map (fun a => (C.evaluate a).1)
          isGenerationEvaluated := s.agentPopulation.all (fun a => (C.evaluate a).2)
          currentStep := s.currentStep + 1 }) := by
  have hround := evaluateRound_sync C subsetSize n taskFuel threadCount 0
    [] s.agentPopulation true (by simp [hn]) (by simp) (by simp) (by rw [← hn]; exact hcover)
  simp only [List.nil_append, Bool.true_and] at hround
  simp only [evaluateThreaded, h, Bool.false_eq_true, if_false, Bool.true_or, hround, if_true]

/-- Up to `2 ^ 24 = 16777216` agents the partition covers the population exactly once: for
a population of `1 <= n <= 16777216` agents and a pool of `w >= 1` workers, the thread count
`min(w, n)` and the subset size of line 140 are both at least 1; every index range
`[i * subsetSize, min(i * subsetSize + subsetSize, n))` with `i < threadCount` ends inside
the population; every index `j < n` lies in the range of exactly one task (so the ranges
are pairwise disjoint and their union is `{0, ..., n-1}`); and a round in which each task
makes one pass returns without touching an index outside the vector and leaves every agent
stepped exactly once, so that a threaded single step of `evaluateGeneration` is one pass
over the whole population. -/
theorem partition_covers_population (C : Collaborators G A W) (n : Nat) (hn : 1 ≤ n)
    (hbound : n ≤ 16777216) (hw : 1 ≤ C.poolSize) :
    1 ≤ partitionThreadCount C.poolSize n ∧
    1 ≤ partitionSubsetSize n (partitionThreadCount C.poolSize n) ∧
    (∀ i, i < (partitionThreadCount C.poolSize n).toNat →
      partitionEnd (partitionSubsetSize n (partitionThreadCount C.poolSize n)).toNat n i ≤ n) ∧
    (∀ j, j < n → ∃! i, i < (partitionThreadCount C.poolSize n).toNat ∧
      partitionStart (partitionSubsetSize n (partitionThreadCount C.poolSize n)).toNat i ≤ j ∧
      j < partitionEnd (partitionSubsetSize n (partitionThreadCount C.poolSize n)).toNat n i) ∧
    (∀ (pop : List A) (taskFuel : Nat), pop.length = n →
      evaluateRound C true (partitionSubsetSize n (partitionThreadCount C.poolSize n)).toNat n
          (taskFuel + 1) (partitionThreadCount C.poolSize n).toNat 0 pop true
        = (Outcome.ok, pop.map (fun a => (C.evaluate a).1),
            pop.all (fun a => (C.evaluate a).2))) ∧
    (∀ (s : Genepool G A) (fuel : Nat),
      s.isGenepoolInitialized = true → s.isGenerationEvaluated = false →
      s.useThreadedStep = true → s.populationSize = n → s.agentPopulation.length = n →
      evaluateGeneration C (fuel + 1) true s =
        (Outcome.ok,
          { s with
            agentPopulation := s.agentPopulation.map (fun a => (C.evaluate a).1)
            isGenerationEvaluated := s.agentPopulation.all (fun a => (C.evaluate a).2)
            currentStep := s.currentStep + 1 })) := by
  obtain ⟨ht, hss, hcover⟩ := partition_bounds C.poolSize n hn hw hbound
  have hssn : 1 ≤ (partitionSubsetSize n (partitionThreadCount C.poolSize n)).toNat := by omega
  refine ⟨ht, hss, ?_, ?_, ?_, ?_⟩
  · intro i _
    exact min_le_right _ _
  · intro j hj
    refine ⟨j / (partitionSubsetSize n (partitionThreadCount C.poolSize n)).toNat,
      ⟨?_, ?_, ?_⟩, ?_⟩
    · apply Nat.div_lt_of_lt_mul
      rw [Nat.mul_comm]
      omega
    · exact Nat.div_mul_le_self _ _
    · unfold partitionEnd
      apply lt_min _ hj
      have := Nat.lt_succ_self (j / (partitionSubsetSize n (partitionThreadCount C.poolSize n)).toNat)
      have h2 := (Nat.div_lt_iff_lt_mul (by omega : 0 <
        (partitionSubsetSize n (partitionThreadCount C.poolSize n)).toNat)).1 this
      rw [Nat.succ_mul] at h2
      exact h2
    · rintro i ⟨_, hlo, hhi⟩
      unfold partitionStart at hlo
      unfold partitionEnd at hhi
      have hhi1 := lt_of_lt_of_le hhi (min_le_left _ _)
      symm
      apply Nat.div_eq_of_lt_le hlo
      rw [Nat.succ_mul]
      exact hhi1
  · intro pop taskFuel hlen
    have := evaluateRound_sync C (partitionSubsetSize n (partitionThreadCount C.poolSize n)).toNat
      n taskFuel (partitionThreadCount C.poolSize n).toNat 0 [] pop true (by simp [hlen])
      (by simp) (by simp) (by rw [hlen]; exact hcover)
    simpa using this
  · intro s fuel hinit heval hstep hsize hlen
    rw [evaluateGeneration_threaded_branch C _ _ s hinit heval (by simp [hstep])
      (by rw [hsize]; omega)]
    apply evaluateThreaded_singleStep C _ _ _ fuel fuel s heval
    · rw [hsize, Int.toNat_ofNat, hlen]
    · rw [hsize, Int.toNat_ofNat]
      exact hcover

theorem partition_covers_population_witness :
    1 ≤ 5 ∧ 1 ≤ demo.poolSize ∧
    partitionThreadCount demo.poolSize 5 = 2 ∧
    partitionSubsetSize 5 (partitionThreadCount demo.poolSize 5) = 3 ∧
    (∀ j, j < 5 → ∃! i, i < (partitionThreadCount demo.poolSize (5 : Nat)).toNat ∧
      partitionStart
        (partitionSubsetSize (5 : Nat) (partitionThreadCount demo.poolSize (5 : Nat))).toNat i ≤ j ∧
      j < partitionEnd
        (partitionSubsetSize (5 : Nat) (partitionThreadCount demo.poolSize (5 : Nat))).toNat 5 i) :=
  ⟨by decide, by decide,
    by simp [partitionThreadCount, demo],
    by
      have h : partitionThreadCount demo.poolSize 5 = 2 := by simp [partitionThreadCount, demo]
      rw [h]
      have := partitionSubsetSize_exact 5 2 (by norm_num) (by norm_num) (by norm_num)
      simp only [Nat.cast_ofNat] at this
      rw [this, Int.ceil_eq_iff]
      norm_num,
    (partition_covers_population demo 5 (by decide) (by decide) (by decide)).2.2.2.1⟩

/-! ## Theorems: synchronized threaded evaluation -/

theorem evaluateThreaded_evaluated (C : Collaborators G A W) (singleStep : Bool)
    (threadCount subsetSize n taskFuel fuel : Nat) (s : Genepool G A)
    (h : s.isGenerationEvaluated = true) :
    evaluateThreaded C singleStep threadCount subsetSize n taskFuel fuel s = (Outcome.ok, s) := by
  cases fuel <;> simp [evaluateThreaded, h]

/-- With the step synchronisation on, the threaded loop is the single-threaded loop. -/
theorem evaluateThreaded_sync_eq (C : Collaborators G A W) (singleStep : Bool)
    (threadCount subsetSize n taskFuel fuel : Nat) (s : Genepool G A)
    (hsync : s.syncThreadedFullSteps = true) (hn : n = s.agentPopulation.length)
    (hcover : n ≤ threadCount * subsetSize) :
    evaluateThreaded C singleStep threadCount subsetSize n (taskFuel + 1) fuel s
      = evaluateSingleThreaded C singleStep fuel s := by
  induction fuel generalizing s with
  | zero => simp [evaluateThreaded, evaluateSingleThreaded]
  | succ f ih =>
    by_cases hev : s.isGenerationEvaluated = true
    · rw [evaluateThreaded_evaluated _ _ _ _ _ _ _ _ hev,
        evaluateSingleThreaded_evaluated _ _ _ _ hev]
    · have hround := evaluateRound_sync C subsetSize n taskFuel threadCount 0
        [] s.agentPopulation true (by simp [hn]) (by simp) (by simp) (by rw [← hn]; exact hcover)
      simp only [List.nil_append, Bool.true_and] at hround
      simp only [evaluateThreaded, evaluateSingleThreaded, hev, if_false, hsync, Bool.or_true,
        hround, evaluatePass_eq, Bool.true_and]
      cases singleStep with
      | true => simp
      | false =>
        simp only [Bool.false_eq_true, if_false]
        apply ih
        · rfl
        · simp [hn]

/-- The single-threaded loop only looks at the population, the evaluated flag and the step
counter. -/
theorem evaluateSingleThreaded_congr (C : Collaborators G A W) (singleStep : Bool) (fuel : Nat)
    (s1 s2 : Genepool G A) (hpop : s1.agentPopulation = s2.agentPopulation)
    (hev : s1.isGenerationEvaluated = s2.isGenerationEvaluated)
    (hstep : s1.currentStep = s2.currentStep) :
    (evaluateSingleThreaded C singleStep fuel s1).1 = (evaluateSingleThreaded C singleStep fuel s2).1 ∧
    (evaluateSingleThreaded C singleStep fuel s1).2.agentPopulation
      = (evaluateSingleThreaded C singleStep fuel s2).2.agentPopulation ∧
    (evaluateSingleThreaded C singleStep fuel s1).2.isGenerationEvaluated
      = (evaluateSingleThreaded C singleStep fuel s2).2.isGenerationEvaluated ∧
    (evaluateSingleThreaded C singleStep fuel s1).2.currentStep
      = (evaluateSingleThreaded C singleStep fuel s2).2.currentStep := by
  induction fuel generalizing s1 s2 with
  | zero =>
    by_cases h : s1.isGenerationEvaluated = true
    · rw [evaluateSingleThreaded_evaluated _ _ _ _ h,
        evaluateSingleThreaded_evaluated _ _ _ _ (hev ▸ h)]
      exact ⟨rfl, hpop, hev, hstep⟩
    · have hf1 : s1.isGenerationEvaluated = false := by simpa using h
      have hf2 : s2.isGenerationEvaluated = false := hev ▸ hf1
      simp [evaluateSingleThreaded, hf1, hf2, hpop, hstep]
  | succ f ih =>
    by_cases h : s1.isGenerationEvaluated = true
    · rw [evaluateSingleThreaded_evaluated _ _ _ _ h,
        evaluateSingleThreaded_evaluated _ _ _ _ (hev ▸ h)]
      exact ⟨rfl, hpop, hev, hstep⟩
    · have hf1 : s1.isGenerationEvaluated = false := by simpa using h
      have hf2 : s2.isGenerationEvaluated = false := hev ▸ hf1
      cases singleStep with
      | true =>
        simp [evaluateSingleThreaded, hf1, hf2, hpop, hstep]
      | false =>
        simp only [evaluateSingleThreaded, hf1, hf2, Bool.false_eq_true, if_false]
        exact ih _ _ (by rw [hpop]) (by rw [hpop]) (by rw [hstep])

/-- Up to `2 ^ 24 = 16777216` agents the synchronized threaded evaluation is the
single-threaded one: let a genepool be initialized, not yet evaluated, with between 1 and
16777216 agents and a pool of at least one worker. In the configuration threaded-full-step
with sync, every round makes each task perform one pass over its slice and so steps every
agent exactly once; and for every fuel the full evaluation in that configuration ends the
same way as the single-threaded full evaluation, with the same agents (each stepped the
same number of times), the same step counter and the same evaluated flag. -/
theorem evaluateGeneration_sync_equivalent (C : Collaborators G A W) (s : Genepool G A)
    (fuel : Nat)
    (hinit : getGenepoolInitialized s = true) (heval : getGenerationEvaluated s = false)
    (hwf : s.WellFormed) (hsize : 1 ≤ s.populationSize) (hbound : s.populationSize ≤ 16777216)
    (hpool : 1 ≤ C.poolSize) :
    (configThreading false true true s).1 = Outcome.ok ∧
    (configThreading false false false s).1 = Outcome.ok ∧
    (∀ (pop : List A) (taskFuel : Nat), (pop.length : Int) = s.populationSize →
      evaluateRound C (false || (configThreading false true true s).2.syncThreadedFullSteps)
          (partitionSubsetSize s.populationSize
            (partitionThreadCount C.poolSize s.populationSize)).toNat
          s.populationSize.toNat (taskFuel + 1)
          (partitionThreadCount C.poolSize s.populationSize).toNat 0 pop true
        = (Outcome.ok, pop.map (fun a => (C.evaluate a).1),
            pop.all (fun a => (C.evaluate a).2))) ∧
    (evaluateGeneration C fuel false (configThreading false true true s).2).1
      = (evaluateGeneration C fuel false (configThreading false false false s).2).1 ∧
    (evaluateGeneration C fuel false (configThreading false true true s).2).2.agentPopulation
      = (evaluateGeneration C fuel false (configThreading false false false s).2).2.agentPopulation ∧
    (evaluateGeneration C fuel false (configThreading false true true s).2).2.currentStep
      = (evaluateGeneration C fuel false (configThreading false false false s).2).2.currentStep ∧
    getGenerationEvaluated (evaluateGeneration C fuel false (configThreading false true true s).2).2
      = getGenerationEvaluated
          (evaluateGeneration C fuel false (configThreading false false false s).2).2 := by
  have h1 : s.isGenepoolInitialized = true := hinit
  have h2 : s.isGenerationEvaluated = false := heval
  obtain ⟨n, hn⟩ : ∃ n : Nat, s.populationSize = (n : Int) :=
    ⟨s.populationSize.toNat, (Int.toNat_of_nonneg (by omega)).symm⟩
  have hlen : s.agentPopulation.length = n := by
    have : (s.agentPopulation.length : Int) = (n : Int) := hwf.trans hn
    exact_mod_cast this
  have hn1 : 1 ≤ n := by omega
  obtain ⟨ht, hss, hcover⟩ := partition_bounds C.poolSize n hn1 hpool (by omega)
  refine ⟨rfl, rfl, ?_, ?_⟩
  · intro pop taskFuel hpop
    have hpoplen : pop.length = n := by
      have : (pop.length : Int) = (n : Int) := hpop.trans hn
      exact_mod_cast this
    have := evaluateRound_sync C
      (partitionSubsetSize s.populationSize
        (partitionThreadCount C.poolSize s.populationSize)).toNat
      s.populationSize.toNat taskFuel
      (partitionThreadCount C.poolSize s.populationSize).toNat 0 [] pop true
      (by rw [hn]; simp [hpoplen]) (by simp) (by simp)
      (by rw [hn, hpoplen]; exact hcover)
    simpa [configThreading] using this
  · have hT : evaluateGeneration C fuel false (configThreading false true true s).2
        = evaluateSingleThreaded C false fuel (configThreading false true true s).2 := by
      rw [evaluateGeneration_threaded_branch C fuel false (configThreading false true true s).2
        h1 h2 rfl
        (by
          show 0 < partitionThreadCount C.poolSize s.populationSize
          rw [hn]
          omega)]
      cases fuel with
      | zero => simp [evaluateThreaded, evaluateSingleThreaded]
      | succ f =>
        apply evaluateThreaded_sync_eq
        · rfl
        · show s.populationSize.toNat = s.agentPopulation.length
          rw [hn, Int.toNat_ofNat, hlen]
        · show s.populationSize.toNat ≤
            (partitionThreadCount C.poolSize s.populationSize).toNat
              * (partitionSubsetSize s.populationSize
                  (partitionThreadCount C.poolSize s.populationSize)).toNat
          rw [hn, Int.toNat_ofNat]
          exact hcover
    have hS : evaluateGeneration C fuel false (configThreading false false false s).2
        = evaluateSingleThreaded C false fuel (configThreading false false false s).2 :=
      evaluateGeneration_single_branch C fuel false (configThreading false false false s).2
        h1 h2 rfl
    rw [hT, hS]
    obtain ⟨e1, e2, e3, e4⟩ := evaluateSingleThreaded_congr C false fuel
      (configThreading false true true s).2 (configThreading false false false s).2 rfl rfl rfl
    exact ⟨e1, e2, e4, e3⟩

theorem evaluateGeneration_sync_equivalent_witness :
    getGenepoolInitialized (demoPool [demo.createAgentFn 1, demo.createAgentFn 2,
      demoAgent 3 3] false) = true ∧
    1 ≤ demo.poolSize ∧
    (evaluateGeneration demo 4 false (configThreading false true true
        (demoPool [demo.createAgentFn 1, demo.createAgentFn 2, demoAgent 3 3] false)).2).2.currentStep
      = (evaluateGeneration demo 4 false (configThreading false false false
        (demoPool [demo.createAgentFn 1, demo.createAgentFn 2, demoAgent 3 3] false)).2).2.currentStep :=
  ⟨rfl, by decide,
    (evaluateGeneration_sync_equivalent demo
      (demoPool [demo.createAgentFn 1, demo.createAgentFn 2, demoAgent 3 3] false) 4
      rfl rfl rfl (by decide) (by decide) (by decide)).2.2.2.2.2.1⟩

/-! ## Lemmas: tasks that run their slice to completion -/

theorem all_reportsFinished_step (evaluate : A → A × Bool) (K : Nat) (chunk : List A) :
    (∀ a ∈ chunk.map (fun a => (evaluate a).1), reportsFinished evaluate K a = true) ↔
      ∀ a ∈ chunk, reportsFinished evaluate (K + 1) a = true := by
  constructor
  · intro h a ha
    exact h _ (List.mem_map.2 ⟨a, ha, rfl⟩)
  · intro h b hb
    obtain ⟨a, ha, rfl⟩ := List.mem_map.1 hb
    exact h a ha

/-- A task without step synchronisation that returns has stepped every agent of its slice
the same number of times, the last of these passes being one in which every agent of the
slice reported finished; it returns true. -/
theorem evaluateSubset_full_sound (evaluate : A → A × Bool) (pre suf : List A) (start stop : Nat)
    (fuel : Nat) (chunk : List A) (pop1 : List A) (result : Bool)
    (hstart : start = pre.length) (hstop : stop = pre.length + chunk.length)
    (h : evaluateSubset evaluate false start stop fuel (pre ++ chunk ++ suf)
      = (Outcome.ok, pop1, result)) :
    ∃ K, pop1 = pre ++ chunk.map (stepTimes evaluate (K + 1)) ++ suf ∧
      (∀ a ∈ chunk, reportsFinished evaluate K a = true) ∧ result = true := by
  induction fuel generalizing chunk with
  | zero => simp [evaluateSubset] at h
  | succ f ih =>
    have hcount : stop - start = chunk.length := by omega
    simp only [evaluateSubset, hcount] at h
    rw [hstart, evaluateRange_append] at h
    simp only [Bool.true_and, Bool.false_eq_true, if_false] at h
    by_cases hflag : chunk.all (fun a => (evaluate a).2) = true
    · simp only [hflag, if_true, Prod.mk.injEq, true_and] at h
      refine ⟨0, ?_, (all_done_true_iff evaluate chunk).1 hflag, h.2.symm⟩
      rw [← h.1]
      simp [stepTimes]
    · simp only [hflag, if_false] at h
      rw [← hstart] at h
      obtain ⟨K, hpop, hall, hres⟩ := ih (chunk.map (fun a => (evaluate a).1))
        (by simp [hstop]) h
      refine ⟨K + 1, ?_, (all_reportsFinished_step evaluate K chunk).1 hall, hres⟩
      rw [hpop, map_stepTimes_step]

/-- A task without step synchronisation returns when the fuel allows as many passes as some
pass number at which every agent of its slice reports finished. -/
theorem evaluateSubset_full_returns (evaluate : A → A × Bool) (pre suf : List A)
    (start stop : Nat) (K0 fuel : Nat) (chunk : List A)
    (hstart : start = pre.length) (hstop : stop = pre.length + chunk.length)
    (hall : ∀ a ∈ chunk, reportsFinished evaluate K0 a = true) (hfuel : K0 + 1 ≤ fuel) :
    (evaluateSubset evaluate false start stop fuel (pre ++ chunk ++ suf)).1 = Outcome.ok := by
  induction K0 generalizing chunk fuel with
  | zero =>
    obtain ⟨f, rfl⟩ : ∃ f, fuel = f + 1 := ⟨fuel - 1, by omega⟩
    have hcount : stop - start = chunk.length := by omega
    have hflag : chunk.all (fun a => (evaluate a).2) = true :=
      (all_done_true_iff evaluate chunk).2 hall
    simp only [evaluateSubset, hcount]
    rw [hstart, evaluateRange_append]
    simp [hflag]
  | succ n ih =>
    obtain ⟨f, rfl⟩ : ∃ f, fuel = f + 1 := ⟨fuel - 1, by omega⟩
    have hcount : stop - start = chunk.length := by omega
    simp only [evaluateSubset, hcount]
    rw [hstart, evaluateRange_append]
    simp only [Bool.true_and, Bool.false_eq_true, if_false]
    by_cases hflag : chunk.all (fun a => (evaluate a).2) = true
    · simp [hflag]
    · simp only [hflag, if_false]
      rw [← hstart]
      exact ih f (chunk.map (fun a => (evaluate a).1)) (by simp [hstop])
        ((all_reportsFinished_step evaluate n chunk).2 hall) (by omega)

theorem forall₂_finishedRun_map (evaluate : A → A × Bool) (K : Nat) (chunk : List A)
    (hall : ∀ a ∈ chunk, reportsFinished evaluate K a = true) :
    List.Forall₂ (FinishedRun evaluate) chunk (chunk.map (stepTimes evaluate (K + 1))) := by
  induction chunk with
  | nil => exact List.Forall₂.nil
  | cons a rest ih =>
    refine List.Forall₂.cons ⟨K, hall a (List.mem_cons_self _ _), rfl⟩ (ih ?_)
    intro b hb
    exact hall b (List.mem_cons_of_mem _ hb)

/-- A round without step synchronisation that returns has run every remaining agent through
a finished run, and every task returned true. -/
theorem evaluateRound_full_sound (C : Collaborators G A W) (subsetSize n taskFuel : Nat)
    (tasks i : Nat) (pre rest : List A) (flag : Bool) (pop1 : List A) (result : Bool)
    (hn : n = pre.length + rest.length)
    (hpre : pre.length ≤ i * subsetSize) (hrest : pre.length < i * subsetSize → rest = [])
    (hcover : rest.length ≤ tasks * subsetSize)
    (h : evaluateRound C false subsetSize n (taskFuel + 1) tasks i (pre ++ rest) flag
      = (Outcome.ok, pop1, result)) :
    ∃ rest1, pop1 = pre ++ rest1 ∧ List.Forall₂ (FinishedRun C.evaluate) rest rest1 ∧
      result = flag := by
  induction tasks generalizing i pre rest flag with
  | zero =>
    have : rest = [] := List.length_eq_zero.1 (by omega)
    subst this
    simp only [evaluateRound, Prod.mk.injEq, true_and] at h
    exact ⟨[], h.1.symm, List.Forall₂.nil, h.2.symm⟩
  | succ t ih =>
    rcases Nat.lt_or_ge pre.length (i * subsetSize) with hlt | hge
    · have hnil := hrest hlt
      subst hnil
      simp only [evaluateRound] at h
      rw [evaluateSubset_empty _ _ _ _ _ _ (by simp at hn ⊢; omega)] at h
      simp only [Bool.and_true] at h
      exact ih (i + 1) pre [] flag hn (by nlinarith) (fun _ => rfl) (by simp) h
    · have heq : pre.length = i * subsetSize := le_antisymm hpre hge
      have hsplit : pre ++ rest = pre ++ rest.take subsetSize ++ rest.drop subsetSize := by
        rw [List.append_assoc, List.take_append_drop]
      have hend : min (i * subsetSize + subsetSize) n
          = pre.length + (rest.take subsetSize).length := by
        rw [List.length_take, hn, heq]
        omega
      simp only [evaluateRound] at h
      rw [hend, hsplit] at h
      rcases hsub : evaluateSubset C.evaluate false (i * subsetSize)
          (pre.length + (rest.take subsetSize).length) (taskFuel + 1)
          (pre ++ rest.take subsetSize ++ rest.drop subsetSize) with ⟨o, pop2, r⟩
      rw [hsub] at h
      cases o with
      | ok =>
        obtain ⟨K, hpop2, hall, hr⟩ := evaluateSubset_full_sound C.evaluate pre
          (rest.drop subsetSize) (i * subsetSize) _ (taskFuel + 1) (rest.take subsetSize) pop2 r
          heq.symm rfl hsub
        subst hpop2
        simp only at h
        have hn1 : n = (pre ++ (rest.take subsetSize).map (stepTimes C.evaluate (K + 1))).length
            + (rest.drop subsetSize).length := by
          simp only [List.length_append, List.length_map, List.length_take, List.length_drop]
          omega
        obtain ⟨rest1, hpop1, hforall, hres⟩ := ih (i + 1)
          (pre ++ (rest.take subsetSize).map (stepTimes C.evaluate (K + 1)))
          (rest.drop subsetSize) (flag && r) hn1
          (by
            simp only [List.length_append, List.length_map, List.length_take]
            have : min subsetSize rest.length ≤ subsetSize := min_le_left _ _
            nlinarith)
          (by
            intro hshort
            simp only [List.length_append, List.length_map, List.length_take] at hshort
            apply List.drop_eq_nil_of_le
            have : min subsetSize rest.length < subsetSize := by nlinarith
            omega)
          (by
            simp only [List.length_drop]
            have : (t + 1) * subsetSize = t * subsetSize + subsetSize := by ring
            omega)
          h
        refine ⟨(rest.take subsetSize).map (stepTimes C.evaluate (K + 1)) ++ rest1, ?_, ?_, ?_⟩
        · rw [hpop1, List.append_assoc]
        · have := List.rel_append (forall₂_finishedRun_map C.evaluate K _ hall) hforall
          simp only [List.take_append_drop] at this
          exact this
        · rw [hres, hr, Bool.and_true]
      | threw e => simp at h
      | fault => simp at h
      | outOfFuel => simp at h

/-- A round without step synchronisation returns when the task fuel allows as many passes as
some pass number at which every remaining agent reports finished. -/
theorem evaluateRound_full_returns (C : Collaborators G A W) (subsetSize n K0 taskFuel : Nat)
    (tasks i : Nat) (pre rest : List A) (flag : Bool)
    (hn : n = pre.length + rest.length)
    (hpre : pre.length ≤ i * subsetSize) (hrest : pre.length < i * subsetSize → rest = [])
    (hall : ∀ a ∈ rest, reportsFinished C.evaluate K0 a = true) (hfuel : K0 + 1 ≤ taskFuel) :
    (evaluateRound C false subsetSize n taskFuel tasks i (pre ++ rest) flag).1 = Outcome.ok := by
  obtain ⟨tf, rfl⟩ : ∃ tf, taskFuel = tf + 1 := ⟨taskFuel - 1, by omega⟩
  induction tasks generalizing i pre rest flag with
  | zero => simp [evaluateRound]
  | succ t ih =>
    rcases Nat.lt_or_ge pre.length (i * subsetSize) with hlt | hge
    · have hnil := hrest hlt
      subst hnil
      simp only [evaluateRound]
      rw [evaluateSubset_empty _ _ _ _ _ _ (by simp at hn ⊢; omega)]
      simp only [Bool.and_true]
      exact ih (i + 1) pre [] flag hn (by nlinarith) (fun _ => rfl) hall
    · have heq : pre.length = i * subsetSize := le_antisymm hpre hge
      have hsplit : pre ++ rest = pre ++ rest.take subsetSize ++ rest.drop subsetSize := by
        rw [List.append_assoc, List.take_append_drop]
      have hend : min (i * subsetSize + subsetSize) n
          = pre.length + (rest.take subsetSize).length := by
        rw [List.length_take, hn, heq]
        omega
      have hok := evaluateSubset_full_returns C.evaluate pre (rest.drop subsetSize)
        (i * subsetSize) (pre.length + (rest.take subsetSize).length) K0 (tf + 1)
        (rest.take subsetSize) heq.symm rfl
        (fun a ha => hall a (List.mem_of_mem_take ha)) hfuel
      simp only [evaluateRound]
      rw [hend, hsplit]
      rcases hsub : evaluateSubset C.evaluate false (i * subsetSize)
          (pre.length + (rest.take subsetSize).length) (tf + 1)
          (pre ++ rest.take subsetSize ++ rest.drop subsetSize) with ⟨o, pop2, r⟩
      rw [hsub] at hok
      simp only at hok
      subst hok
      obtain ⟨K, hpop2, _, _⟩ := evaluateSubset_full_sound C.evaluate pre
        (rest.drop subsetSize) (i * subsetSize) _ (tf + 1) (rest.take subsetSize) pop2 r
        heq.symm rfl hsub
      subst hpop2
      simp only
      have hn1 : n = (pre ++ (rest.take subsetSize).map (stepTimes C.evaluate (K + 1))).length
          + (rest.drop subsetSize).length := by
        simp only [List.length_append, List.length_map, List.length_take, List.length_drop]
        omega
      exact ih (i + 1) (pre ++ (rest.take subsetSize).map (stepTimes C.evaluate (K + 1)))
        (rest.drop subsetSize) (flag && r) hn1
        (by
          simp only [List.length_append, List.length_map, List.length_take]
          have : min subsetSize rest.length ≤ subsetSize := min_le_left _ _
          nlinarith)
        (by
          intro hshort
          simp only [List.length_append, List.length_map, List.length_take] at hshort
          apply List.drop_eq_nil_of_le
          have : min subsetSize rest.length < subsetSize := by nlinarith
          omega)
        (fun a ha => hall a (List.mem_of_mem_drop ha))

/-! ## Lemmas: full evaluations that return -/

/-- A full threaded evaluation without step synchronisation that returns has made one round,
in which every agent went through a finished run. -/
theorem evaluateThreaded_full_sound (C : Collaborators G A W) (threadCount subsetSize n : Nat)
    (taskFuel fuel : Nat) (s s1 : Genepool G A)
    (heval : s.isGenerationEvaluated = false) (hsync : s.syncThreadedFullSteps = false)
    (hn : n = s.agentPopulation.length) (hcover : n ≤ threadCount * subsetSize)
    (h : evaluateThreaded C false threadCount subsetSize n (taskFuel + 1) fuel s
      = (Outcome.ok, s1)) :
    List.Forall₂ (FinishedRun C.evaluate) s.agentPopulation s1.agentPopulation ∧
    s1.isGenerationEvaluated = true ∧ s1.currentStep = s.currentStep + 1 := by
  cases fuel with
  | zero => simp [evaluateThreaded, heval] at h
  | succ f =>
    simp only [evaluateThreaded, heval, Bool.false_eq_true, if_false, hsync, Bool.or_false] at h
    rcases hround : evaluateRound C false subsetSize n (taskFuel + 1) threadCount 0
        s.agentPopulation true with ⟨o, pop1, r⟩
    rw [hround] at h
    cases o with
    | ok =>
      obtain ⟨rest1, hpop1, hforall, hr⟩ := evaluateRound_full_sound C subsetSize n taskFuel
        threadCount 0 [] s.agentPopulation true pop1 r (by simp [hn]) (by simp) (by simp)
        (by rw [← hn]; exact hcover) (by simpa using hround)
      subst hr
      simp only at h
      rw [evaluateThreaded_evaluated _ _ _ _ _ _ _ _ rfl] at h
      simp only [Prod.mk.injEq, true_and] at h
      subst h
      simp only [List.nil_append] at hpop1
      subst hpop1
      exact ⟨hforall, rfl, rfl⟩
    | threw e => simp at h
    | fault => simp at h
    | outOfFuel => simp at h

/-- A full threaded evaluation without step synchronisation returns when the fuel allows as
many passes as some pass number at which every agent reports finished. -/
theorem evaluateThreaded_full_returns (C : Collaborators G A W) (threadCount subsetSize n : Nat)
    (K0 taskFuel fuel : Nat) (s : Genepool G A)
    (heval : s.isGenerationEvaluated = false) (hsync : s.syncThreadedFullSteps = false)
    (hn : n = s.agentPopulation.length) (hcover : n ≤ threadCount * subsetSize)
    (hall : ∀ a ∈ s.agentPopulation, reportsFinished C.evaluate K0 a = true)
    (htask : K0 + 1 ≤ taskFuel) (hfuel : 1 ≤ fuel) :
    (evaluateThreaded C false threadCount subsetSize n taskFuel fuel s).1 = Outcome.ok := by
  obtain ⟨f, rfl⟩ : ∃ f, fuel = f + 1 := ⟨fuel - 1, by omega⟩
  obtain ⟨tf, rfl⟩ : ∃ tf, taskFuel = tf + 1 := ⟨taskFuel - 1, by omega⟩
  have hok := evaluateRound_full_returns C subsetSize n K0 (tf + 1) threadCount 0 []
    s.agentPopulation true (by simp [hn]) (by simp) (by simp) hall htask
  simp only [List.nil_append] at hok
  simp only [evaluateThreaded, heval, Bool.false_eq_true, if_false, hsync, Bool.or_false]
  rcases hround : evaluateRound C false subsetSize n (tf + 1) threadCount 0
      s.agentPopulation true with ⟨o, pop1, r⟩
  rw [hround] at hok
  simp only at hok
  subst hok
  obtain ⟨rest1, hpop1, hforall, hr⟩ := evaluateRound_full_sound C subsetSize n tf
    threadCount 0 [] s.agentPopulation true pop1 r (by simp [hn]) (by simp) (by simp)
    (by rw [← hn]; exact hcover) (by simpa using hround)
  subst hr
  simp only
  rw [evaluateThreaded_evaluated _ _ _ _ _ _ _ _ rfl]

/-- A full single-threaded evaluation that returns has stepped every agent the same number
of times, the last pass being one in which every agent reported finished. -/
theorem evaluateSingleThreaded_full_sound (C : Collaborators G A W) (fuel : Nat)
    (s s1 : Genepool G A) (heval : s.isGenerationEvaluated = false)
    (h : evaluateSingleThreaded C false fuel s = (Outcome.ok, s1)) :
    ∃ K, s1.agentPopulation = s.agentPopulation.map (stepTimes C.evaluate (K + 1)) ∧
      (∀ a ∈ s.agentPopulation, reportsFinished C.evaluate K a = true) ∧
      s1.isGenerationEvaluated = true ∧
      s1.currentStep = s.currentStep + ((K + 1 : Nat) : Int) := by
  induction fuel generalizing s with
  | zero => simp [evaluateSingleThreaded, heval] at h
  | succ f ih =>
    simp only [evaluateSingleThreaded, heval, Bool.false_eq_true, if_false, evaluatePass_eq,
      Bool.true_and] at h
    by_cases hflag : s.agentPopulation.all (fun a => (C.evaluate a).2) = true
    · rw [evaluateSingleThreaded_evaluated _ _ _ _ hflag] at h
      simp only [Prod.mk.injEq, true_and] at h
      subst h
      refine ⟨0, ?_, (all_done_true_iff C.evaluate _).1 hflag, hflag, ?_⟩
      · simp [stepTimes]
      · simp
    · have hfalse : s.agentPopulation.all (fun a => (C.evaluate a).2) = false := by
        simpa using hflag
      obtain ⟨K, hpop, hall, hev, hstep⟩ := ih _ hfalse h
      refine ⟨K + 1, ?_, ?_, hev, ?_⟩
      · rw [hpop]
        exact map_stepTimes_step C.evaluate (K + 1) s.agentPopulation
      · exact (all_reportsFinished_step C.evaluate K _).1 hall
      · rw [hstep]
        push_cast
        ring

/-- A full single-threaded evaluation returns when the fuel allows as many passes as some
pass number at which every agent reports finished. -/
theorem evaluateSingleThreaded_full_returns (C : Collaborators G A W) (K0 fuel : Nat)
    (s : Genepool G A)
    (hall : ∀ a ∈ s.agentPopulation, reportsFinished C.evaluate K0 a = true)
    (hfuel : K0 + 1 ≤ fuel) :
    (evaluateSingleThreaded C false fuel s).1 = Outcome.ok := by
  induction K0 generalizing fuel s with
  | zero =>
    obtain ⟨f, rfl⟩ : ∃ f, fuel = f + 1 := ⟨fuel - 1, by omega⟩
    by_cases hev : s.isGenerationEvaluated = true
    · rw [evaluateSingleThreaded_evaluated _ _ _ _ hev]
    · have hflag : s.agentPopulation.all (fun a => (C.evaluate a).2) = true :=
        (all_done_true_iff C.evaluate _).2 hall
      simp only [evaluateSingleThreaded, hev, if_false, evaluatePass_eq, Bool.true_and,
        Bool.false_eq_true]
      rw [evaluateSingleThreaded_evaluated _ _ _ _ hflag]
  | succ n ih =>
    obtain ⟨f, rfl⟩ : ∃ f, fuel = f + 1 := ⟨fuel - 1, by omega⟩
    by_cases hev : s.isGenerationEvaluated = true
    · rw [evaluateSingleThreaded_evaluated _ _ _ _ hev]
    · simp only [evaluateSingleThreaded, hev, if_false, evaluatePass_eq, Bool.true_and,
        Bool.false_eq_true]
      apply ih
      · exact (all_reportsFinished_step C.evaluate n _).2 hall
      · omega

/-! ## Lemmas: sticky agents -/

theorem sticky_persists (C : Collaborators G A W) (pop : List A) (hsticky : stickyAgents C pop)
    (a : A) (ha : a ∈ pop) (k : Nat) (hk : reportsFinished C.evaluate k a = true) (m : Nat) :
    reportsFinished C.evaluate (k + m) a = true ∧
    C.getFinished (stepTimes C.evaluate (k + 1 + m) a)
      = C.getFinished (stepTimes C.evaluate (k + 1) a) ∧
    C.getFitness (stepTimes C.evaluate (k + 1 + m) a)
      = C.getFitness (stepTimes C.evaluate (k + 1) a) := by
  induction m with
  | zero => exact ⟨hk, rfl, rfl⟩
  | succ j ih =>
    obtain ⟨h1, h2, h3⟩ := ih
    obtain ⟨g1, g2, g3⟩ := hsticky a ha (k + j) h1
    refine ⟨g1, ?_, ?_⟩
    · rw [show k + 1 + (j + 1) = k + j + 2 by omega, g2,
        show k + j + 1 = k + 1 + j by omega, h2]
    · rw [show k + 1 + (j + 1) = k + j + 2 by omega, g3,
        show k + j + 1 = k + 1 + j by omega, h3]

/-- Two finished runs of a sticky agent end with the same finished flag and fitness. -/
theorem finishedRun_sameResult (C : Collaborators G A W) (pop : List A)
    (hsticky : stickyAgents C pop) (a : A) (ha : a ∈ pop) (b1 b2 : A)
    (h1 : FinishedRun C.evaluate a b1) (h2 : FinishedRun C.evaluate a b2) :
    sameResult C b1 b2 := by
  obtain ⟨K1, hK1, rfl⟩ := h1
  obtain ⟨K2, hK2, rfl⟩ := h2
  unfold sameResult
  rcases Nat.le_total K1 K2 with hle | hle
  · obtain ⟨_, e1, e2⟩ := sticky_persists C pop hsticky a ha K1 hK1 (K2 - K1)
    rw [show K1 + 1 + (K2 - K1) = K2 + 1 by omega] at e1 e2
    exact ⟨e1.symm, e2.symm⟩
  · obtain ⟨_, e1, e2⟩ := sticky_persists C pop hsticky a ha K2 hK2 (K1 - K2)
    rw [show K2 + 1 + (K1 - K2) = K1 + 1 by omega] at e1 e2
    exact ⟨e1, e2⟩

theorem forall₂_sameResult (C : Collaborators G A W) (pop : List A)
    (hsticky : stickyAgents C pop) (l l1 l2 : List A) (hsub : ∀ a ∈ l, a ∈ pop)
    (h1 : List.Forall₂ (FinishedRun C.evaluate) l l1)
    (h2 : List.Forall₂ (FinishedRun C.evaluate) l l2) :
    List.Forall₂ (sameResult C) l1 l2 := by
  induction h1 generalizing l2 with
  | nil =>
    cases h2
    exact List.Forall₂.nil
  | cons hab _ ih =>
    cases h2 with
    | cons hac htail =>
      exact List.Forall₂.cons
        (finishedRun_sameResult C pop hsticky _ (hsub _ (List.mem_cons_self _ _)) _ _ hab hac)
        (ih _ (fun a ha => hsub a (List.mem_cons_of_mem _ ha)) htail)

/-- Sticky agents that each finish at some pass all report finished at one common pass. -/
theorem sticky_common_pass (C : Collaborators G A W) (pop : List A)
    (hsticky : stickyAgents C pop) (l : List A) (hsub : ∀ a ∈ l, a ∈ pop)
    (hfinite : ∀ a ∈ l, ∃ k, reportsFinished C.evaluate k a = true) :
    ∃ K0, ∀ a ∈ l, reportsFinished C.evaluate K0 a = true := by
  induction l with
  | nil => exact ⟨0, fun a ha => absurd ha (List.not_mem_nil a)⟩
  | cons b rest ih =>
    obtain ⟨K1, hK1⟩ := ih (fun a ha => hsub a (List.mem_cons_of_mem _ ha))
      (fun a ha => hfinite a (List.mem_cons_of_mem _ ha))
    obtain ⟨kb, hkb⟩ := hfinite b (List.mem_cons_self _ _)
    refine ⟨max K1 kb, fun a ha => ?_⟩
    rcases List.mem_cons.1 ha with rfl | hin
    · have := (sticky_persists C pop hsticky a (hsub a (List.mem_cons_self _ _)) kb hkb
        (max K1 kb - kb)).1
      rwa [show kb + (max K1 kb - kb) = max K1 kb by omega] at this
    · have := (sticky_persists C pop hsticky a (hsub a (List.mem_cons_of_mem _ hin)) K1
        (hK1 a hin) (max K1 kb - K1)).1
      rwa [show K1 + (max K1 kb - K1) = max K1 kb by omega] at this

/-! ## Theorems: the two evaluation paths -/

theorem stickyAgents_of_statewise (C : Collaborators G A W)
    (h : ∀ b, (C.evaluate b).2 = true →
      (C.evaluate (C.evaluate b).1).2 = true ∧
      C.getFinished (C.evaluate (C.evaluate b).1).1 = C.getFinished (C.evaluate b).1 ∧
      C.getFitness (C.evaluate (C.evaluate b).1).1 = C.getFitness (C.evaluate b).1)
    (pop : List A) : stickyAgents C pop := by
  intro a _ k hk
  have := h (stepTimes C.evaluate k a) hk
  unfold reportsFinished
  rw [show k + 2 = (k + 1) + 1 by omega, stepTimes_succ C.evaluate (k + 1) a,
    stepTimes_succ C.evaluate k a]
  exact this

theorem demo_sticky (pop : List DemoAgent) : stickyAgents demo pop := by
  apply stickyAgents_of_statewise
  rintro ⟨genome, remaining, isFinished, fitness⟩ hb
  rcases remaining with _ | _ | r
  · simp [demo, demoEvaluate]
  · simp [demo, demoEvaluate]
  · simp [demo, demoEvaluate] at hb

theorem threaded_path_sound (C : Collaborators G A W) (s : Genepool G A) (fuel : Nat)
    (hinit : s.isGenepoolInitialized = true) (heval : s.isGenerationEvaluated = false)
    (hwf : s.WellFormed) (hsize : 1 ≤ s.populationSize) (hbound : s.populationSize ≤ 16777216)
    (hpool : 1 ≤ C.poolSize)
    (hok : (evaluateGeneration C fuel false (configThreading false true false s).2).1
      = Outcome.ok) :
    List.Forall₂ (FinishedRun C.evaluate) s.agentPopulation
      (evaluateGeneration C fuel false (configThreading false true false s).2).2.agentPopulation ∧
    (evaluateGeneration C fuel false
      (configThreading false true false s).2).2.isGenerationEvaluated = true ∧
    (evaluateGeneration C fuel false (configThreading false true false s).2).2.currentStep
      = s.currentStep + 1 := by
  obtain ⟨n, hn⟩ : ∃ n : Nat, s.populationSize = (n : Int) :=
    ⟨s.populationSize.toNat, (Int.toNat_of_nonneg (by omega)).symm⟩
  have hlen : s.agentPopulation.length = n := by
    have : (s.agentPopulation.length : Int) = (n : Int) := hwf.trans hn
    exact_mod_cast this
  obtain ⟨ht, hss, hcover⟩ := partition_bounds C.poolSize n (by omega) hpool (by omega)
  have hbranch := evaluateGeneration_threaded_branch C fuel false
    (configThreading false true false s).2 hinit heval rfl
    (by
      show 0 < partitionThreadCount C.poolSize s.populationSize
      rw [hn]
      omega)
  rw [hbranch] at hok ⊢
  cases fuel with
  | zero => simp [evaluateThreaded, configThreading, heval] at hok
  | succ f =>
    exact evaluateThreaded_full_sound C _ _ _ f (f + 1) (configThreading false true false s).2 _
      heval rfl
      (by
        show s.populationSize.toNat = s.agentPopulation.length
        rw [hn, Int.toNat_ofNat, hlen])
      (by
        show s.populationSize.toNat ≤
          (partitionThreadCount C.poolSize s.populationSize).toNat
            * (partitionSubsetSize s.populationSize
                (partitionThreadCount C.poolSize s.populationSize)).toNat
        rw [hn, Int.toNat_ofNat]
        exact hcover)
      (Prod.ext hok rfl)

theorem threaded_path_returns (C : Collaborators G A W) (s : Genepool G A) (K0 fuel : Nat)
    (hinit : s.isGenepoolInitialized = true) (heval : s.isGenerationEvaluated = false)
    (hwf : s.WellFormed) (hsize : 1 ≤ s.populationSize) (hbound : s.populationSize ≤ 16777216)
    (hpool : 1 ≤ C.poolSize)
    (hall : ∀ a ∈ s.agentPopulation, reportsFinished C.evaluate K0 a = true)
    (hfuel : K0 + 1 ≤ fuel) :
    (evaluateGeneration C fuel false (configThreading false true false s).2).1 = Outcome.ok := by
  obtain ⟨n, hn⟩ : ∃ n : Nat, s.populationSize = (n : Int) :=
    ⟨s.populationSize.toNat, (Int.toNat_of_nonneg (by omega)).symm⟩
  have hlen : s.agentPopulation.length = n := by
    have : (s.agentPopulation.length : Int) = (n : Int) := hwf.trans hn
    exact_mod_cast this
  obtain ⟨ht, hss, hcover⟩ := partition_bounds C.poolSize n (by omega) hpool (by omega)
  rw [evaluateGeneration_threaded_branch C fuel false
    (configThreading false true false s).2 hinit heval rfl
    (by
      show 0 < partitionThreadCount C.poolSize s.populationSize
      rw [hn]
      omega)]
  exact evaluateThreaded_full_returns C _ _ _ K0 fuel fuel
    (configThreading false true false s).2 heval rfl
    (by
      show s.populationSize.toNat = s.agentPopulation.length
      rw [hn, Int.toNat_ofNat, hlen])
    (by
      show s.populationSize.toNat ≤
        (partitionThreadCount C.poolSize s.populationSize).toNat
          * (partitionSubsetSize s.populationSize
              (partitionThreadCount C.poolSize s.populationSize)).toNat
      rw [hn, Int.toNat_ofNat]
      exact hcover)
    hall hfuel (by omega)

theorem single_path_sound (C : Collaborators G A W) (s : Genepool G A) (fuel : Nat)
    (hinit : s.isGenepoolInitialized = true) (heval : s.isGenerationEvaluated = false)
    (hok : (evaluateGeneration C fuel false (configThreading false false false s).2).1
      = Outcome.ok) :
    ∃ K,
      (evaluateGeneration C fuel false (configThreading false false false s).2).2.agentPopulation
        = s.agentPopulation.map (stepTimes C.evaluate (K + 1)) ∧
      (∀ a ∈ s.agentPopulation, reportsFinished C.evaluate K a = true) ∧
      (evaluateGeneration C fuel false
        (configThreading false false false s).2).2.isGenerationEvaluated = true ∧
      (evaluateGeneration C fuel false (configThreading false false false s).2).2.currentStep
        = s.currentStep + ((K + 1 : Nat) : Int) := by
  have hbranch := evaluateGeneration_single_branch C fuel false
    (configThreading false false false s).2 hinit heval rfl
  rw [hbranch] at hok ⊢
  exact evaluateSingleThreaded_full_sound C fuel (configThreading false false false s).2 _ heval
    (Prod.ext hok rfl)

theorem single_path_returns (C : Collaborators G A W) (s : Genepool G A) (K0 fuel : Nat)
    (hinit : s.isGenepoolInitialized = true) (heval : s.isGenerationEvaluated = false)
    (hall : ∀ a ∈ s.agentPopulation, reportsFinished C.evaluate K0 a = true)
    (hfuel : K0 + 1 ≤ fuel) :
    (evaluateGeneration C fuel false (configThreading false false false s).2).1 = Outcome.ok := by
  rw [evaluateGeneration_single_branch C fuel false
    (configThreading false false false s).2 hinit heval rfl]
  exact evaluateSingleThreaded_full_returns C K0 fuel _ hall hfuel

/-- C11, as the code has it: for an initialized, unevaluated genepool with between 1 and
`2 ^ 24 = 16777216` agents whose `evaluate()` is sticky, and a pool of at least one worker,
if the full evaluation (`singleStep = false`) returns both in the configuration
threaded-full-step without sync and in the single-threaded configuration, then the two
final populations show, agent by agent, the same finished flag and the same fitness. -/
theorem evaluation_paths_agree_when_sticky (C : Collaborators G A W) (s : Genepool G A)
    (fuelThreaded fuelSingle : Nat)
    (hinit : getGenepoolInitialized s = true) (heval : getGenerationEvaluated s = false)
    (hwf : s.WellFormed) (hsize : 1 ≤ s.populationSize) (hbound : s.populationSize ≤ 16777216)
    (hpool : 1 ≤ C.poolSize)
    (hsticky : stickyAgents C s.agentPopulation)
    (hthreaded : (evaluateGeneration C fuelThreaded false
      (configThreading false true false s).2).1 = Outcome.ok)
    (hsingle : (evaluateGeneration C fuelSingle false
      (configThreading false false false s).2).1 = Outcome.ok) :
    List.Forall₂ (sameResult C)
      (evaluateGeneration C fuelThreaded false
        (configThreading false true false s).2).2.agentPopulation
      (evaluateGeneration C fuelSingle false
        (configThreading false false false s).2).2.agentPopulation := by
  obtain ⟨hT, _, _⟩ :=
    threaded_path_sound C s fuelThreaded hinit heval hwf hsize hbound hpool hthreaded
  obtain ⟨K, hpop, hall, _, _⟩ := single_path_sound C s fuelSingle hinit heval hsingle
  rw [hpop]
  exact forall₂_sameResult C s.agentPopulation hsticky s.agentPopulation _ _ (fun _ h => h) hT
    (forall₂_finishedRun_map C.evaluate K _ hall)

/-- Up to `2 ^ 24 = 16777216` agents both evaluation paths terminate and agree: for an
initialized, unevaluated genepool with between 1 and 16777216 agents whose `evaluate()` is
sticky and each of which reports finished at some pass, and a pool of at least one worker,
there is an amount of fuel from which on the full evaluation returns in
both configurations (threaded-full-step without sync, and single-threaded) with the
evaluated flag true and with the same finished flag and fitness agent by agent. The
single-threaded path has then stepped every agent the same number `K + 1` of times and
counted `K + 1` steps, while the threaded path has made one round in which each agent went
through a finished run of its own length. -/
theorem evaluation_paths_terminate_and_agree (C : Collaborators G A W) (s : Genepool G A)
    (hinit : getGenepoolInitialized s = true) (heval : getGenerationEvaluated s = false)
    (hwf : s.WellFormed) (hsize : 1 ≤ s.populationSize) (hbound : s.populationSize ≤ 16777216)
    (hpool : 1 ≤ C.poolSize)
    (hsticky : stickyAgents C s.agentPopulation)
    (hfinite : ∀ a ∈ s.agentPopulation, ∃ k, reportsFinished C.evaluate k a = true) :
    ∃ fuel0, ∀ fuel, fuel0 ≤ fuel →
      (evaluateGeneration C fuel false (configThreading false true false s).2).1 = Outcome.ok ∧
      (evaluateGeneration C fuel false (configThreading false false false s).2).1 = Outcome.ok ∧
      getGenerationEvaluated
        (evaluateGeneration C fuel false (configThreading false true false s).2).2 = true ∧
      getGenerationEvaluated
        (evaluateGeneration C fuel false (configThreading false false false s).2).2 = true ∧
      List.Forall₂ (sameResult C)
        (evaluateGeneration C fuel false (configThreading false true false s).2).2.agentPopulation
        (evaluateGeneration C fuel false
          (configThreading false false false s).2).2.agentPopulation ∧
      List.Forall₂ (FinishedRun C.evaluate) s.agentPopulation
        (evaluateGeneration C fuel false
          (configThreading false true false s).2).2.agentPopulation ∧
      (evaluateGeneration C fuel false (configThreading false true false s).2).2.currentStep
        = s.currentStep + 1 ∧
      ∃ K,
        (evaluateGeneration C fuel false
          (configThreading false false false s).2).2.agentPopulation
          = s.agentPopulation.map (stepTimes C.evaluate (K + 1)) ∧
        (evaluateGeneration C fuel false (configThreading false false false s).2).2.currentStep
          = s.currentStep + ((K + 1 : Nat) : Int) := by
  obtain ⟨K0, hK0⟩ := sticky_common_pass C s.agentPopulation hsticky s.agentPopulation
    (fun _ h => h) hfinite
  refine ⟨K0 + 1, fun fuel hfuel => ?_⟩
  have hokT := threaded_path_returns C s K0 fuel hinit heval hwf hsize hbound hpool hK0 hfuel
  have hokS := single_path_returns C s K0 fuel hinit heval hK0 hfuel
  obtain ⟨hT, hTev, hTstep⟩ :=
    threaded_path_sound C s fuel hinit heval hwf hsize hbound hpool hokT
  obtain ⟨K, hpop, hall, hSev, hSstep⟩ := single_path_sound C s fuel hinit heval hokS
  refine ⟨hokT, hokS, hTev, hSev, ?_, hT, hTstep, K, hpop, hSstep⟩
  rw [hpop]
  exact forall₂_sameResult C s.agentPopulation hsticky s.agentPopulation _ _ (fun _ h => h) hT
    (forall₂_finishedRun_map C.evaluate K _ hall)

theorem evaluation_paths_agree_when_sticky_witness :
    stickyAgents demo
      (demoPool [demoUnfinished 1 1, demoUnfinished 2 3, demoUnfinished 5 2] false).agentPopulation ∧
    (evaluateGeneration demo 5 false (configThreading false true false
      (demoPool [demoUnfinished 1 1, demoUnfinished 2 3, demoUnfinished 5 2] false)).2).1
        = Outcome.ok ∧
    List.Forall₂ (sameResult demo)
      (evaluateGeneration demo 5 false (configThreading false true false
        (demoPool [demoUnfinished 1 1, demoUnfinished 2 3, demoUnfinished 5 2] false)).2).2.agentPopulation
      (evaluateGeneration demo 4 false (configThreading false false false
        (demoPool [demoUnfinished 1 1, demoUnfinished 2 3, demoUnfinished 5 2] false)).2).2.agentPopulation :=
  have hall : ∀ a ∈ (demoPool [demoUnfinished 1 1, demoUnfinished 2 3, demoUnfinished 5 2]
      false).agentPopulation, reportsFinished demo.evaluate 2 a = true := by
    intro a ha
    simp only [demoPool, List.mem_cons, List.mem_singleton, List.not_mem_nil, or_false] at ha
    rcases ha with rfl | rfl | rfl <;> rfl
  have hT := threaded_path_returns demo
    (demoPool [demoUnfinished 1 1, demoUnfinished 2 3, demoUnfinished 5 2] false) 2 5 rfl rfl rfl
    (by decide) (by decide) (by decide) hall (by decide)
  have hS := single_path_returns demo
    (demoPool [demoUnfinished 1 1, demoUnfinished 2 3, demoUnfinished 5 2] false) 2 4 rfl rfl
    hall (by decide)
  ⟨demo_sticky _, hT,
    evaluation_paths_agree_when_sticky demo
      (demoPool [demoUnfinished 1 1, demoUnfinished 2 3, demoUnfinished 5 2] false) 5 4
      rfl rfl rfl (by decide) (by decide) (by decide) (demo_sticky _) hT hS⟩

/-- C11, as stated, fails: `greedyEvaluate` is a deterministic function of the agent's own
state. With two agents needing 1 and 2 steps and a pool of two workers, the threaded full
evaluation without sync steps the first agent once (its task stops after its first pass)
and the single-threaded one steps it twice (the second pass is needed by the other agent):
both return with the evaluated flag true, but the first agent ends with fitness 1 on the
threaded path and fitness 2 on the single-threaded path. -/
theorem evaluation_paths_differ_for_greedy_agents :
    getGenepoolInitialized (demoPool [demoUnfinished 1 1, demoUnfinished 2 2] false) = true ∧
    getGenerationEvaluated (demoPool [demoUnfinished 1 1, demoUnfinished 2 2] false) = false ∧
    1 ≤ greedy.poolSize ∧
    (evaluateGeneration greedy 5 false (configThreading false true false
      (demoPool [demoUnfinished 1 1, demoUnfinished 2 2] false)).2).1 = Outcome.ok ∧
    (evaluateGeneration greedy 5 false (configThreading false false false
      (demoPool [demoUnfinished 1 1, demoUnfinished 2 2] false)).2).1 = Outcome.ok ∧
    (evaluateGeneration greedy 5 false (configThreading false true false
      (demoPool [demoUnfinished 1 1, demoUnfinished 2 2] false)).2).2.agentPopulation
      = [{ genome := 1, remaining := 0, isFinished := true, fitness := 1 },
         { genome := 2, remaining := 0, isFinished := true, fitness := 2 }] ∧
    (evaluateGeneration greedy 5 false (configThreading false false false
      (demoPool [demoUnfinished 1 1, demoUnfinished 2 2] false)).2).2.agentPopulation
      = [{ genome := 1, remaining := 0, isFinished := true, fitness := 2 },
         { genome := 2, remaining := 0, isFinished := true, fitness := 2 }] ∧
    ¬ List.Forall₂ (sameResult greedy)
      (evaluateGeneration greedy 5 false (configThreading false true false
        (demoPool [demoUnfinished 1 1, demoUnfinished 2 2] false)).2).2.agentPopulation
      (evaluateGeneration greedy 5 false (configThreading false false false
        (demoPool [demoUnfinished 1 1, demoUnfinished 2 2] false)).2).2.agentPopulation := by
  have hss : partitionSubsetSize 2 2 = 1 := by
    have := partitionSubsetSize_exact 2 2 (by norm_num) (by norm_num) (by norm_num)
    simp only [Nat.cast_ofNat] at this
    rw [this]
    norm_num
  have hbranch : evaluateGeneration greedy 5 false (configThreading false true false
      (demoPool [demoUnfinished 1 1, demoUnfinished 2 2] false)).2
      = evaluateThreaded greedy false 2 1 2 5 5 (configThreading false true false
        (demoPool [demoUnfinished 1 1, demoUnfinished 2 2] false)).2 := by
    rw [evaluateGeneration_threaded_branch greedy 5 false (configThreading false true false
      (demoPool [demoUnfinished 1 1, demoUnfinished 2 2] false)).2 rfl rfl rfl (by decide)]
    show evaluateThreaded greedy false 2 (partitionSubsetSize 2 2).toNat 2 5 5 _ = _
    rw [hss]
    rfl
  have hT : (evaluateGeneration greedy 5 false (configThreading false true false
      (demoPool [demoUnfinished 1 1, demoUnfinished 2 2] false)).2).2.agentPopulation
      = [{ genome := 1, remaining := 0, isFinished := true, fitness := 1 },
         { genome := 2, remaining := 0, isFinished := true, fitness := 2 }] := by
    rw [hbranch]
    norm_num [configThreading, demoPool, demoUnfinished,
      Genepool.constructed, greedy, demo, evaluateThreaded, evaluateRound, evaluateSubset,
      evaluateRange, greedyEvaluate]
  have hS : (evaluateGeneration greedy 5 false (configThreading false false false
      (demoPool [demoUnfinished 1 1, demoUnfinished 2 2] false)).2).2.agentPopulation
      = [{ genome := 1, remaining := 0, isFinished := true, fitness := 2 },
         { genome := 2, remaining := 0, isFinished := true, fitness := 2 }] := by
    norm_num [evaluateGeneration, configThreading, demoPool, demoUnfinished,
      Genepool.constructed, greedy, demo, evaluateSingleThreaded, evaluatePass, greedyEvaluate]
  refine ⟨rfl, rfl, by decide, ?_, ?_, hT, hS, ?_⟩
  · rw [hbranch]
    norm_num [configThreading, demoPool, demoUnfinished,
      Genepool.constructed, greedy, demo, evaluateThreaded, evaluateRound, evaluateSubset,
      evaluateRange, greedyEvaluate]
  · norm_num [evaluateGeneration, configThreading, demoPool, demoUnfinished,
      Genepool.constructed, greedy, demo, evaluateSingleThreaded, evaluatePass, greedyEvaluate]
  · rw [hT, hS]
    intro h
    cases h with
    | cons hhead _ =>
      have := hhead.2
      norm_num [greedy, demo] at this

theorem evaluation_paths_terminate_and_agree_witness :
    stickyAgents demo
      (demoPool [demoUnfinished 1 1, demoUnfinished 2 3, demoUnfinished 5 2] false).agentPopulation ∧
    ∃ fuel0, ∀ fuel, fuel0 ≤ fuel →
      (evaluateGeneration demo fuel false (configThreading false true false
        (demoPool [demoUnfinished 1 1, demoUnfinished 2 3, demoUnfinished 5 2] false)).2).1
          = Outcome.ok ∧
      (evaluateGeneration demo fuel false (configThreading false false false
        (demoPool [demoUnfinished 1 1, demoUnfinished 2 3, demoUnfinished 5 2] false)).2).1
          = Outcome.ok :=
  ⟨demo_sticky _,
    (evaluation_paths_terminate_and_agree demo
      (demoPool [demoUnfinished 1 1, demoUnfinished 2 3, demoUnfinished 5 2] false)
      rfl rfl rfl (by decide) (by decide) (by decide) (demo_sticky _)
      (by
        intro a ha
        simp only [demoPool, List.mem_cons, List.mem_singleton, List.not_mem_nil, or_false] at ha
        rcases ha with rfl | rfl | rfl
        · exact ⟨0, rfl⟩
        · exact ⟨2, rfl⟩
        · exact ⟨1, rfl⟩)).imp
      (fun _ h fuel hfuel => ⟨(h fuel hfuel).1, (h fuel hfuel).2.1⟩)⟩

/-! ## Theorems: a population of more than `2 ^ 24` agents -/

theorem partitionSubsetSize_large : partitionSubsetSize 16777217 2 = 8388608 := by
  unfold partitionSubsetSize
  have := float_division_16777217
  norm_num at this ⊢
  exact this

theorem demoEvaluate_unfinished_one :
    demo.evaluate (demoUnfinished 1 1) = (demoAgent 1 1, true) := by
  norm_num [demo, demoEvaluate, demoUnfinished, demoAgent]

theorem largePool_populationSize : largePool.populationSize = 16777217 := by
  simp only [largePool, demoPool, largePopulation, List.length_replicate]
  rfl

theorem largePopulation_length : largePopulation.length = 16777217 := by
  simp only [largePopulation, List.length_replicate]

theorem largePopulation_done (a : DemoAgent) (ha : a ∈ largePopulation) :
    (demo.evaluate a).2 = true := by
  rw [List.eq_of_mem_replicate ha, demoEvaluate_unfinished_one]

/-- The population `largePopulation` after the first 16777216 agents have been stepped
once. -/
theorem largePopulation_partly_stepped :
    (largePopulation.take (2 * 8388608)).map (fun a => (demo.evaluate a).1)
        ++ largePopulation.drop (2 * 8388608)
      = List.replicate 16777216 (demoAgent 1 1) ++ [demoUnfinished 1 1] := by
  have h1 : min (2 * 8388608) 16777217 = 16777216 := by norm_num
  have h2 : 16777217 - 2 * 8388608 = 1 := by norm_num
  simp only [largePopulation, List.take_replicate, List.drop_replicate, List.map_replicate,
    demoEvaluate_unfinished_one, h1, h2]
  rfl

theorem largePopulation_stepped :
    largePopulation.map (stepTimes demo.evaluate (0 + 1))
      = List.replicate 16777217 (demoAgent 1 1) := by
  simp only [largePopulation, List.map_replicate, stepTimes, demoEvaluate_unfinished_one]

/-- The threaded branch on a genepool that holds `largePopulation`, with the pool of two
workers: the two tasks get the ranges `[0, 8388608)` and `[8388608, 16777216)`, the round
reports every slice finished, and the agent at index 16777216 has not been stepped. -/
theorem large_threaded (singleStep : Bool) (s : Genepool ℚ DemoAgent) (fuel : Nat)
    (hinit : s.isGenepoolInitialized = true) (heval : s.isGenerationEvaluated = false)
    (hsize : s.populationSize = 16777217) (hpop : s.agentPopulation = largePopulation)
    (hbranch : ((s.useThreadedStep && singleStep) || (s.useThreadedFullStep && !singleStep))
      = true) :
    evaluateGeneration demo (fuel + 1) singleStep s =
      (Outcome.ok,
        { s with
          agentPopulation := List.replicate 16777216 (demoAgent 1 1) ++ [demoUnfinished 1 1]
          isGenerationEvaluated := true
          currentStep := s.currentStep + 1 }) := by
  have htc : partitionThreadCount demo.poolSize s.populationSize = 2 := by
    rw [hsize]
    rfl
  have hss : partitionSubsetSize s.populationSize 2 = 8388608 := by
    rw [hsize]
    exact partitionSubsetSize_large
  have hn : s.populationSize.toNat = 16777217 := by
    rw [hsize]
    rfl
  rw [evaluateGeneration_threaded_branch demo _ _ s hinit heval hbranch (by rw [htc]; decide),
    htc, hss, hn]
  show evaluateThreaded demo singleStep 2 8388608 16777217 (fuel + 1) (fuel + 1) s = _
  rw [evaluateThreaded_onepass demo singleStep 2 8388608 16777217 fuel fuel s heval
    (by rw [hpop, largePopulation_length]) (by norm_num)
    (fun a ha => largePopulation_done a (hpop ▸ List.mem_of_mem_take ha)),
    hpop, largePopulation_partly_stepped]

/-- The single-threaded branch on a genepool that holds `largePopulation`: one pass steps
every agent, the one at index 16777216 included. -/
theorem large_single (s : Genepool ℚ DemoAgent) (fuel : Nat)
    (hinit : s.isGenepoolInitialized = true) (heval : s.isGenerationEvaluated = false)
    (hpop : s.agentPopulation = largePopulation)
    (hbranch : ((s.useThreadedStep && false) || (s.useThreadedFullStep && !false)) = false) :
    evaluateGeneration demo (fuel + 1) false s =
      (Outcome.ok,
        { s with
          agentPopulation := List.replicate 16777217 (demoAgent 1 1)
          isGenerationEvaluated := true
          currentStep := s.currentStep + 1 }) := by
  rw [evaluateGeneration_single_branch demo _ _ s hinit heval hbranch,
    evaluateSingleThreaded_full demo 0 (fuel + 1) s heval
      (fun a ha => largePopulation_done a (hpop ▸ ha)) (fun k hk => absurd hk (by omega))
      (by omega),
    hpop, largePopulation_stepped]
  rfl

theorem largePool_wellFormed : largePool.WellFormed := rfl

theorem large_results_differ :
    ¬ List.Forall₂ (sameResult demo)
      (List.replicate 16777216 (demoAgent 1 1) ++ [demoUnfinished 1 1])
      (List.replicate 16777217 (demoAgent 1 1)) := by
  intro h
  have hd := List.forall₂_drop 16777216 h
  rw [List.drop_left' (List.length_replicate _ _), List.drop_replicate] at hd
  have h1 : 16777217 - 16777216 = 1 := by norm_num
  rw [h1] at hd
  cases hd with
  | cons hhead _ =>
    have := hhead.2
    norm_num [demo, demoUnfinished, demoAgent] at this

theorem large_populations_differ :
    List.replicate 16777216 (demoAgent 1 1) ++ [demoUnfinished 1 1]
      ≠ List.replicate 16777217 (demoAgent 1 1) := by
  intro h
  apply large_results_differ
  rw [h]
  exact List.forall₂_same.2 (fun _ _ => ⟨rfl, rfl⟩)

/-- C14 at a population of 16777217 agents with a pool of two workers: the thread count is
2 and the float quotient of line 140 is `16777216 / 2`, so the subset size is 8388608 where
`ceil(16777217 / 2)` is 8388609. The two ranges are `[0, 8388608)` and
`[8388608, 16777216)`: the index 16777216 lies in no range. A round in which each task
makes one pass therefore steps the first 16777216 agents and leaves the last agent as it
was, and the threaded single step of `evaluateGeneration` returns with that population and
with the evaluated flag true. -/
theorem partition_misses_last_agent :
    partitionThreadCount demo.poolSize 16777217 = 2 ∧
    partitionSubsetSize 16777217 (partitionThreadCount demo.poolSize 16777217) = 8388608 ∧
    ⌈(16777217 : ℚ) / 2⌉ = 8388609 ∧
    (∀ i, i < (partitionThreadCount demo.poolSize 16777217).toNat →
      ¬ (partitionStart
          (partitionSubsetSize 16777217 (partitionThreadCount demo.poolSize 16777217)).toNat i
            ≤ 16777216 ∧
        16777216 < partitionEnd
          (partitionSubsetSize 16777217 (partitionThreadCount demo.poolSize 16777217)).toNat
          16777217 i)) ∧
    largePopulation.length = 16777217 ∧
    (∀ taskFuel : Nat,
      evaluateRound demo true
          (partitionSubsetSize 16777217 (partitionThreadCount demo.poolSize 16777217)).toNat
          16777217 (taskFuel + 1) (partitionThreadCount demo.poolSize 16777217).toNat 0
          largePopulation true
        = (Outcome.ok, List.replicate 16777216 (demoAgent 1 1) ++ [demoUnfinished 1 1], true)) ∧
    (∀ fuel : Nat,
      evaluateGeneration demo (fuel + 1) true (configThreading true false false largePool).2 =
        (Outcome.ok,
          { (configThreading true false false largePool).2 with
            agentPopulation := List.replicate 16777216 (demoAgent 1 1) ++ [demoUnfinished 1 1]
            isGenerationEvaluated := true
            currentStep := 8 })) := by
  have htc : partitionThreadCount demo.poolSize 16777217 = 2 := rfl
  have hss : partitionSubsetSize 16777217 (partitionThreadCount demo.poolSize 16777217)
      = 8388608 := by
    rw [htc]
    exact partitionSubsetSize_large
  have htcn : (partitionThreadCount demo.poolSize 16777217).toNat = 2 := by
    rw [htc]
    rfl
  have hssn : (partitionSubsetSize 16777217
      (partitionThreadCount demo.poolSize 16777217)).toNat = 8388608 := by
    rw [hss]
    rfl
  refine ⟨htc, hss, ?_, ?_, largePopulation_length, ?_, ?_⟩
  · rw [Int.ceil_eq_iff]
    norm_num
  · intro i hi
    rw [htcn] at hi
    rw [hssn]
    unfold partitionStart partitionEnd
    omega
  · intro taskFuel
    rw [htcn, hssn]
    have := evaluateRound_onepass demo true 8388608 16777217 taskFuel 2 0 [] largePopulation
      true (by rw [List.length_nil, largePopulation_length, Nat.zero_add]) (by simp) (by
        rw [largePopulation_length]
        norm_num)
      (fun a ha => largePopulation_done a (List.mem_of_mem_take ha))
    rw [List.nil_append, List.nil_append, largePopulation_partly_stepped] at this
    exact this
  · intro fuel
    exact large_threaded true (configThreading true false false largePool).2 fuel rfl rfl
      largePool_populationSize rfl rfl

/-- C15 at a population of 16777217 agents that each finish at their first step, with a
pool of two workers: the full evaluation in the configuration threaded-full-step with sync
returns after one round with the evaluated flag true and the step counter at 8, and the
agent at index 16777216 has not been stepped (it is still unfinished with fitness 0), while
the single-threaded full evaluation returns with the same flag and step counter and with
every agent stepped once. -/
theorem sync_evaluation_skips_last_agent :
    getGenepoolInitialized largePool = true ∧
    getGenerationEvaluated largePool = false ∧
    largePool.WellFormed ∧
    largePool.populationSize = 16777217 ∧
    1 ≤ demo.poolSize ∧
    (configThreading false true true largePool).1 = Outcome.ok ∧
    (configThreading false false false largePool).1 = Outcome.ok ∧
    (∀ fuel : Nat,
      evaluateGeneration demo (fuel + 1) false (configThreading false true true largePool).2 =
        (Outcome.ok,
          { (configThreading false true true largePool).2 with
            agentPopulation := List.replicate 16777216 (demoAgent 1 1) ++ [demoUnfinished 1 1]
            isGenerationEvaluated := true
            currentStep := 8 })) ∧
    (∀ fuel : Nat,
      evaluateGeneration demo (fuel + 1) false (configThreading false false false largePool).2 =
        (Outcome.ok,
          { (configThreading false false false largePool).2 with
            agentPopulation := List.replicate 16777217 (demoAgent 1 1)
            isGenerationEvaluated := true
            currentStep := 8 })) ∧
    List.replicate 16777216 (demoAgent 1 1) ++ [demoUnfinished 1 1]
      ≠ List.replicate 16777217 (demoAgent 1 1) :=
  ⟨rfl, rfl, largePool_wellFormed, largePool_populationSize, by decide, rfl, rfl,
    fun fuel => large_threaded false (configThreading false true true largePool).2 fuel rfl rfl
      largePool_populationSize rfl rfl,
    fun fuel => large_single (configThreading false false false largePool).2 fuel rfl rfl rfl rfl,
    large_populations_differ⟩

/-- C20 at a population of 16777217 sticky agents that each finish at their first step,
with a pool of two workers: the full evaluation in the configuration threaded-full-step
without sync returns with the evaluated flag true although the agent at index 16777216 has
never been stepped; the single-threaded full evaluation returns with every agent stepped
once; the two final populations do not show the same finished flag and fitness agent by
agent. -/
theorem unsync_evaluation_skips_last_agent :
    getGenepoolInitialized largePool = true ∧
    getGenerationEvaluated largePool = false ∧
    largePool.WellFormed ∧
    largePool.populationSize = 16777217 ∧
    1 ≤ demo.poolSize ∧
    stickyAgents demo largePool.agentPopulation ∧
    (∀ a ∈ largePool.agentPopulation, reportsFinished demo.evaluate 0 a = true) ∧
    (∀ fuel : Nat,
      (evaluateGeneration demo (fuel + 1) false (configThreading false true false largePool).2).1
        = Outcome.ok ∧
      getGenerationEvaluated
        (evaluateGeneration demo (fuel + 1) false
          (configThreading false true false largePool).2).2 = true ∧
      (evaluateGeneration demo (fuel + 1) false
          (configThreading false true false largePool).2).2.agentPopulation
        = List.replicate 16777216 (demoAgent 1 1) ++ [demoUnfinished 1 1] ∧
      (evaluateGeneration demo (fuel + 1) false (configThreading false false false largePool).2).1
        = Outcome.ok ∧
      getGenerationEvaluated
        (evaluateGeneration demo (fuel + 1) false
          (configThreading false false false largePool).2).2 = true ∧
      (evaluateGeneration demo (fuel + 1) false
          (configThreading false false false largePool).2).2.agentPopulation
        = List.replicate 16777217 (demoAgent 1 1) ∧
      ¬ List.Forall₂ (sameResult demo)
        (evaluateGeneration demo (fuel + 1) false
          (configThreading false true false largePool).2).2.agentPopulation
        (evaluateGeneration demo (fuel + 1) false
          (configThreading false false false largePool).2).2.agentPopulation) := by
  refine ⟨rfl, rfl, largePool_wellFormed, largePool_populationSize, by decide, demo_sticky _,
    fun a ha => largePopulation_done a ha, fun fuel => ?_⟩
  rw [large_threaded false (configThreading false true false largePool).2 fuel rfl rfl
      largePool_populationSize rfl rfl,
    large_single (configThreading false false false largePool).2 fuel rfl rfl rfl rfl]
  exact ⟨rfl, rfl, rfl, rfl, rfl, rfl, large_results_differ⟩

end tbml.ga
